import Mathlib

/-!
# Bus Pirate EEPROM engines

A shallow embedding of the three programs of the repository

* `bus_pirate_write_all.c` (batched write engine, namespace `WriteAll`),
* `bus_pirate_write.c` (single-byte write engine, namespace `Write`),
* `bus_pirate_read.c` (single-byte read engine, namespace `Read`),

together with the properties of their protocol framing and response validation.
The namespace `Single` holds the step shape the two single-byte engines share;
`Scripted` and `Ideal` are devices to run the engines against.

Conventions of the embedding.

* A byte is a natural number (the bit pattern of the C `char`); a store of an `int`
  into a `char` is written `% 256`.
* A C array is a function `Nat → Nat` from index to byte (`setAt` is the assignment
  `a[i] = v`).  The input line is an immutable list, read with `byteAt`: the bytes
  behind the line are the zero bytes `bzero` left in `inputbuffer`.
* The serial device is a state machine `Chan σ`: `write` tells whether `write(2)`
  succeeded (`false` is the `-1` result) and `read` yields `none` for the `-1` result
  or the bytes delivered, of which the engine takes at most the count it asked for.
* Every `write` and `read` call is recorded, in order, in the `log` of the state.
* `exit (n)` is the exit code `n`; falling off the end of `main` is exit code `0`.
-/

/-- One call on the serial channel, as recorded in the log. -/
inductive Event where
  | write (bytes : List Nat)
  | read (count : Nat) (got : Option (List Nat))
  deriving DecidableEq, Repr

/-- The serial device seen through `write(2)` and `read(2)`. -/
structure Chan (σ : Type) where
  write : σ → List Nat → Bool × σ
  read : σ → Nat → Option (List Nat) × σ

/-- The byte at index `i` of a list; the zero byte behind its end. -/
def byteAt (l : List Nat) (i : Nat) : Nat :=
  l.getD i 0

/-- The assignment `a[i] = v` on an array. -/
def setAt (a : Nat → Nat) (i v : Nat) : Nat → Nat :=
  fun k => if k = i then v else a k

/-- The return value of `read(fd, buf, n)`: `-1`, or the number of bytes stored. -/
def readResult (n : Nat) (got : Option (List Nat)) : Int :=
  match got with
  | none => -1
  | some bs => ((bs.take n).length : Int)

/-- The buffer after `read(fd, buf, n)`: the bytes delivered overwrite its start. -/
def readInto (buf : Nat → Nat) (n : Nat) (got : Option (List Nat)) : Nat → Nat :=
  match got with
  | none => buf
  | some bs => fun i => if i < (bs.take n).length then byteAt (bs.take n) i else buf i

/-- The bytes written by the calls of a log, one list per `write` call. -/
def writesOf : List Event → List (List Nat)
  | [] => []
  | Event.write bs :: rest => bs :: writesOf rest
  | Event.read _ _ :: rest => writesOf rest

/-- The library function `strncmp (s1, s2, n)` on a literal `s1` (its terminating NUL
is the default of `headD`) and an array `s2` read from `off`. -/
def strncmp (s1 : List Nat) (s2 : Nat → Nat) : Nat → Nat → Int
  | _, 0 => 0
  | off, n + 1 =>
    if s1.headD 0 ≠ s2 off then (s1.headD 0 : Int) - (s2 off : Int)
    else if s1.headD 0 = 0 then 0
    else strncmp s1.tail s2 (off + 1) n

/-- The library function `fgets (buf, size, stdin)`: the bytes stored in front of the
terminating NUL, at most `size - 1` of them, ending with the first newline. -/
def fgets : Nat → List Nat → List Nat
  | 0, _ => []
  | 1, _ => []
  | _ + 2, [] => []
  | n + 2, c :: cs => if c = 10 then [c] else c :: fgets (n + 1) cs

/-- The library function `strlen` on a zero-filled buffer holding `line`. -/
def strlen : List Nat → Nat
  | [] => 0
  | c :: cs => if c = 0 then 0 else strlen cs + 1

/-- The literal `"BBIO1"`. -/
def litBBIO1 : List Nat := [66, 66, 73, 79, 49]

/-- The literal `"I2C1"`. -/
def litI2C1 : List Nat := [73, 50, 67, 49]

/-- The literal `"BBIO1I2C1"`. -/
def litBBIO1I2C1 : List Nat := [66, 66, 73, 79, 49, 73, 50, 67, 49]

namespace WriteAll

/-- `#define BUFFERSIZE 256` -/
def BUFFERSIZE : Nat := 256

/-- The variables of `main` that change during the run, with the device and the log. -/
structure State (σ : Type) where
  dev : σ
  BPbuffer : Nat → Nat
  writebuffer : Nat → Nat
  writeaddress : Nat
  inputbuffercount : Nat
  log : List Event

/-- Lines 53 and 70-84: `bzero (writebuffer)` and the static and placeholder values. -/
def initialWritebuffer : Nat → Nat :=
  let wb : Nat → Nat := fun _ => 0
  let wb := setAt wb 20 0x02
  let wb := setAt wb 21 0x4C
  let wb := setAt wb 22 0x02
  let wb := setAt wb 23 0x1F
  let wb := setAt wb 24 0xA0
  let wb := setAt wb 25 0xAA
  let wb := (List.range 8).foldl (fun w i => setAt w (26 + i) 0xBB) wb
  let wb := setAt wb 34 0x03
  let wb := setAt wb 35 0x00
  let wb := setAt wb 36 0x0F
  setAt wb 37 0xEE

/-- Lines 47-54: the state before the main loop. -/
def initialState {σ : Type} (dev : σ) : State σ :=
  { dev := dev
    BPbuffer := fun _ => 0
    writebuffer := initialWritebuffer
    writeaddress := 0
    inputbuffercount := 0
    log := [] }

/-- The statement `numloops = numloops++;` of line 134.  The value of `numloops++` is
the value before the increment and the assignment stores it; C leaves the order of
that store and of the increment open.  With `late = false` the store comes last and
`numloops` keeps its value; with `late = true` the increment comes last. -/
def postIncAssign (late : Bool) (n : Nat) : Nat :=
  if late then n + 1 else n

/-- Lines 128-135: the number of passes of the main loop, from `strlen (inputbuffer)`. -/
def numloops (late : Bool) (len : Nat) : Nat :=
  if len / 8 = 0 then 1
  else if len % 8 > 0 then postIncAssign late (len / 8)
  else len / 8

/-- Lines 147-154: the data-copy loop `for (j = 0; j < 8; j++)`.  The first argument
is the number of passes left, `8 - j`; the result is `j`, the write buffer and
`inputbuffercount` when the loop ends. -/
def copyLoop (inputbuffer : List Nat) :
    Nat → Nat → (Nat → Nat) → Nat → Nat × (Nat → Nat) × Nat
  | 0, j, wb, cnt => (j, wb, cnt)
  | left + 1, j, wb, cnt =>
    let wb1 := setAt wb (26 + j) (byteAt inputbuffer cnt)
    let cnt1 := cnt + 1
    if byteAt inputbuffer j = 10 then (j + 1, wb1, cnt1)
    else copyLoop inputbuffer left (j + 1) wb1 cnt1

/-- Lines 157-162: the bulk-write command and the trailer, patched in behind the
`j` data bytes. -/
def patchTrailer (wb : Nat → Nat) (j : Nat) : Nat → Nat :=
  let wb1 := setAt wb 23 ((16 + 1 + j) % 256)
  let wb2 := setAt wb1 (26 + j) 0x03
  let wb3 := setAt wb2 (27 + j) 0x00
  let wb4 := setAt wb3 (28 + j) 0x0F
  setAt wb4 (29 + j) 0xEE

/-- Lines 141-162: the batch length `j`, the write buffer and `inputbuffercount`
once the buffer of a batch is filled and patched. -/
def fill (inputbuffer : List Nat) (wb : Nat → Nat) (writeaddress cnt : Nat) :
    Nat × (Nat → Nat) × Nat :=
  let r := copyLoop inputbuffer 8 0 (setAt wb 25 (writeaddress % 256)) cnt
  (r.1, patchTrailer r.2.1 r.1, r.2.2)

/-- Lines 232-239: the loop `for (k = 0; k < j; k++)` over the data acknowledgements;
`none` is `exit (4)`, otherwise the value of `k` when the loop ends. -/
def ackLoop (BPbuffer : Nat → Nat) : Nat → Nat → Option Nat
  | 0, k => some k
  | left + 1, k => if BPbuffer (14 + k) ≠ 0 then none else ackLoop BPbuffer left (k + 1)

/-- Lines 197-254: the checks on the fused response; `some 4` is `exit (4)`. -/
def validate (BPbuffer : Nat → Nat) (j : Nat) : Option Nat :=
  if strncmp litBBIO1 BPbuffer 0 5 ≠ 0 then some 4
  else if strncmp litBBIO1I2C1 BPbuffer 0 9 ≠ 0 then some 4
  else if BPbuffer 9 ≠ 1 then some 4
  else if BPbuffer 10 ≠ 1 then some 4
  else if BPbuffer 11 ≠ 1 then some 4
  else if BPbuffer 12 ≠ 0 then some 4
  else if BPbuffer 13 ≠ 0 then some 4
  else
    match ackLoop BPbuffer j 0 with
    | none => some 4
    | some k =>
      if BPbuffer (14 + k) ≠ 1 then some 4
      else if BPbuffer (15 + k) ≠ 66 ∧ BPbuffer (16 + k) ≠ 66 ∧ BPbuffer (17 + k) ≠ 73
          ∧ BPbuffer (18 + k) ≠ 79 then some 4
      else if BPbuffer (20 + k) ≠ 1 then some 4
      else none

/-- Lines 140-165, first half of the loop body: fill and patch the write buffer and
send it with one `write`. -/
def sendBatch {σ : Type} (ch : Chan σ) (inputbuffer : List Nat) (st : State σ) :
    Bool × Nat × State σ :=
  let f := fill inputbuffer st.writebuffer st.writeaddress st.inputbuffercount
  let j := f.1
  let out := (List.range (29 + j)).map f.2.1
  let w := ch.write st.dev out
  (w.1, j, { st with dev := w.2, writebuffer := f.2.1, inputbuffercount := f.2.2,
                     log := st.log ++ [Event.write out] })

/-- Lines 258-261: the two reads of 132 bytes that take up the banner. -/
def drain {σ : Type} (ch : Chan σ) (st : State σ) : State σ :=
  let r1 := ch.read st.dev 132
  let b1 := readInto st.BPbuffer 132 r1.1
  let r2 := ch.read r1.2 132
  let b2 := readInto b1 132 r2.1
  { st with dev := r2.2, BPbuffer := b2,
            log := st.log ++ [Event.read 132 r1.1, Event.read 132 r2.1] }

/-- Lines 188-189: `read (fd, &BPbuffer, 21 + j + 1)`, the one read of the fused
response. -/
def readResponse {σ : Type} (ch : Chan σ) (j : Nat) (st : State σ) : State σ :=
  let r := ch.read st.dev (21 + j + 1)
  { st with dev := r.2, BPbuffer := readInto st.BPbuffer (21 + j + 1) r.1,
            log := st.log ++ [Event.read (21 + j + 1) r.1] }

/-- Lines 138-265: one pass of the main loop.  `some n` is `exit (n)`. -/
def batch {σ : Type} (ch : Chan σ) (inputbuffer : List Nat) (st : State σ) :
    Option Nat × State σ :=
  let s := sendBatch ch inputbuffer st
  let j := s.2.1
  if s.1 = false then (some 2, s.2.2)
  else
    let st1 := readResponse ch j s.2.2
    if readResult (21 + j + 1) (ch.read s.2.2.dev (21 + j + 1)).1 ≤ 0 then (some 3, st1)
    else
      match validate st1.BPbuffer j with
      | some code => (some code, st1)
      | none =>
        let st2 := drain ch st1
        (none, { st2 with writeaddress := st2.writeaddress + j })

/-- Line 138: the loop `for (i = 0; i < numloops; i++)`; the first argument is the
number of passes left, `numloops - i`.  The result is the exit code and final state. -/
def mainLoop {σ : Type} (ch : Chan σ) (inputbuffer : List Nat) :
    Nat → State σ → Nat × State σ
  | 0, st => (0, st)
  | left + 1, st =>
    match batch ch inputbuffer st with
    | (some code, st1) => (code, st1)
    | (none, st1) => mainLoop ch inputbuffer left st1

/-- Lines 52 and 88: `inputbuffer` after `bzero` and `fgets (inputbuffer, BUFFERSIZE, stdin)`. -/
def loadInput (stdin : List Nat) : List Nat :=
  fgets BUFFERSIZE stdin ++ List.replicate (BUFFERSIZE - (fgets BUFFERSIZE stdin).length) 0

/-- The program `bus_pirate_write_all.c`: exit code and final state, for the bytes
`stdin` waiting on standard input and a device in state `dev`. -/
def main {σ : Type} (late : Bool) (ch : Chan σ) (dev : σ) (stdin : List Nat) : Nat × State σ :=
  mainLoop ch (loadInput stdin) (numloops late (strlen (loadInput stdin))) (initialState dev)


/-- The command buffer of a batch as the protocol describes it: bitbang enable, I2C
enable, peripheral enable, start bit, bulk-write header, device address, address
byte `a`, the data bytes `d`, stop bit, I2C disable, bitbang disable. -/
def frame (a : Nat) (d : List Nat) : List Nat :=
  List.replicate 20 0 ++ [0x02, 0x4C, 0x02, 16 + 1 + d.length, 0xA0, a] ++ d ++ [0x03, 0x00, 0x0F]

/-- The bytes of `writebuffer` that are set once and never patched. -/
def Static (wb : Nat → Nat) : Prop :=
  (∀ i, i < 20 → wb i = 0) ∧ wb 20 = 0x02 ∧ wb 21 = 0x4C ∧ wb 22 = 0x02 ∧ wb 24 = 0xA0

/-- The `j` bytes of the input buffer from offset `cnt` on. -/
def window (inputbuffer : List Nat) (cnt j : Nat) : List Nat :=
  (List.range j).map (fun k => byteAt inputbuffer (cnt + k))

/-- The batch length of lines 147-154 for the buffer `inputbuffer`. -/
def batchLen (inputbuffer : List Nat) : Nat :=
  (copyLoop inputbuffer 8 0 (fun _ => 0) 0).1

/-- What the device delivers to the read of the fused response of a pass. -/
def response {σ : Type} (ch : Chan σ) (inputbuffer : List Nat) (st : State σ) :
    Option (List Nat) :=
  (ch.read (sendBatch ch inputbuffer st).2.2.dev (21 + batchLen inputbuffer + 1)).1

/-- The array `BPbuffer` after the read of the fused response of a pass. -/
def received {σ : Type} (ch : Chan σ) (inputbuffer : List Nat) (st : State σ) : Nat → Nat :=
  readInto st.BPbuffer (21 + batchLen inputbuffer + 1) (response ch inputbuffer st)

/-- An input of nine bytes, `"ABCDEFGHI"`, without newline. -/
def nineBytes : List Nat := [65, 66, 67, 68, 69, 70, 71, 72, 73]

end WriteAll

/-! ## The single-byte engines

The loop bodies of `bus_pirate_write.c` and `bus_pirate_read.c` are a sequence of
steps of one shape:

```
result = write (fd, COMMAND, n);          // exit (2) when it fails
result = read (fd, &BPbuffer, m);
if (result <= 0)  or  if (result != 1)   { teardown writes; exit (e1); }
if (the echo is not the one expected)    { teardown writes; exit (e2); }
```

A `Step` holds what differs from one step to the next, `runStep` is the shape, and
the tables `Write.steps` and `Read.steps` list the steps of each loop body in the
order of the source. -/

namespace Single

/-- What a step passes to `write`. -/
inductive Arg where
  | const (bytes : List Nat)
  | addr
  | data
  deriving DecidableEq, Repr

/-- The test on the result of `read`: `result <= 0` or `result != 1`. -/
inductive Guard where
  | le0
  | ne1
  deriving DecidableEq, Repr

/-- The test on the echo.  `lit s` fails when `strncmp (s, BPbuffer, length) != 0`,
`ctrl` fails when `1 != BPbuffer[0]`, `ack` fails when `1 == BPbuffer[0]`, and `raw`
is the read-one-byte command, whose byte is kept and tested for the end-of-data
marker. -/
inductive Check where
  | lit (s : List Nat)
  | ctrl
  | ack
  | raw
  deriving DecidableEq, Repr

/-- One step of a loop body. -/
structure Step where
  arg : Arg
  rlen : Nat
  guard : Guard
  gdown : List (List Nat)
  gexit : Nat
  check : Check
  cdown : List (List Nat)
  cexit : Nat
  deriving DecidableEq, Repr

/-- How a step, or a loop body, ends: go on, `exit (code)`, or `break`. -/
inductive Outcome where
  | next
  | exit (code : Nat)
  | brk
  deriving DecidableEq, Repr

/-- The variables of `main` that change during the run, with the device and the log.
`address` is `writeaddress` in the write engine and `readaddress` in the read engine;
`addressbuffer` is `addressbuffer[0]`. -/
structure State (σ : Type) where
  dev : σ
  BPbuffer : Nat → Nat
  address : Nat
  addressbuffer : Nat
  outputbuffer : Nat → Nat
  log : List Event

/-- The bytes a step writes: a constant command, `addressbuffer`, or the data byte. -/
def command {σ : Type} (s : Step) (st : State σ) (data : Nat) : List Nat :=
  match s.arg with
  | Arg.const bytes => bytes
  | Arg.addr => [st.addressbuffer]
  | Arg.data => [data]

/-- The call `result = write (fd, bytes, n)`; `false` is the result `-1`. -/
def put {σ : Type} (ch : Chan σ) (st : State σ) (bytes : List Nat) : Bool × State σ :=
  ((ch.write st.dev bytes).1,
    { st with dev := (ch.write st.dev bytes).2, log := st.log ++ [Event.write bytes] })

/-- The call `result = read (fd, &BPbuffer, n)`. -/
def get {σ : Type} (ch : Chan σ) (st : State σ) (n : Nat) : Int × State σ :=
  (readResult n (ch.read st.dev n).1,
    { st with dev := (ch.read st.dev n).2,
              BPbuffer := readInto st.BPbuffer n (ch.read st.dev n).1,
              log := st.log ++ [Event.read n (ch.read st.dev n).1] })

/-- The writes before an `exit`: one `result = write (fd, C, 1)` per command, the
result not looked at. -/
def teardown {σ : Type} (ch : Chan σ) : List (List Nat) → State σ → State σ
  | [], st => st
  | c :: cs, st => teardown ch cs (put ch st c).2

/-- The test on the result of `read`. -/
def guardFires (g : Guard) (result : Int) : Bool :=
  match g with
  | Guard.le0 => decide (result ≤ 0)
  | Guard.ne1 => decide (result ≠ 1)

/-- The statements `address++; addressbuffer[0] = address;` that follow the write of
the address byte (lines 267-268 of the write engine, 273-274 of the read engine). -/
def bump {σ : Type} (s : Step) (st : State σ) : State σ :=
  match s.arg with
  | Arg.addr => { st with address := st.address + 1, addressbuffer := (st.address + 1) % 256 }
  | _ => st

/-- The statement `outputbuffer[i] = BPbuffer[0];` that follows the read of the
read-one-byte command (line 404 of the read engine). -/
def keep {σ : Type} (s : Step) (i : Nat) (st : State σ) : State σ :=
  match s.check with
  | Check.raw => { st with outputbuffer := setAt st.outputbuffer i (st.BPbuffer 0) }
  | _ => st

/-- One step of a loop body, in pass `i` with the data byte `data`. -/
def runStep {σ : Type} (ch : Chan σ) (i data : Nat) (s : Step) (st : State σ) :
    Outcome × State σ :=
  let w := put ch st (command s st data)
  let st1 := bump s w.2
  if w.1 = false then (Outcome.exit 2, st1)
  else
    let r := get ch st1 s.rlen
    let st2 := keep s i r.2
    if guardFires s.guard r.1 = true then (Outcome.exit s.gexit, teardown ch s.gdown st2)
    else
      match s.check with
      | Check.lit l =>
        if strncmp l st2.BPbuffer 0 l.length ≠ 0 then
          (Outcome.exit s.cexit, teardown ch s.cdown st2)
        else (Outcome.next, st2)
      | Check.ctrl =>
        if 1 ≠ st2.BPbuffer 0 then (Outcome.exit s.cexit, teardown ch s.cdown st2)
        else (Outcome.next, st2)
      | Check.ack =>
        if 1 = st2.BPbuffer 0 then (Outcome.exit s.cexit, teardown ch s.cdown st2)
        else (Outcome.next, st2)
      | Check.raw =>
        if 10 = st2.BPbuffer 0 then (Outcome.brk, teardown ch s.cdown st2)
        else (Outcome.next, st2)

/-- What the device delivers to the read of a step started in state `st`. -/
def echo {σ : Type} (ch : Chan σ) (s : Step) (st : State σ) (data : Nat) : Option (List Nat) :=
  (ch.read (ch.write st.dev (command s st data)).2 s.rlen).1

/-- The state of a step after its write, its read and the statements tied to them. -/
def afterRead {σ : Type} (ch : Chan σ) (i data : Nat) (s : Step) (st : State σ) : State σ :=
  keep s i (get ch (bump s (put ch st (command s st data)).2) s.rlen).2

/-- The steps of a loop body, one after the other, up to the first that does not
go on. -/
def runSteps {σ : Type} (ch : Chan σ) (i data : Nat) : List Step → State σ → Outcome × State σ
  | [], st => (Outcome.next, st)
  | s :: rest, st =>
    match runStep ch i data s st with
    | (Outcome.next, st1) => runSteps ch i data rest st1
    | r => r

/-- The end of a loop body: the two reads of 132 bytes that take up the banner. -/
def drain {σ : Type} (ch : Chan σ) (st : State σ) : State σ :=
  (get ch (get ch st 132).2 132).2

/-- A loop body from the steps `rest` on: these steps, then the banner reads. -/
def finish {σ : Type} (ch : Chan σ) (i data : Nat) (rest : List Step) (st : State σ) :
    Outcome × State σ :=
  match runSteps ch i data rest st with
  | (Outcome.next, st1) => (Outcome.next, drain ch st1)
  | r => r

end Single

namespace Write

open Single

/-- `#define BUFFERSIZE 255` -/
def BUFFERSIZE : Nat := 255

/-- `#define BBEN`: 20 null characters, enable bitbang mode. -/
def BBEN : List Nat := List.replicate 20 0

/-- `#define I2CEN "\x2"` -/
def I2CEN : List Nat := [0x02]

/-- `#define PPEN "\x4C"` -/
def PPEN : List Nat := [0x4C]

/-- `#define STARTWRITE "\x2"` -/
def STARTWRITE : List Nat := [0x02]

/-- `#define STOPWRITE "\x3"` -/
def STOPWRITE : List Nat := [0x03]

/-- `#define BULKWRITE "\x12"` -/
def BULKWRITE : List Nat := [0x12]

/-- `#define BBDIS "\xF"` -/
def BBDIS : List Nat := [0x0F]

/-- `#define I2CDIS "\0"` -/
def I2CDIS : List Nat := [0x00]

/-- `#define DEVADDR "\xA0"` -/
def DEVADDR : List Nat := [0xA0]

/-- Lines 83-104: enable bitbang mode. -/
def stepBBEN : Step :=
  { arg := Arg.const BBEN, rlen := 5, guard := Guard.le0, gdown := [], gexit := 3,
    check := Check.lit litBBIO1, cdown := [], cexit := 4 }

/-- Lines 107-130: enable I2C mode. -/
def stepI2CEN : Step :=
  { arg := Arg.const I2CEN, rlen := 4, guard := Guard.le0, gdown := [BBDIS], gexit := 3,
    check := Check.lit litI2C1, cdown := [BBDIS], cexit := 4 }

/-- Lines 134-159: power and pullups. -/
def stepPPEN : Step :=
  { arg := Arg.const PPEN, rlen := 1, guard := Guard.le0, gdown := [I2CDIS, BBDIS], gexit := 3,
    check := Check.ctrl, cdown := [I2CDIS, BBDIS], cexit := 4 }

/-- Lines 175-200: start bit. -/
def stepSTART : Step :=
  { arg := Arg.const STARTWRITE, rlen := 1, guard := Guard.ne1, gdown := [I2CDIS, BBDIS],
    gexit := 3, check := Check.ctrl, cdown := [I2CDIS, BBDIS], cexit := 4 }

/-- Lines 205-232: bulk write command. -/
def stepBULK : Step :=
  { arg := Arg.const BULKWRITE, rlen := 1, guard := Guard.ne1,
    gdown := [STOPWRITE, I2CDIS, BBDIS], gexit := 3,
    check := Check.ctrl, cdown := [STOPWRITE, I2CDIS, BBDIS], cexit := 4 }

/-- Lines 235-262: device address. -/
def stepDEVADDR : Step :=
  { arg := Arg.const DEVADDR, rlen := 1, guard := Guard.ne1,
    gdown := [STOPWRITE, I2CDIS, BBDIS], gexit := 3,
    check := Check.ack, cdown := [STOPWRITE, I2CDIS, BBDIS], cexit := 4 }

/-- Lines 265-295: write address. -/
def stepADDRESS : Step :=
  { arg := Arg.addr, rlen := 1, guard := Guard.ne1,
    gdown := [STOPWRITE, I2CDIS, BBDIS], gexit := 3,
    check := Check.ack, cdown := [STOPWRITE, I2CDIS, BBDIS], cexit := 4 }

/-- Lines 298-325: data byte; a failed read ends with `exit (4)` here (line 315). -/
def stepDATA : Step :=
  { arg := Arg.data, rlen := 1, guard := Guard.ne1,
    gdown := [STOPWRITE, I2CDIS, BBDIS], gexit := 4,
    check := Check.ack, cdown := [STOPWRITE, I2CDIS, BBDIS], cexit := 4 }

/-- Lines 328-353: stop bit. -/
def stepSTOP : Step :=
  { arg := Arg.const STOPWRITE, rlen := 1, guard := Guard.ne1, gdown := [I2CDIS, BBDIS],
    gexit := 3, check := Check.ctrl, cdown := [I2CDIS, BBDIS], cexit := 4 }

/-- Lines 356-378: disable I2C mode. -/
def stepI2CDIS : Step :=
  { arg := Arg.const I2CDIS, rlen := 5, guard := Guard.le0, gdown := [], gexit := 3,
    check := Check.lit litBBIO1, cdown := [BBDIS], cexit := 4 }

/-- Lines 381-401: disable binary mode. -/
def stepBBDIS : Step :=
  { arg := Arg.const BBDIS, rlen := 1, guard := Guard.le0, gdown := [], gexit := 3,
    check := Check.ctrl, cdown := [], cexit := 4 }

/-- Lines 83-401: the steps of the loop body, in order. -/
def steps : List Step :=
  [stepBBEN, stepI2CEN, stepPPEN, stepSTART, stepBULK, stepDEVADDR, stepADDRESS, stepDATA,
   stepSTOP, stepI2CDIS, stepBBDIS]

/-- Line 79: the loop `for (i = 0; i < strlen (inputbuffer); i++)` from pass `i` on,
the steps `rest` of that pass still to do; the first argument is the number of
passes left after this one.  The result is the exit code and the final state. -/
def resume {σ : Type} (ch : Chan σ) (inputbuffer : List Nat) :
    Nat → Nat → List Step → State σ → Nat × State σ
  | left, i, rest, st =>
    match finish ch i (byteAt inputbuffer i) rest st with
    | (Outcome.exit code, st1) => (code, st1)
    | (Outcome.brk, st1) => (0, st1)
    | (Outcome.next, st1) =>
      match left with
      | 0 => (0, st1)
      | left1 + 1 => resume ch inputbuffer left1 (i + 1) steps st1

/-- Lines 37-43: the state before the loop; `BPbuffer` is not initialised. -/
def initialState {σ : Type} (dev : σ) (garbage : Nat → Nat) : State σ :=
  { dev := dev, BPbuffer := garbage, address := 0, addressbuffer := 0,
    outputbuffer := fun _ => 0, log := [] }

/-- The program `bus_pirate_write.c`: exit code and final state, for the bytes
`stdin` waiting on standard input, a device in state `dev` and the bytes `garbage`
the array `BPbuffer` holds at the start.  The array `inputbuffer` is the line `fgets`
stored (for an empty standard input it is taken to start with a NUL). -/
def main {σ : Type} (ch : Chan σ) (dev : σ) (garbage : Nat → Nat) (stdin : List Nat) :
    Nat × State σ :=
  match strlen (fgets BUFFERSIZE stdin) with
  | 0 => (0, initialState dev garbage)
  | n + 1 => resume ch (fgets BUFFERSIZE stdin) n 0 steps (initialState dev garbage)

end Write

namespace Read

open Single

/-- `#define BUFFERSIZE 1024` -/
def BUFFERSIZE : Nat := 1024

/-- `#define BBEN`: 20 null characters, enable bitbang mode. -/
def BBEN : List Nat := List.replicate 20 0

/-- `#define I2CEN "\x2"` -/
def I2CEN : List Nat := [0x02]

/-- `#define PPEN "\x4C"` -/
def PPEN : List Nat := [0x4C]

/-- `#define STARTWRITE "\x2"` -/
def STARTWRITE : List Nat := [0x02]

/-- `#define STOPWRITE "\x3"` -/
def STOPWRITE : List Nat := [0x03]

/-- `#define BULKWRITE1 "\x11"` -/
def BULKWRITE1 : List Nat := [0x11]

/-- `#define BULKWRITE2 "\x10"` -/
def BULKWRITE2 : List Nat := [0x10]

/-- `#define READWRITE "\x4"` -/
def READWRITE : List Nat := [0x04]

/-- `#define BBDIS "\xF"` -/
def BBDIS : List Nat := [0x0F]

/-- `#define I2CDIS "\0"` -/
def I2CDIS : List Nat := [0x00]

/-- `#define DEVWRITEADDR "\xA0"` -/
def DEVWRITEADDR : List Nat := [0xA0]

/-- `#define DEVREADADDR "\xA1"` -/
def DEVREADADDR : List Nat := [0xA1]

/-- `#define NACKWRITE "\x7"` -/
def NACKWRITE : List Nat := [0x07]

/-- Lines 86-107: enable bitbang mode. -/
def stepBBEN : Step :=
  { arg := Arg.const BBEN, rlen := 5, guard := Guard.le0, gdown := [], gexit := 3,
    check := Check.lit litBBIO1, cdown := [], cexit := 4 }

/-- Lines 110-133: enable I2C mode. -/
def stepI2CEN : Step :=
  { arg := Arg.const I2CEN, rlen := 4, guard := Guard.le0, gdown := [BBDIS], gexit := 3,
    check := Check.lit litI2C1, cdown := [BBDIS], cexit := 4 }

/-- Lines 137-162: power and pullups. -/
def stepPPEN : Step :=
  { arg := Arg.const PPEN, rlen := 1, guard := Guard.le0, gdown := [I2CDIS, BBDIS], gexit := 3,
    check := Check.ctrl, cdown := [I2CDIS, BBDIS], cexit := 4 }

/-- Lines 182-207: start bit. -/
def stepSTART : Step :=
  { arg := Arg.const STARTWRITE, rlen := 1, guard := Guard.ne1, gdown := [I2CDIS, BBDIS],
    gexit := 3, check := Check.ctrl, cdown := [I2CDIS, BBDIS], cexit := 4 }

/-- Lines 211-238: first bulk write command. -/
def stepBULK1 : Step :=
  { arg := Arg.const BULKWRITE1, rlen := 1, guard := Guard.ne1,
    gdown := [STOPWRITE, I2CDIS, BBDIS], gexit := 3,
    check := Check.ctrl, cdown := [STOPWRITE, I2CDIS, BBDIS], cexit := 4 }

/-- Lines 241-268: device write address. -/
def stepDEVWRITEADDR : Step :=
  { arg := Arg.const DEVWRITEADDR, rlen := 1, guard := Guard.ne1,
    gdown := [STOPWRITE, I2CDIS, BBDIS], gexit := 3,
    check := Check.ack, cdown := [STOPWRITE, I2CDIS, BBDIS], cexit := 4 }

/-- Lines 271-301: read address. -/
def stepADDRESS : Step :=
  { arg := Arg.addr, rlen := 1, guard := Guard.ne1,
    gdown := [STOPWRITE, I2CDIS, BBDIS], gexit := 3,
    check := Check.ack, cdown := [STOPWRITE, I2CDIS, BBDIS], cexit := 4 }

/-- Lines 304-329: the second start bit. -/
def stepRESTART : Step :=
  { arg := Arg.const STARTWRITE, rlen := 1, guard := Guard.ne1, gdown := [I2CDIS, BBDIS],
    gexit := 3, check := Check.ctrl, cdown := [I2CDIS, BBDIS], cexit := 4 }

/-- Lines 333-360: second bulk write command. -/
def stepBULK2 : Step :=
  { arg := Arg.const BULKWRITE2, rlen := 1, guard := Guard.ne1,
    gdown := [STOPWRITE, I2CDIS, BBDIS], gexit := 3,
    check := Check.ctrl, cdown := [STOPWRITE, I2CDIS, BBDIS], cexit := 4 }

/-- Lines 363-390: device read address. -/
def stepDEVREADADDR : Step :=
  { arg := Arg.const DEVREADADDR, rlen := 1, guard := Guard.ne1,
    gdown := [STOPWRITE, I2CDIS, BBDIS], gexit := 3,
    check := Check.ack, cdown := [STOPWRITE, I2CDIS, BBDIS], cexit := 4 }

/-- Lines 394-418: read one byte into `outputbuffer[i]`; on the end-of-data marker
(byte 10) the writes of lines 415-416 and `break`. -/
def stepREAD : Step :=
  { arg := Arg.const READWRITE, rlen := 1, guard := Guard.ne1, gdown := [I2CDIS, BBDIS],
    gexit := 3, check := Check.raw, cdown := [I2CDIS, BBDIS], cexit := 0 }

/-- Lines 421-446: send NACK. -/
def stepNACK : Step :=
  { arg := Arg.const NACKWRITE, rlen := 1, guard := Guard.ne1, gdown := [I2CDIS, BBDIS],
    gexit := 3, check := Check.ctrl, cdown := [I2CDIS, BBDIS], cexit := 4 }

/-- Lines 449-474: stop bit. -/
def stepSTOP : Step :=
  { arg := Arg.const STOPWRITE, rlen := 1, guard := Guard.ne1, gdown := [I2CDIS, BBDIS],
    gexit := 3, check := Check.ctrl, cdown := [I2CDIS, BBDIS], cexit := 4 }

/-- Lines 477-499: disable I2C mode. -/
def stepI2CDIS : Step :=
  { arg := Arg.const I2CDIS, rlen := 5, guard := Guard.le0, gdown := [], gexit := 3,
    check := Check.lit litBBIO1, cdown := [BBDIS], cexit := 4 }

/-- Lines 502-522: disable binary mode. -/
def stepBBDIS : Step :=
  { arg := Arg.const BBDIS, rlen := 1, guard := Guard.le0, gdown := [], gexit := 3,
    check := Check.ctrl, cdown := [], cexit := 4 }

/-- Lines 86-522: the steps of the loop body, in order. -/
def steps : List Step :=
  [stepBBEN, stepI2CEN, stepPPEN, stepSTART, stepBULK1, stepDEVWRITEADDR, stepADDRESS,
   stepRESTART, stepBULK2, stepDEVREADADDR, stepREAD, stepNACK, stepSTOP, stepI2CDIS,
   stepBBDIS]

/-- Line 82: the loop `for (i = 0; i < sizeof (outputbuffer); i++)` from pass `i` on,
the steps `rest` of that pass still to do; the first argument is the number of
passes left after this one.  The result is the exit code and the final state. -/
def resume {σ : Type} (ch : Chan σ) : Nat → Nat → List Step → State σ → Nat × State σ
  | left, i, rest, st =>
    match finish ch i 0 rest st with
    | (Outcome.exit code, st1) => (code, st1)
    | (Outcome.brk, st1) => (0, st1)
    | (Outcome.next, st1) =>
      match left with
      | 0 => (0, st1)
      | left1 + 1 => resume ch left1 (i + 1) steps st1

/-- Lines 40-42: the state before the loop; `BPbuffer` and `outputbuffer` are not
initialised. -/
def initialState {σ : Type} (dev : σ) (garbage output : Nat → Nat) : State σ :=
  { dev := dev, BPbuffer := garbage, address := 0, addressbuffer := 0,
    outputbuffer := output, log := [] }

/-- The program `bus_pirate_read.c`: exit code and final state, for a device in
state `dev` and the bytes the arrays `BPbuffer` and `outputbuffer` hold at the
start. -/
def main {σ : Type} (ch : Chan σ) (dev : σ) (garbage output : Nat → Nat) : Nat × State σ :=
  resume ch (BUFFERSIZE - 1) 0 steps (initialState dev garbage output)

end Read

/-! ## Devices used to run the engines -/

namespace Scripted

/-- A device that accepts every write and answers the reads from a script, one entry
per `read` call (an exhausted script delivers no byte). -/
def chan : Chan (List (Option (List Nat))) where
  write := fun s _ => (true, s)
  read := fun s _ =>
    match s with
    | [] => (some [], [])
    | r :: rest => (r, rest)

/-- The echoes of one pass of the write engine that a device gives when all goes
well, but for the echo `ackDevice` of the device-address byte; no banner. -/
def writePass (first : List Nat) (ackDevice : Nat) : List (Option (List Nat)) :=
  [some first, some litI2C1, some [1], some [1], some [1], some [ackDevice], some [0],
   some [0], some [1], some litBBIO1, some [1], some [], some []]

/-- The fused response to a batch of eight data bytes when all goes well, with one
byte of the banner behind it: the 30 bytes the batched engine asks for. -/
def fullResponse : List Nat :=
  litBBIO1I2C1 ++ [1, 1, 1, 0, 0] ++ List.replicate 8 0 ++ [1] ++ litBBIO1 ++ [1] ++ [72]

/-- Sixteen bytes `A`, without newline. -/
def sixteenBytes : List Nat := List.replicate 16 65

end Scripted

namespace Ideal

/-- The mode of the translator. -/
inductive Mode where
  | user
  | bitbang
  | i2c
  deriving DecidableEq, Repr

/-- What the EEPROM expects next on the bus. -/
inductive Phase where
  | idle
  | device
  | word
  | data
  | reading
  deriving DecidableEq, Repr

/-- The idealised translator with its EEPROM: a 256-byte `store`, the address pointer
`ptr` of the EEPROM, and the echoed bytes `out` that have not been read yet. -/
structure Dev where
  mode : Mode
  zeros : Nat
  bulk : Nat
  phase : Phase
  ptr : Nat
  store : Nat → Nat
  out : List Nat

/-- The text the translator prints when it returns to user mode. -/
def banner : List Nat := [72, 105, 90, 62]

/-- The idealised device takes one command byte.  Every command is answered with the
echo of the opcode table: `"BBIO1"` after twenty zero bytes and after disable-I2C,
`"I2C1"` after enable-I2C, `1` for a control command, `0` for every byte of a bulk
write, the stored byte for read-one-byte.  The bytes of a bulk write go to the EEPROM:
the device address, then the word address that sets `ptr`, then data bytes stored at
consecutive addresses. -/
def feed (d : Dev) (b : Nat) : Dev :=
  match d.mode with
  | Mode.user =>
    if b = 0 then
      if d.zeros + 1 = 20 then { d with mode := Mode.bitbang, zeros := 0, out := d.out ++ litBBIO1 }
      else { d with zeros := d.zeros + 1 }
    else { d with zeros := 0 }
  | Mode.bitbang =>
    if b = 0x02 then { d with mode := Mode.i2c, out := d.out ++ litI2C1 }
    else if b = 0x0F then { d with mode := Mode.user, out := d.out ++ [1] ++ banner }
    else if b = 0x00 then { d with out := d.out ++ litBBIO1 }
    else d
  | Mode.i2c =>
    if 0 < d.bulk then
      match d.phase with
      | Phase.device =>
        { d with bulk := d.bulk - 1, out := d.out ++ [0],
                 phase := if b = 0xA0 then Phase.word
                          else if b = 0xA1 then Phase.reading else Phase.idle }
      | Phase.word =>
        { d with bulk := d.bulk - 1, out := d.out ++ [0], ptr := b % 256, phase := Phase.data }
      | Phase.data =>
        { d with bulk := d.bulk - 1, out := d.out ++ [0], store := setAt d.store d.ptr b,
                 ptr := (d.ptr + 1) % 256 }
      | _ => { d with bulk := d.bulk - 1, out := d.out ++ [0] }
    else if b = 0x00 then { d with mode := Mode.bitbang, out := d.out ++ litBBIO1 }
    else if b = 0x02 then { d with phase := Phase.device, out := d.out ++ [1] }
    else if b = 0x03 then { d with phase := Phase.idle, out := d.out ++ [1] }
    else if b = 0x04 then { d with out := d.out ++ [d.store d.ptr] }
    else if b = 0x07 then { d with out := d.out ++ [1] }
    else if b = 0x4C then { d with out := d.out ++ [1] }
    else if 0x10 ≤ b ∧ b ≤ 0x1F then { d with bulk := b - 0x10 + 1, out := d.out ++ [1] }
    else d

/-- The idealised device as a channel: a write feeds its bytes in order, a read takes
the echoed bytes waiting, at most `n`. -/
def chan : Chan Dev where
  write := fun d bs => (true, bs.foldl feed d)
  read := fun d n => (some (d.out.take n), { d with out := d.out.drop n })

/-- The idealised device in user mode, holding `store`. -/
def start (store : Nat → Nat) : Dev :=
  { mode := Mode.user, zeros := 0, bulk := 0, phase := Phase.idle, ptr := 0,
    store := store, out := [] }

end Ideal

namespace Scripted

/-- A fused response to a batch of two data bytes in which the echo of the
disable-I2C command is `"BZZZZ"` instead of `"BBIO1"`, every other byte being the
expected one. -/
def badDisableEcho : List Nat :=
  litBBIO1I2C1 ++ [1, 1, 1, 0, 0] ++ [0, 0] ++ [1] ++ [66, 90, 90, 90, 90] ++ [1] ++ [72]

end Scripted

namespace Single

/-- The bytes passed to `write` by the steps `steps`, one list per step, when every
step goes on; `a` is the address cursor and `ab` is `addressbuffer[0]` before the
first of these steps. -/
def commandsFrom : List Step → Nat → Nat → Nat → List (List Nat)
  | [], _, _, _ => []
  | s :: rest, a, ab, data =>
    match s.arg with
    | Arg.const bytes => bytes :: commandsFrom rest a ab data
    | Arg.addr => [ab] :: commandsFrom rest (a + 1) ((a + 1) % 256) data
    | Arg.data => [data] :: commandsFrom rest a ab data

/-- The address cursor after the steps `steps`, when every step goes on. -/
def addressAfter : List Step → Nat → Nat
  | [], a => a
  | s :: rest, a =>
    match s.arg with
    | Arg.addr => addressAfter rest (a + 1)
    | _ => addressAfter rest a

end Single

namespace Write

/-- The steps of the loop body from the start bit to the stop bit. -/
def transaction : List Single.Step :=
  [stepSTART, stepBULK, stepDEVADDR, stepADDRESS, stepDATA, stepSTOP]

end Write

namespace Read

/-- The steps of the loop body from the start bit to the stop bit. -/
def transaction : List Single.Step :=
  [stepSTART, stepBULK1, stepDEVWRITEADDR, stepADDRESS, stepRESTART, stepBULK2,
   stepDEVREADADDR, stepREAD, stepNACK, stepSTOP]

end Read

namespace Scripted

/-- The echoes a device gives up to the start bit when all goes well, and 0 for the
start bit. -/
def startRefused : List (Option (List Nat)) :=
  [some litBBIO1, some litI2C1, some [1], some [0]]

end Scripted

namespace Single

/-- The steps of an I2C burst: the acknowledged steps that follow the step writing
the bulk-write command `header`. -/
def burstAfter (header : List Nat) : List Step → List Step
  | [] => []
  | s :: rest =>
    if s.arg = Arg.const header then rest.takeWhile (fun t => decide (t.check = Check.ack))
    else burstAfter header rest

end Single

namespace WriteAll

/-- The page of the EEPROM an address lies in: pages are 16 bytes (header comment,
lines 13-16). -/
def page (address : Nat) : Nat :=
  address / 16

/-- The state before the main loop, but with the cursor at `a`. -/
def stateAt {σ : Type} (dev : σ) (a : Nat) : State σ :=
  { initialState dev with writeaddress := a }

end WriteAll

namespace Ideal

/-- A store that holds the byte 10 at index `k` and the letter `A` everywhere else. -/
def storeEndingAt (k : Nat) : Nat → Nat :=
  fun i => if i = k then 10 else 65

end Ideal

/-! ## The array cells the batched engine uses -/

namespace WriteAll

/-- Lines 42-45: the arrays of `main` that the main loop uses. -/
inductive Arr where
  | BPbuffer
  | inputbuffer
  | writebuffer
  deriving DecidableEq, Repr

/-- Lines 42-45: the number of cells of each array. -/
def Arr.size : Arr → Nat
  | Arr.BPbuffer => BUFFERSIZE
  | Arr.inputbuffer => BUFFERSIZE
  | Arr.writebuffer => 38

/-- How a cell is used: its value is taken (`load`), or a value is put in it (`store`). -/
inductive Use where
  | load
  | store
  deriving DecidableEq, Repr

/-- One use of the cell `arr[index]`: by a subscript of the program, by `strncmp`, or
as a cell of the area handed to `write` or `read`. -/
structure Access where
  arr : Arr
  kind : Use
  index : Nat
  deriving DecidableEq, Repr

/-- The cells `arr[0 .. n - 1]`, the area handed to `write (fd, arr, n)` (loads) or to
`read (fd, &arr, n)` (stores). -/
def span (arr : Arr) (kind : Use) (n : Nat) : List Access :=
  (List.range n).map (fun i => ⟨arr, kind, i⟩)

/-- Lines 147-154: the cells the data-copy loop uses, with the arguments of `copyLoop`:
each pass loads `inputbuffer[inputbuffercount]`, stores `writebuffer[26 + j]` and
loads `inputbuffer[j]`. -/
def copyLoopAccesses (inputbuffer : List Nat) : Nat → Nat → Nat → List Access
  | 0, _, _ => []
  | left + 1, j, cnt =>
    [⟨Arr.inputbuffer, Use.load, cnt⟩, ⟨Arr.writebuffer, Use.store, 26 + j⟩,
     ⟨Arr.inputbuffer, Use.load, j⟩]
      ++ (if byteAt inputbuffer j = 10 then []
          else copyLoopAccesses inputbuffer left (j + 1) (cnt + 1))

/-- Lines 141-165: the cells used to fill, patch and send the write buffer. -/
def sendBatchAccesses {σ : Type} (ch : Chan σ) (inputbuffer : List Nat) (st : State σ) :
    List Access :=
  let j := (sendBatch ch inputbuffer st).2.1
  [⟨Arr.writebuffer, Use.store, 25⟩]
    ++ copyLoopAccesses inputbuffer 8 0 st.inputbuffercount
    ++ [⟨Arr.writebuffer, Use.store, 23⟩, ⟨Arr.writebuffer, Use.store, 26 + j⟩,
        ⟨Arr.writebuffer, Use.store, 27 + j⟩, ⟨Arr.writebuffer, Use.store, 28 + j⟩,
        ⟨Arr.writebuffer, Use.store, 29 + j⟩]
    ++ span Arr.writebuffer Use.load (29 + j)

/-- The cells of `BPbuffer` that `strncmp (s1, BPbuffer + off, n)` inspects: it stops at
the first difference and at the end of `s1`. -/
def strncmpAccesses (s1 : List Nat) (s2 : Nat → Nat) : Nat → Nat → List Access
  | _, 0 => []
  | off, n + 1 =>
    ⟨Arr.BPbuffer, Use.load, off⟩ ::
      (if s1.headD 0 ≠ s2 off then []
       else if s1.headD 0 = 0 then []
       else strncmpAccesses s1.tail s2 (off + 1) n)

/-- Lines 232-239: the cells the loop over the data acknowledgements inspects. -/
def ackLoopAccesses (BPbuffer : Nat → Nat) : Nat → Nat → List Access
  | 0, _ => []
  | left + 1, k =>
    ⟨Arr.BPbuffer, Use.load, 14 + k⟩ ::
      (if BPbuffer (14 + k) ≠ 0 then [] else ackLoopAccesses BPbuffer left (k + 1))

/-- Line 245: the cells the test of the disable-I2C echo inspects; `&&` looks at its
right operand only when the left one holds. -/
def disableEchoAccesses (BPbuffer : Nat → Nat) (k : Nat) : List Access :=
  ⟨Arr.BPbuffer, Use.load, 15 + k⟩ ::
    (if BPbuffer (15 + k) ≠ 66 then
      ⟨Arr.BPbuffer, Use.load, 16 + k⟩ ::
        (if BPbuffer (16 + k) ≠ 66 then
          ⟨Arr.BPbuffer, Use.load, 17 + k⟩ ::
            (if BPbuffer (17 + k) ≠ 73 then [⟨Arr.BPbuffer, Use.load, 18 + k⟩] else [])
         else [])
     else [])

/-- Lines 240-254: the cells the checks behind the acknowledgement loop inspect, `k`
being the value the loop left. -/
def trailerAccesses (BPbuffer : Nat → Nat) (k : Nat) : List Access :=
  ⟨Arr.BPbuffer, Use.load, 14 + k⟩ ::
    (if BPbuffer (14 + k) ≠ 1 then []
     else disableEchoAccesses BPbuffer k ++
       (if BPbuffer (15 + k) ≠ 66 ∧ BPbuffer (16 + k) ≠ 66 ∧ BPbuffer (17 + k) ≠ 73
            ∧ BPbuffer (18 + k) ≠ 79 then []
        else [⟨Arr.BPbuffer, Use.load, 20 + k⟩]))

/-- Lines 207-254: the cells the checks behind the two `strncmp` inspect. -/
def echoAccesses (BPbuffer : Nat → Nat) (j : Nat) : List Access :=
  ⟨Arr.BPbuffer, Use.load, 9⟩ ::
    (if BPbuffer 9 ≠ 1 then []
     else ⟨Arr.BPbuffer, Use.load, 10⟩ ::
      (if BPbuffer 10 ≠ 1 then []
       else ⟨Arr.BPbuffer, Use.load, 11⟩ ::
        (if BPbuffer 11 ≠ 1 then []
         else ⟨Arr.BPbuffer, Use.load, 12⟩ ::
          (if BPbuffer 12 ≠ 0 then []
           else ⟨Arr.BPbuffer, Use.load, 13⟩ ::
            (if BPbuffer 13 ≠ 0 then []
             else ackLoopAccesses BPbuffer j 0 ++
              (match ackLoop BPbuffer j 0 with
               | none => []
               | some k => trailerAccesses BPbuffer k))))))

/-- Lines 197-254: the cells of `BPbuffer` the checks on the fused response inspect,
in the order of `validate`. -/
def validateAccesses (BPbuffer : Nat → Nat) (j : Nat) : List Access :=
  strncmpAccesses litBBIO1 BPbuffer 0 5 ++
    (if strncmp litBBIO1 BPbuffer 0 5 ≠ 0 then []
     else strncmpAccesses litBBIO1I2C1 BPbuffer 0 9 ++
      (if strncmp litBBIO1I2C1 BPbuffer 0 9 ≠ 0 then [] else echoAccesses BPbuffer j))

/-- Lines 138-265: the cells one pass of the main loop uses, in the order of `batch`. -/
def batchAccesses {σ : Type} (ch : Chan σ) (inputbuffer : List Nat) (st : State σ) :
    List Access :=
  let s := sendBatch ch inputbuffer st
  let j := s.2.1
  sendBatchAccesses ch inputbuffer st ++
    (if s.1 = false then []
     else
      let st1 := readResponse ch j s.2.2
      span Arr.BPbuffer Use.store (21 + j + 1) ++
        (if readResult (21 + j + 1) (ch.read s.2.2.dev (21 + j + 1)).1 ≤ 0 then []
         else validateAccesses st1.BPbuffer j ++
          (match validate st1.BPbuffer j with
           | some _ => []
           | none => span Arr.BPbuffer Use.store 132 ++ span Arr.BPbuffer Use.store 132)))

/-- Line 138: the cells the main loop uses, with the arguments of `mainLoop`. -/
def mainLoopAccesses {σ : Type} (ch : Chan σ) (inputbuffer : List Nat) :
    Nat → State σ → List Access
  | 0, _ => []
  | left + 1, st =>
    batchAccesses ch inputbuffer st ++
      (match batch ch inputbuffer st with
       | (some _, _) => []
       | (none, st1) => mainLoopAccesses ch inputbuffer left st1)

/-- The cells the main loop of the program uses in the run of `main`. -/
def mainAccesses {σ : Type} (late : Bool) (ch : Chan σ) (dev : σ) (stdin : List Nat) :
    List Access :=
  mainLoopAccesses ch (loadInput stdin) (numloops late (strlen (loadInput stdin)))
    (initialState dev)

end WriteAll

/-! ## Basic facts about arrays and logs -/

theorem setAt_same (a : Nat → Nat) (i v : Nat) : setAt a i v i = v := by
  simp [setAt]

theorem setAt_other (a : Nat → Nat) (i v k : Nat) (h : k ≠ i) : setAt a i v k = a k := by
  simp [setAt, h]

theorem writesOf_append (l1 l2 : List Event) : writesOf (l1 ++ l2) = writesOf l1 ++ writesOf l2 := by
  induction l1 with
  | nil => rfl
  | cons e rest ih =>
    cases e with
    | write bs => simp [writesOf, ih]
    | read n got => simp [writesOf, ih]

/-! ## The batched engine: the data-copy loop and the command buffer -/

namespace WriteAll

theorem copyLoop_spec (inputbuffer : List Nat) (left : Nat) :
    ∀ (j : Nat) (wb : Nat → Nat) (cnt : Nat),
      j ≤ (copyLoop inputbuffer left j wb cnt).1
      ∧ (copyLoop inputbuffer left j wb cnt).1 ≤ j + left
      ∧ (0 < left → j < (copyLoop inputbuffer left j wb cnt).1)
      ∧ (copyLoop inputbuffer left j wb cnt).2.2
          = cnt + ((copyLoop inputbuffer left j wb cnt).1 - j)
      ∧ ∀ i, (copyLoop inputbuffer left j wb cnt).2.1 i
          = if 26 + j ≤ i ∧ i < 26 + (copyLoop inputbuffer left j wb cnt).1
            then byteAt inputbuffer (cnt + (i - (26 + j))) else wb i := by
  induction left with
  | zero =>
    intro j wb cnt
    simp only [copyLoop]
    refine ⟨by omega, by omega, fun h => by omega, by omega, ?_⟩
    intro i
    have : ¬ (26 + j ≤ i ∧ i < 26 + j) := by omega
    simp [this]
  | succ n ih =>
    intro j wb cnt
    by_cases h : byteAt inputbuffer j = 10
    · simp only [copyLoop, h, if_true]
      refine ⟨by omega, by omega, fun _ => by omega, by omega, ?_⟩
      intro i
      by_cases hi : i = 26 + j
      · subst hi
        simp [setAt]
      · have : ¬ (26 + j ≤ i ∧ i < 26 + (j + 1)) := by omega
        simp [setAt, hi, this]
    · simp only [copyLoop, h, if_false]
      obtain ⟨h1, h2, _, h4, h5⟩ :=
        ih (j + 1) (setAt wb (26 + j) (byteAt inputbuffer cnt)) (cnt + 1)
      refine ⟨by omega, by omega, fun _ => by omega, by omega, ?_⟩
      intro i
      rw [h5 i]
      by_cases hi : i = 26 + j
      · subst hi
        have e1 : ¬ (26 + (j + 1) ≤ 26 + j ∧ 26 + j < 26 +
            (copyLoop inputbuffer n (j + 1) (setAt wb (26 + j) (byteAt inputbuffer cnt))
              (cnt + 1)).1) := by omega
        have e2 : 26 + j ≤ 26 + j ∧ 26 + j < 26 +
            (copyLoop inputbuffer n (j + 1) (setAt wb (26 + j) (byteAt inputbuffer cnt))
              (cnt + 1)).1 := by omega
        simp only [e1, e2, if_false, if_true, setAt_same]
        simp
      · by_cases hr : 26 + (j + 1) ≤ i ∧ i < 26 +
            (copyLoop inputbuffer n (j + 1) (setAt wb (26 + j) (byteAt inputbuffer cnt))
              (cnt + 1)).1
        · have e2 : 26 + j ≤ i ∧ i < 26 +
            (copyLoop inputbuffer n (j + 1) (setAt wb (26 + j) (byteAt inputbuffer cnt))
              (cnt + 1)).1 := by omega
          simp only [hr, e2, and_self, if_true]
          congr 1
          omega
        · have e2 : ¬ (26 + j ≤ i ∧ i < 26 +
            (copyLoop inputbuffer n (j + 1) (setAt wb (26 + j) (byteAt inputbuffer cnt))
              (cnt + 1)).1) := by omega
          simp only [hr, e2, if_false]
          exact setAt_other _ _ _ _ hi

/-- The batch length does not depend on the write buffer nor on `inputbuffercount`:
the test of line 150 reads `inputbuffer[j]`. -/
theorem copyLoop_len_indep (inputbuffer : List Nat) (left : Nat) :
    ∀ (j : Nat) (wb wb2 : Nat → Nat) (cnt cnt2 : Nat),
      (copyLoop inputbuffer left j wb cnt).1 = (copyLoop inputbuffer left j wb2 cnt2).1 := by
  induction left with
  | zero => intro j wb wb2 cnt cnt2; rfl
  | succ n ih =>
    intro j wb wb2 cnt cnt2
    by_cases h : byteAt inputbuffer j = 10
    · simp only [copyLoop, h, if_true]
    · simp only [copyLoop, h, if_false]
      exact ih _ _ _ _ _

theorem fill_len (inputbuffer : List Nat) (wb : Nat → Nat) (a cnt : Nat) :
    (fill inputbuffer wb a cnt).1 = batchLen inputbuffer := by
  simp only [fill, batchLen]
  exact copyLoop_len_indep _ _ _ _ _ _ _

theorem batchLen_bounds (inputbuffer : List Nat) :
    1 ≤ batchLen inputbuffer ∧ batchLen inputbuffer ≤ 8 := by
  have h := copyLoop_spec inputbuffer 8 0 (fun _ => 0) 0
  simp only [batchLen]
  omega

theorem fill_count (inputbuffer : List Nat) (wb : Nat → Nat) (a cnt : Nat) :
    (fill inputbuffer wb a cnt).2.2 = cnt + batchLen inputbuffer := by
  have h := copyLoop_spec inputbuffer 8 0 (setAt wb 25 (a % 256)) cnt
  have hl := fill_len inputbuffer wb a cnt
  simp only [fill] at hl ⊢
  rw [h.2.2.2.1, hl]
  rfl

/-- The write buffer of a batch, byte by byte. -/
theorem fill_buffer (inputbuffer : List Nat) (wb : Nat → Nat) (a cnt : Nat) (i : Nat) :
    (fill inputbuffer wb a cnt).2.1 i =
      if i = 29 + batchLen inputbuffer then 0xEE
      else if i = 28 + batchLen inputbuffer then 0x0F
      else if i = 27 + batchLen inputbuffer then 0x00
      else if i = 26 + batchLen inputbuffer then 0x03
      else if i = 23 then (16 + 1 + batchLen inputbuffer) % 256
      else if 26 ≤ i ∧ i < 26 + batchLen inputbuffer then byteAt inputbuffer (cnt + (i - 26))
      else if i = 25 then a % 256
      else wb i := by
  have h := (copyLoop_spec inputbuffer 8 0 (setAt wb 25 (a % 256)) cnt).2.2.2.2
  have hl := fill_len inputbuffer wb a cnt
  simp only [fill] at hl ⊢
  simp only [patchTrailer, hl, setAt, h]


theorem window_length (inputbuffer : List Nat) (cnt j : Nat) :
    (window inputbuffer cnt j).length = j := by
  simp [window]

theorem frame_length (a : Nat) (d : List Nat) : (frame a d).length = 29 + d.length := by
  simp [frame]
  omega

theorem range_split (j : Nat) :
    List.range (29 + j)
      = List.range' 0 20 ++ (List.range' 20 6 ++ (List.range' 26 j ++ List.range' (26 + j) 3)) := by
  rw [List.range_eq_range', List.range'_append_1, List.range'_append_1, List.range'_append_1]
  congr 1
  omega

theorem map_range'_data (f : Nat → Nat) (s j : Nat) :
    (List.range' s j).map f = (List.range j).map (fun k => f (s + k)) := by
  rw [List.range'_eq_map_range, List.map_map]
  rfl

/-- A buffer read out over `29 + j` bytes is a frame as soon as its bytes are the
static prefix, the header, the address and data bytes, and the trailer. -/
theorem range_map_eq_frame (f g : Nat → Nat) (a j : Nat)
    (h0 : ∀ i, i < 20 → f i = 0) (h20 : f 20 = 0x02) (h21 : f 21 = 0x4C) (h22 : f 22 = 0x02)
    (h23 : f 23 = 16 + 1 + j) (h24 : f 24 = 0xA0) (h25 : f 25 = a)
    (hdat : ∀ k, k < j → f (26 + k) = g k)
    (h26 : f (26 + j) = 0x03) (h27 : f (27 + j) = 0x00) (h28 : f (28 + j) = 0x0F) :
    (List.range (29 + j)).map f = frame a ((List.range j).map g) := by
  have e1 : (List.range' 0 20).map f = List.replicate 20 0 := by
    rw [List.eq_replicate_iff]
    refine ⟨by simp, ?_⟩
    intro b hb
    rw [List.mem_map] at hb
    obtain ⟨i, hi, rfl⟩ := hb
    rw [List.mem_range'_1] at hi
    exact h0 i (by omega)
  have e2 : (List.range' 20 6).map f = [0x02, 0x4C, 0x02, 16 + 1 + j, 0xA0, a] := by
    simp [List.range', h20, h21, h22, h23, h24, h25]
  have e3 : (List.range' 26 j).map f = (List.range j).map g := by
    rw [map_range'_data]
    apply List.map_congr_left
    intro k hk
    exact hdat k (List.mem_range.mp hk)
  have e4 : (List.range' (26 + j) 3).map f = [0x03, 0x00, 0x0F] := by
    have a1 : 26 + j + 1 = 27 + j := by omega
    have a2 : 27 + j + 1 = 28 + j := by omega
    simp [List.range', a1, a2, h26, h27, h28]
  rw [range_split, List.map_append, List.map_append, List.map_append, e1, e2, e3, e4]
  simp [frame]


/-- The one `write` of a batch sends a frame: address byte and data bytes of the
batch between the static prefix and the trailer. -/
theorem fill_frame (inputbuffer : List Nat) (wb : Nat → Nat) (a cnt : Nat) (hs : Static wb) :
    (List.range (29 + batchLen inputbuffer)).map (fill inputbuffer wb a cnt).2.1
      = frame (a % 256) (window inputbuffer cnt (batchLen inputbuffer)) := by
  obtain ⟨h0, h20, h21, h22, h24⟩ := hs
  have hb := batchLen_bounds inputbuffer
  unfold window
  apply range_map_eq_frame
  · intro i hi
    rw [fill_buffer, if_neg (by omega), if_neg (by omega), if_neg (by omega), if_neg (by omega),
      if_neg (by omega), if_neg (by omega), if_neg (by omega)]
    exact h0 i hi
  · rw [fill_buffer, if_neg (by omega), if_neg (by omega), if_neg (by omega), if_neg (by omega),
      if_neg (by omega), if_neg (by omega), if_neg (by omega)]
    exact h20
  · rw [fill_buffer, if_neg (by omega), if_neg (by omega), if_neg (by omega), if_neg (by omega),
      if_neg (by omega), if_neg (by omega), if_neg (by omega)]
    exact h21
  · rw [fill_buffer, if_neg (by omega), if_neg (by omega), if_neg (by omega), if_neg (by omega),
      if_neg (by omega), if_neg (by omega), if_neg (by omega)]
    exact h22
  · rw [fill_buffer, if_neg (by omega), if_neg (by omega), if_neg (by omega), if_neg (by omega),
      if_pos rfl]
    omega
  · rw [fill_buffer, if_neg (by omega), if_neg (by omega), if_neg (by omega), if_neg (by omega),
      if_neg (by omega), if_neg (by omega), if_neg (by omega)]
    exact h24
  · rw [fill_buffer, if_neg (by omega), if_neg (by omega), if_neg (by omega), if_neg (by omega),
      if_neg (by omega), if_neg (by omega), if_pos rfl]
  · intro k hk
    rw [fill_buffer, if_neg (by omega), if_neg (by omega), if_neg (by omega), if_neg (by omega),
      if_neg (by omega), if_pos (by omega)]
    congr 1
    omega
  · rw [fill_buffer, if_neg (by omega), if_neg (by omega), if_neg (by omega), if_pos rfl]
  · rw [fill_buffer, if_neg (by omega), if_neg (by omega), if_pos rfl]
  · rw [fill_buffer, if_neg (by omega), if_pos rfl]


theorem fill_static (inputbuffer : List Nat) (wb : Nat → Nat) (a cnt : Nat) (hs : Static wb) :
    Static (fill inputbuffer wb a cnt).2.1 := by
  obtain ⟨h0, h20, h21, h22, h24⟩ := hs
  have hb := batchLen_bounds inputbuffer
  refine ⟨?_, ?_, ?_, ?_, ?_⟩
  · intro i hi
    rw [fill_buffer, if_neg (by omega), if_neg (by omega), if_neg (by omega), if_neg (by omega),
      if_neg (by omega), if_neg (by omega), if_neg (by omega)]
    exact h0 i hi
  · rw [fill_buffer, if_neg (by omega), if_neg (by omega), if_neg (by omega), if_neg (by omega),
      if_neg (by omega), if_neg (by omega), if_neg (by omega)]
    exact h20
  · rw [fill_buffer, if_neg (by omega), if_neg (by omega), if_neg (by omega), if_neg (by omega),
      if_neg (by omega), if_neg (by omega), if_neg (by omega)]
    exact h21
  · rw [fill_buffer, if_neg (by omega), if_neg (by omega), if_neg (by omega), if_neg (by omega),
      if_neg (by omega), if_neg (by omega), if_neg (by omega)]
    exact h22
  · rw [fill_buffer, if_neg (by omega), if_neg (by omega), if_neg (by omega), if_neg (by omega),
      if_neg (by omega), if_neg (by omega), if_neg (by omega)]
    exact h24

theorem initial_static : Static initialWritebuffer := by
  refine ⟨by decide, by decide, by decide, by decide, by decide⟩

/-- What one pass of the main loop does to the state, whatever the device answers. -/
theorem batch_facts {σ : Type} (ch : Chan σ) (inputbuffer : List Nat) (st : State σ) :
    (batch ch inputbuffer st).2.writebuffer
        = (fill inputbuffer st.writebuffer st.writeaddress st.inputbuffercount).2.1
    ∧ (batch ch inputbuffer st).2.inputbuffercount = st.inputbuffercount + batchLen inputbuffer
    ∧ writesOf (batch ch inputbuffer st).2.log
        = writesOf st.log ++ [(List.range (29 + batchLen inputbuffer)).map
            (fill inputbuffer st.writebuffer st.writeaddress st.inputbuffercount).2.1]
    ∧ ((batch ch inputbuffer st).1 = none →
        (batch ch inputbuffer st).2.writeaddress = st.writeaddress + batchLen inputbuffer)
    ∧ ((batch ch inputbuffer st).1 ≠ none →
        (batch ch inputbuffer st).2.writeaddress = st.writeaddress) := by
  have hl := fill_len inputbuffer st.writebuffer st.writeaddress st.inputbuffercount
  have hc := fill_count inputbuffer st.writebuffer st.writeaddress st.inputbuffercount
  unfold batch
  simp only [sendBatch, hl, hc]
  split_ifs
  · simp [writesOf_append, writesOf]
  · simp [writesOf_append, writesOf, readResponse]
  · split
    · simp [writesOf_append, writesOf, readResponse]
    · simp [writesOf_append, writesOf, drain, readResponse]


theorem copyLoop_len_full (inputbuffer : List Nat) (left : Nat) :
    ∀ (j : Nat) (wb : Nat → Nat) (cnt : Nat),
      (∀ t, j ≤ t → t < j + left → byteAt inputbuffer t ≠ 10) →
      (copyLoop inputbuffer left j wb cnt).1 = j + left := by
  induction left with
  | zero => intro j wb cnt _; rfl
  | succ n ih =>
    intro j wb cnt h
    have h0 : byteAt inputbuffer j ≠ 10 := h j (le_refl j) (by omega)
    simp only [copyLoop, h0, if_false]
    rw [ih (j + 1) _ _ (fun t h1 h2 => h t (by omega) (by omega))]
    omega

theorem copyLoop_len_stop (inputbuffer : List Nat) (left : Nat) :
    ∀ (j k : Nat) (wb : Nat → Nat) (cnt : Nat), j ≤ k → k < j + left →
      byteAt inputbuffer k = 10 → (∀ t, j ≤ t → t < k → byteAt inputbuffer t ≠ 10) →
      (copyLoop inputbuffer left j wb cnt).1 = k + 1 := by
  induction left with
  | zero => intro j k wb cnt h1 h2; omega
  | succ n ih =>
    intro j k wb cnt h1 h2 hk hpre
    by_cases hj : j = k
    · subst hj
      simp only [copyLoop, hk, if_true]
    · have h0 : byteAt inputbuffer j ≠ 10 := hpre j (le_refl j) (by omega)
      simp only [copyLoop, h0, if_false]
      exact ih (j + 1) k _ _ (by omega) (by omega) hk (fun t h3 h4 => hpre t (by omega) h4)

/-- Without a newline among the first eight bytes of the buffer every batch has
eight data bytes. -/
theorem batchLen_full (inputbuffer : List Nat)
    (h : ∀ t, t < 8 → byteAt inputbuffer t ≠ 10) : batchLen inputbuffer = 8 := by
  unfold batchLen
  rw [copyLoop_len_full inputbuffer 8 0 _ _ (fun t _ h2 => h t (by omega))]

/-- With the first newline at offset `k < 8` every batch has `k + 1` data bytes. -/
theorem batchLen_stop (inputbuffer : List Nat) (k : Nat) (hk : k < 8)
    (h10 : byteAt inputbuffer k = 10) (h : ∀ t, t < k → byteAt inputbuffer t ≠ 10) :
    batchLen inputbuffer = k + 1 := by
  unfold batchLen
  exact copyLoop_len_stop inputbuffer 8 0 k _ _ (Nat.zero_le k) (by omega) h10
    (fun t _ h2 => h t h2)

theorem validate_cases (BPbuffer : Nat → Nat) (j : Nat) :
    validate BPbuffer j = none ∨ validate BPbuffer j = some 4 := by
  unfold validate
  by_cases h1 : strncmp litBBIO1 BPbuffer 0 5 ≠ 0
  · rw [if_pos h1]; exact Or.inr rfl
  rw [if_neg h1]
  by_cases h2 : strncmp litBBIO1I2C1 BPbuffer 0 9 ≠ 0
  · rw [if_pos h2]; exact Or.inr rfl
  rw [if_neg h2]
  by_cases h3 : BPbuffer 9 ≠ 1
  · rw [if_pos h3]; exact Or.inr rfl
  rw [if_neg h3]
  by_cases h4 : BPbuffer 10 ≠ 1
  · rw [if_pos h4]; exact Or.inr rfl
  rw [if_neg h4]
  by_cases h5 : BPbuffer 11 ≠ 1
  · rw [if_pos h5]; exact Or.inr rfl
  rw [if_neg h5]
  by_cases h6 : BPbuffer 12 ≠ 0
  · rw [if_pos h6]; exact Or.inr rfl
  rw [if_neg h6]
  by_cases h7 : BPbuffer 13 ≠ 0
  · rw [if_pos h7]; exact Or.inr rfl
  rw [if_neg h7]
  cases ackLoop BPbuffer j 0 with
  | none => exact Or.inr rfl
  | some k =>
    simp only
    by_cases h8 : BPbuffer (14 + k) ≠ 1
    · rw [if_pos h8]; exact Or.inr rfl
    rw [if_neg h8]
    by_cases h9 : BPbuffer (15 + k) ≠ 66 ∧ BPbuffer (16 + k) ≠ 66 ∧ BPbuffer (17 + k) ≠ 73
        ∧ BPbuffer (18 + k) ≠ 79
    · rw [if_pos h9]; exact Or.inr rfl
    rw [if_neg h9]
    by_cases h10 : BPbuffer (20 + k) ≠ 1
    · rw [if_pos h10]; exact Or.inr rfl
    rw [if_neg h10]
    exact Or.inl rfl

theorem validate_code (BPbuffer : Nat → Nat) (j code : Nat)
    (h : validate BPbuffer j = some code) : code = 4 := by
  rcases validate_cases BPbuffer j with h1 | h1
  · rw [h1] at h; cases h
  · rw [h1] at h; injection h with h; exact h.symm

theorem batch_code {σ : Type} (ch : Chan σ) (inputbuffer : List Nat) (st : State σ) (code : Nat)
    (h : (batch ch inputbuffer st).1 = some code) : code = 2 ∨ code = 3 ∨ code = 4 := by
  unfold batch at h
  simp only [] at h
  split_ifs at h
  · injection h with h; omega
  · injection h with h; omega
  · split at h
    · rename_i c hc
      injection h with h
      have := validate_code _ _ _ hc
      omega
    · cases h

/-- The writes of the main loop: a frame per pass, every pass of the same length,
write address and input offset moving on by that length. -/
theorem mainLoop_run {σ : Type} (ch : Chan σ) (inputbuffer : List Nat) (n : Nat) :
    ∀ (i : Nat) (st : State σ), Static st.writebuffer →
      st.writeaddress = batchLen inputbuffer * i →
      st.inputbuffercount = batchLen inputbuffer * i →
      ∃ m, m ≤ n ∧ (0 < n → 0 < m)
        ∧ writesOf (mainLoop ch inputbuffer n st).2.log
            = writesOf st.log ++ (List.range m).map (fun t =>
                frame ((batchLen inputbuffer * (i + t)) % 256)
                  (window inputbuffer (batchLen inputbuffer * (i + t)) (batchLen inputbuffer)))
        ∧ ((mainLoop ch inputbuffer n st).1 = 0 →
            m = n ∧ (mainLoop ch inputbuffer n st).2.writeaddress
                      = batchLen inputbuffer * (i + n)) := by
  induction n with
  | zero =>
    intro i st _ ha _
    exact ⟨0, le_refl 0, fun h => absurd h (lt_irrefl 0), by simp [mainLoop], fun _ => ⟨rfl, by simpa [mainLoop] using ha⟩⟩
  | succ n ih =>
    intro i st hs ha hc
    obtain ⟨f1, f2, f3, f4, f5⟩ := batch_facts ch inputbuffer st
    rw [fill_frame inputbuffer st.writebuffer st.writeaddress st.inputbuffercount hs, ha, hc] at f3
    cases hb : batch ch inputbuffer st with
    | mk out st1 =>
      rw [hb] at f1 f2 f3 f4 f5
      simp only at f1 f2 f3 f4 f5
      cases out with
      | some code =>
        refine ⟨1, by omega, fun _ => by omega, ?_, ?_⟩
        · simp only [mainLoop, hb, f3]
          rfl
        · intro h0
          simp only [mainLoop, hb] at h0
          have := batch_code ch inputbuffer st code (by rw [hb])
          omega
      | none =>
        have hs1 : Static st1.writebuffer := by rw [f1]; exact fill_static _ _ _ _ hs
        have ha1 : st1.writeaddress = batchLen inputbuffer * (i + 1) := by
          rw [f4 rfl, ha, Nat.mul_add, Nat.mul_one]
        have hc1 : st1.inputbuffercount = batchLen inputbuffer * (i + 1) := by
          rw [f2, hc, Nat.mul_add, Nat.mul_one]
        obtain ⟨m, hm1, _, hm3, hm4⟩ := ih (i + 1) st1 hs1 ha1 hc1
        refine ⟨m + 1, by omega, fun _ => by omega, ?_, ?_⟩
        · simp only [mainLoop, hb, hm3, f3]
          rw [List.range_succ_eq_map, List.map_cons, List.map_map, List.append_assoc]
          simp only [List.singleton_append, Nat.add_zero]
          congr 2
          apply List.map_congr_left
          intro t _
          simp only [Function.comp, Nat.succ_eq_add_one]
          rw [show i + 1 + t = i + (t + 1) by omega]
        · intro h0
          simp only [mainLoop, hb] at h0 ⊢
          obtain ⟨e1, e2⟩ := hm4 h0
          refine ⟨by omega, ?_⟩
          rw [e2, show i + 1 + n = i + (n + 1) by omega]

end WriteAll

/-! ## The input line -/

theorem byteAt_append_zeros (l : List Nat) (m t : Nat) :
    byteAt (l ++ List.replicate m 0) t = byteAt l t := by
  unfold byteAt
  by_cases h : t < l.length
  · simp [List.getD_eq_getElem?_getD, List.getElem?_append_left h]
  · have h1 : l.length ≤ t := by omega
    simp only [List.getD_eq_getElem?_getD, List.getElem?_append_right h1]
    rw [List.getElem?_eq_none (by omega : l.length ≤ t)]
    by_cases h2 : t - l.length < m
    · rw [List.getElem?_replicate_of_lt h2]
      rfl
    · rw [List.getElem?_eq_none (by simp; omega)]

theorem byteAt_of_lt (l : List Nat) (t : Nat) (h : t < l.length) :
    byteAt l t = l.get ⟨t, h⟩ := by
  simp [byteAt, List.getD_eq_getElem?_getD, List.getElem?_eq_getElem h]

theorem byteAt_mem (l : List Nat) (t : Nat) (h : t < l.length) : byteAt l t ∈ l := by
  rw [byteAt_of_lt l t h]
  exact List.get_mem l t h

theorem byteAt_beyond (l : List Nat) (t : Nat) (h : l.length ≤ t) : byteAt l t = 0 := by
  simp [byteAt, List.getD_eq_getElem?_getD, List.getElem?_eq_none h]

theorem fgets_length (n : Nat) : ∀ stdin : List Nat, (fgets n stdin).length ≤ n - 1 := by
  induction n using Nat.strong_induction_on with
  | _ n ih =>
    intro stdin
    match n, stdin with
    | 0, _ => simp [fgets]
    | 1, _ => simp [fgets]
    | _ + 2, [] => simp [fgets]
    | k + 2, c :: cs =>
      by_cases h : c = 10
      · simp [fgets, h]
      · have := ih (k + 1) (by omega) cs
        simp only [fgets, h, if_false, List.length_cons]
        omega

/-- A line without newline that fits the buffer is stored whole. -/
theorem fgets_whole (n : Nat) :
    ∀ stdin : List Nat, (∀ b ∈ stdin, b ≠ 10) → stdin.length < n → fgets n stdin = stdin := by
  induction n using Nat.strong_induction_on with
  | _ n ih =>
    intro stdin hnl hlen
    match n, stdin with
    | 0, _ => omega
    | 1, [] => rfl
    | 1, _ :: _ => simp at hlen
    | _ + 2, [] => rfl
    | k + 2, c :: cs =>
      have hc : c ≠ 10 := hnl c (List.mem_cons_self c cs)
      have := ih (k + 1) (by omega) cs (fun b hb => hnl b (List.mem_cons_of_mem c hb))
        (by simp at hlen; omega)
      simp only [fgets, hc, if_false, this]

/-- A line whose first newline is at offset `k` is stored up to that newline. -/
theorem fgets_newline (n : Nat) :
    ∀ (stdin : List Nat) (k : Nat), k < stdin.length → byteAt stdin k = 10 →
      (∀ t, t < k → byteAt stdin t ≠ 10) → k + 1 < n → fgets n stdin = stdin.take (k + 1) := by
  induction n using Nat.strong_induction_on with
  | _ n ih =>
    intro stdin k hk h10 hpre hn
    match n, stdin with
    | 0, _ => omega
    | 1, _ => omega
    | _ + 2, [] => simp at hk
    | m + 2, c :: cs =>
      cases k with
      | zero =>
        have hc : c = 10 := by simpa [byteAt] using h10
        simp [fgets, hc]
      | succ k =>
        have hc : c ≠ 10 := by simpa [byteAt] using hpre 0 (by omega)
        have h10c : byteAt cs k = 10 := by simpa [byteAt] using h10
        have hprec : ∀ t, t < k → byteAt cs t ≠ 10 := by
          intro t ht
          simpa [byteAt] using hpre (t + 1) (by omega)
        have := ih (m + 1) (by omega) cs k (by simp at hk; omega) h10c hprec (by omega)
        simp only [fgets, hc, if_false, this, List.take_succ_cons]

theorem strlen_le (l : List Nat) : strlen l ≤ l.length := by
  induction l with
  | nil => simp [strlen]
  | cons c cs ih =>
    by_cases h : c = 0
    · simp [strlen, h]
    · simp only [strlen, h, if_false, List.length_cons]
      omega

theorem strlen_append_zeros (l : List Nat) (m : Nat) :
    strlen (l ++ List.replicate m 0) ≤ l.length := by
  induction l with
  | nil =>
    cases m with
    | zero => simp [strlen]
    | succ m => simp [strlen, List.replicate_succ]
  | cons c cs ih =>
    by_cases h : c = 0
    · simp [strlen, h]
    · rw [List.cons_append, strlen, if_neg h, List.length_cons]
      omega

namespace WriteAll

theorem loadInput_byteAt (stdin : List Nat) (t : Nat) :
    byteAt (loadInput stdin) t = byteAt (fgets BUFFERSIZE stdin) t := by
  unfold loadInput
  exact byteAt_append_zeros _ _ _

theorem loadInput_strlen (stdin : List Nat) : strlen (loadInput stdin) ≤ 255 := by
  unfold loadInput
  have h1 := strlen_append_zeros (fgets BUFFERSIZE stdin)
    (BUFFERSIZE - (fgets BUFFERSIZE stdin).length)
  have h2 := fgets_length BUFFERSIZE stdin
  simp only [BUFFERSIZE] at h1 h2 ⊢
  omega

theorem numloops_le (late : Bool) (len : Nat) : numloops late len ≤ len / 8 + 1 := by
  unfold numloops postIncAssign
  split_ifs <;> omega

theorem numloops_pos (late : Bool) (len : Nat) : 1 ≤ numloops late len := by
  unfold numloops postIncAssign
  split_ifs <;> omega

/-- With the increment of line 134 taking effect the number of passes is the number
of blocks of eight bytes, rounded up. -/
theorem numloops_late (len : Nat) (h : 1 ≤ len) : numloops true len = (len + 7) / 8 := by
  simp only [numloops, postIncAssign, if_true]
  split_ifs <;> omega

/-- With the store of line 134 coming last the number of passes is the number of
full blocks of eight bytes, and one pass for a shorter line. -/
theorem numloops_early (len : Nat) :
    numloops false len = if len / 8 = 0 then 1 else len / 8 := by
  simp [numloops, postIncAssign]


theorem window_take (l : List Nat) (n : Nat) (h : n ≤ l.length) : window l 0 n = l.take n := by
  apply List.ext_getElem
  · simp [window, h]
  · intro i h1 h2
    simp only [window, List.length_map, List.length_range] at h1
    simp only [window, List.getElem_map, List.getElem_range, Nat.zero_add, List.getElem_take]
    rw [byteAt_of_lt l i (by omega)]
    rfl

theorem window_congr (l1 l2 : List Nat) (cnt n : Nat)
    (h : ∀ t, byteAt l1 t = byteAt l2 t) : window l1 cnt n = window l2 cnt n := by
  unfold window
  apply List.map_congr_left
  intro k _
  exact h _

/-- The writes of a run: one frame per pass, all of the length `batchLen` of the line. -/
theorem main_run {σ : Type} (late : Bool) (ch : Chan σ) (dev : σ) (stdin : List Nat) :
    ∃ m, m ≤ numloops late (strlen (loadInput stdin)) ∧ 0 < m
      ∧ writesOf (main late ch dev stdin).2.log
          = (List.range m).map (fun t =>
              frame ((batchLen (loadInput stdin) * t) % 256)
                (window (loadInput stdin) (batchLen (loadInput stdin) * t)
                  (batchLen (loadInput stdin))))
      ∧ ((main late ch dev stdin).1 = 0 →
          m = numloops late (strlen (loadInput stdin))
          ∧ (main late ch dev stdin).2.writeaddress
              = batchLen (loadInput stdin) * numloops late (strlen (loadInput stdin))) := by
  obtain ⟨m, h1, h2, h3, h4⟩ := mainLoop_run ch (loadInput stdin)
    (numloops late (strlen (loadInput stdin))) 0 (initialState dev) initial_static
    (by simp [initialState]) (by simp [initialState])
  refine ⟨m, h1, h2 (numloops_pos _ _), ?_, ?_⟩
  · unfold main
    rw [h3]
    simp [initialState, writesOf]
  · intro h0
    have := h4 h0
    simpa using this

end WriteAll

/-! ## Claims about the batched engine -/

namespace WriteAll

/-- C1: one pass of the main loop of the batched engine, started with the address
cursor `a = writeaddress` (a byte value) and the static part of the write buffer as
initialised, makes exactly one `write`; with `j` the batch length (`1 ≤ j ≤ 8`) and
`d` the `j` data bytes taken from the input buffer, that write has exactly `29 + j`
bytes, which are 20 zero bytes, 0x02, 0x4C, 0x02, the header byte `16 + 1 + j`, 0xA0,
`a`, the bytes `d`, 0x03, 0x00, 0x0F, in this order.  Every write of every run of
the engine is such a buffer. -/
theorem batch_single_write_frame {σ : Type} (ch : Chan σ) (inputbuffer : List Nat)
    (st : State σ) (hs : Static st.writebuffer) (ha : st.writeaddress < 256) :
    1 ≤ batchLen inputbuffer ∧ batchLen inputbuffer ≤ 8
    ∧ (sendBatch ch inputbuffer st).2.1 = batchLen inputbuffer
    ∧ (window inputbuffer st.inputbuffercount (batchLen inputbuffer)).length
        = batchLen inputbuffer
    ∧ writesOf (batch ch inputbuffer st).2.log
        = writesOf st.log ++
          [List.replicate 20 0
            ++ [0x02, 0x4C, 0x02, 16 + 1 + batchLen inputbuffer, 0xA0, st.writeaddress]
            ++ window inputbuffer st.inputbuffercount (batchLen inputbuffer)
            ++ [0x03, 0x00, 0x0F]]
    ∧ (List.replicate 20 0
            ++ [0x02, 0x4C, 0x02, 16 + 1 + batchLen inputbuffer, 0xA0, st.writeaddress]
            ++ window inputbuffer st.inputbuffercount (batchLen inputbuffer)
            ++ [0x03, 0x00, 0x0F]).length = 29 + batchLen inputbuffer
    ∧ (∀ (late : Bool) (dev : σ) (stdin w : List Nat),
        w ∈ writesOf (main late ch dev stdin).2.log →
        ∃ a d, a < 256 ∧ 1 ≤ d.length ∧ d.length ≤ 8
          ∧ w = List.replicate 20 0 ++ [0x02, 0x4C, 0x02, 16 + 1 + d.length, 0xA0, a] ++ d
                ++ [0x03, 0x00, 0x0F]
          ∧ w.length = 29 + d.length) := by
  have hb := batchLen_bounds inputbuffer
  have hw := window_length inputbuffer st.inputbuffercount (batchLen inputbuffer)
  refine ⟨hb.1, hb.2, ?_, hw, ?_, ?_, ?_⟩
  rotate_left 3
  · intro late dev stdin w hmem
    obtain ⟨m, _, _, h3, _⟩ := main_run late ch dev stdin
    rw [h3, List.mem_map] at hmem
    obtain ⟨t, _, rfl⟩ := hmem
    have hb2 := batchLen_bounds (loadInput stdin)
    refine ⟨(batchLen (loadInput stdin) * t) % 256, _, Nat.mod_lt _ (by decide), ?_, ?_, rfl, ?_⟩
    · rw [window_length]; exact hb2.1
    · rw [window_length]; exact hb2.2
    · exact frame_length _ _
  · simp only [sendBatch]
    exact fill_len _ _ _ _
  · rw [(batch_facts ch inputbuffer st).2.2.1,
      fill_frame inputbuffer st.writebuffer st.writeaddress st.inputbuffercount hs,
      Nat.mod_eq_of_lt ha]
    simp only [frame, hw]
  · have := frame_length st.writeaddress
      (window inputbuffer st.inputbuffercount (batchLen inputbuffer))
    simp only [frame, hw] at this
    exact this

/-- C1, at the first pass for the line `"AB\n"` against the idealised device. -/
theorem batch_single_write_frame_witness :
    Static (initialState (Ideal.start (fun _ => 0))).writebuffer
    ∧ (initialState (Ideal.start (fun _ => 0))).writeaddress < 256
    ∧ writesOf (batch Ideal.chan (loadInput [65, 66, 10])
          (initialState (Ideal.start (fun _ => 0)))).2.log
        = [List.replicate 20 0 ++ [0x02, 0x4C, 0x02, 16 + 1 + 3, 0xA0, 0] ++ [65, 66, 10]
            ++ [0x03, 0x00, 0x0F]] :=
  ⟨initial_static, by decide,
    (batch_single_write_frame Ideal.chan (loadInput [65, 66, 10])
      (initialState (Ideal.start (fun _ => 0))) initial_static (by decide)).2.2.2.2.1⟩

/-- C5: for every input buffer, write buffer and input offset, the batch length `j`
with which the data-copy loop ends satisfies `1 ≤ j ≤ 8`; this is the `j` of every
pass of the main loop. -/
theorem batch_length_bounds {σ : Type} (ch : Chan σ) (inputbuffer : List Nat) (st : State σ)
    (wb : Nat → Nat) (cnt : Nat) :
    (1 ≤ (copyLoop inputbuffer 8 0 wb cnt).1 ∧ (copyLoop inputbuffer 8 0 wb cnt).1 ≤ 8)
    ∧ (1 ≤ (sendBatch ch inputbuffer st).2.1 ∧ (sendBatch ch inputbuffer st).2.1 ≤ 8) := by
  have h := copyLoop_spec inputbuffer 8 0 wb cnt
  have hb := batchLen_bounds inputbuffer
  have hl := fill_len inputbuffer st.writebuffer st.writeaddress st.inputbuffercount
  refine ⟨⟨by omega, by omega⟩, ?_⟩
  simp only [sendBatch, hl]
  exact hb

/-- C4, at the input of nine bytes without newline: with the store of line 134 coming
last `numloops` is 1, the engine sends one batch, and `ceil (9 / 8)` is 2. -/
theorem numloops_nine_bytes :
    strlen (loadInput nineBytes) = 9
    ∧ numloops false (strlen (loadInput nineBytes)) = 1
    ∧ (writesOf (main false Ideal.chan (Ideal.start (fun _ => 0)) nineBytes).2.log).length = 1
    ∧ (main false Ideal.chan (Ideal.start (fun _ => 0)) nineBytes).1 = 0
    ∧ (9 + 7) / 8 = 2 := by
  decide

/-- C3 fails at the input `"AB"` (two bytes, no newline), whatever line 134 does: the
one batch carries eight data bytes, not two, its header byte is 25, not 19, and the
cursor ends at 8, not at 2. -/
theorem two_bytes_batch_of_eight :
    (writesOf (main false Ideal.chan (Ideal.start (fun _ => 0)) [0x41, 0x42]).2.log
        = [frame 0 [0x41, 0x42, 0, 0, 0, 0, 0, 0]]
      ∧ writesOf (main true Ideal.chan (Ideal.start (fun _ => 0)) [0x41, 0x42]).2.log
        = [frame 0 [0x41, 0x42, 0, 0, 0, 0, 0, 0]])
    ∧ byteAt (frame 0 [0x41, 0x42, 0, 0, 0, 0, 0, 0]) 23 = 25
    ∧ frame 0 [0x41, 0x42, 0, 0, 0, 0, 0, 0] ≠ frame 0 [0x41, 0x42]
    ∧ (main false Ideal.chan (Ideal.start (fun _ => 0)) [0x41, 0x42]).1 = 0
    ∧ (main false Ideal.chan (Ideal.start (fun _ => 0)) [0x41, 0x42]).2.writeaddress = 8
    ∧ (main true Ideal.chan (Ideal.start (fun _ => 0)) [0x41, 0x42]).2.writeaddress = 8 := by
  decide

/-- C3, amended: for every input of at most 255 bytes containing no terminator byte,
the `i`-th batch the engine sends starts at address cursor `8 * i` and carries exactly
eight data bytes, the bytes `8 * i .. 8 * i + 7` of the input buffer (input bytes,
then the zero bytes behind the input); at least one batch is sent, and when the run
ends normally the cursor is eight times the number of batches sent. -/
theorem batches_of_eight {σ : Type} (late : Bool) (ch : Chan σ) (dev : σ) (stdin : List Nat)
    (hlen : stdin.length ≤ 255) (hnl : ∀ b ∈ stdin, b ≠ 10) :
    (∀ i, i < (writesOf (main late ch dev stdin).2.log).length →
        (writesOf (main late ch dev stdin).2.log)[i]?
          = some (frame (8 * i) (window stdin (8 * i) 8)))
    ∧ 1 ≤ (writesOf (main late ch dev stdin).2.log).length
    ∧ ((main late ch dev stdin).1 = 0 →
        (main late ch dev stdin).2.writeaddress
          = 8 * (writesOf (main late ch dev stdin).2.log).length) := by
  have hf : fgets BUFFERSIZE stdin = stdin :=
    fgets_whole BUFFERSIZE stdin hnl (by simp only [BUFFERSIZE]; omega)
  have hbyte : ∀ t, byteAt (loadInput stdin) t = byteAt stdin t := by
    intro t
    rw [loadInput_byteAt, hf]
  have hne : ∀ t, byteAt stdin t ≠ 10 := by
    intro t
    by_cases ht : t < stdin.length
    · exact hnl _ (byteAt_mem stdin t ht)
    · rw [byteAt_beyond stdin t (by omega)]
      decide
  have hL : batchLen (loadInput stdin) = 8 :=
    batchLen_full _ (fun t _ => by rw [hbyte]; exact hne t)
  obtain ⟨m, h1, h2, h3, h4⟩ := main_run late ch dev stdin
  have hm : m ≤ 32 := by
    have := numloops_le late (strlen (loadInput stdin))
    have := loadInput_strlen stdin
    omega
  rw [hL] at h3 h4
  rw [h3]
  refine ⟨?_, by simpa using h2, ?_⟩
  · intro i hi
    simp only [List.length_map, List.length_range] at hi
    rw [List.getElem?_map, List.getElem?_range hi]
    simp only [Option.map_some']
    rw [Nat.mod_eq_of_lt (by omega), window_congr _ _ _ _ hbyte]
  · intro h0
    obtain ⟨e1, e2⟩ := h4 h0
    rw [e2, e1]
    simp

/-- C3 amended, at the input `"AB"` against the idealised device. -/
theorem batches_of_eight_witness :
    (∀ i, i < (writesOf (main false Ideal.chan (Ideal.start (fun _ => 0)) [0x41, 0x42]).2.log).length →
        (writesOf (main false Ideal.chan (Ideal.start (fun _ => 0)) [0x41, 0x42]).2.log)[i]?
          = some (frame (8 * i) (window [0x41, 0x42] (8 * i) 8)))
    ∧ 1 ≤ (writesOf (main false Ideal.chan (Ideal.start (fun _ => 0)) [0x41, 0x42]).2.log).length
    ∧ ((main false Ideal.chan (Ideal.start (fun _ => 0)) [0x41, 0x42]).1 = 0 →
        (main false Ideal.chan (Ideal.start (fun _ => 0)) [0x41, 0x42]).2.writeaddress
          = 8 * (writesOf (main false Ideal.chan (Ideal.start (fun _ => 0)) [0x41, 0x42]).2.log).length) :=
  batches_of_eight false Ideal.chan (Ideal.start (fun _ => 0)) [0x41, 0x42] (by decide)
    (by decide)

/-- C6 fails at the input `"A\n"` (terminator at offset 1): the batch carries the
two data bytes `0x41, 0x0A`, the terminator among them, not the one byte `0x41`. -/
theorem terminator_is_transmitted :
    writesOf (main false Ideal.chan (Ideal.start (fun _ => 0)) [0x41, 10]).2.log
        = [frame 0 [0x41, 10]]
    ∧ writesOf (main true Ideal.chan (Ideal.start (fun _ => 0)) [0x41, 10]).2.log
        = [frame 0 [0x41, 10]]
    ∧ frame 0 [0x41, 10] ≠ frame 0 [0x41]
    ∧ (main false Ideal.chan (Ideal.start (fun _ => 0)) [0x41, 10]).2.dev.store 1 = 10 := by
  decide

/-- C6, amended: for every input whose first byte of value 10 (the terminator) is at
an offset `k < 8`, the engine sends exactly one batch, whose data bytes are exactly
the `k + 1` bytes at offsets `0 .. k`, the terminator being the last of them; no byte
at an offset greater than `k` is transmitted and no batch is sent after that one. -/
theorem terminator_ends_transfer {σ : Type} (late : Bool) (ch : Chan σ) (dev : σ)
    (stdin : List Nat) (k : Nat) (hk : k < stdin.length) (hk8 : k < 8)
    (h10 : byteAt stdin k = 10) (hpre : ∀ t, t < k → byteAt stdin t ≠ 10) :
    writesOf (main late ch dev stdin).2.log = [frame 0 (stdin.take (k + 1))] := by
  have hf : fgets BUFFERSIZE stdin = stdin.take (k + 1) :=
    fgets_newline BUFFERSIZE stdin k hk h10 hpre (by simp only [BUFFERSIZE]; omega)
  have hlen : (stdin.take (k + 1)).length = k + 1 := by
    rw [List.length_take]; omega
  have hbyte : ∀ t, byteAt (loadInput stdin) t = byteAt (stdin.take (k + 1)) t := by
    intro t
    rw [loadInput_byteAt, hf]
  have htake : ∀ t, t ≤ k → byteAt (stdin.take (k + 1)) t = byteAt stdin t := by
    intro t ht
    rw [byteAt_of_lt _ t (by omega), byteAt_of_lt stdin t (by omega)]
    simp [List.getElem_take]
  have hL : batchLen (loadInput stdin) = k + 1 :=
    batchLen_stop _ k hk8 (by rw [hbyte, htake k (le_refl k)]; exact h10)
      (fun t ht => by rw [hbyte, htake t (by omega)]; exact hpre t ht)
  have hs : strlen (loadInput stdin) ≤ k + 1 := by
    unfold loadInput
    have := strlen_append_zeros (fgets BUFFERSIZE stdin)
      (BUFFERSIZE - (fgets BUFFERSIZE stdin).length)
    rw [hf] at this ⊢
    exact le_trans this (le_of_eq hlen)
  have hn : numloops late (strlen (loadInput stdin)) = 1 := by
    unfold numloops postIncAssign
    split_ifs <;> omega
  obtain ⟨m, h1, h2, h3, _⟩ := main_run late ch dev stdin
  have hm : m = 1 := by omega
  subst hm
  rw [h3, hL]
  simp only [List.range_succ, List.range_zero, List.nil_append, List.map_cons, List.map_nil,
    Nat.mul_zero, Nat.zero_mod]
  rw [window_congr _ _ _ _ hbyte, window_take _ _ (by omega), List.take_take]
  simp

/-- C6 amended, at the input `"A\n"` against the idealised device. -/
theorem terminator_ends_transfer_witness :
    1 < [0x41, 10].length ∧ 1 < 8 ∧ byteAt [0x41, 10] 1 = 10
    ∧ writesOf (main false Ideal.chan (Ideal.start (fun _ => 0)) [0x41, 10]).2.log
        = [frame 0 ([0x41, 10].take (1 + 1))] :=
  ⟨by decide, by decide, by decide,
    terminator_ends_transfer false Ideal.chan (Ideal.start (fun _ => 0)) [0x41, 10] 1
      (by decide) (by decide) (by decide) (by decide)⟩

end WriteAll

/-! ## The checks on the fused response -/

/-- On a literal without zero byte `strncmp` over the length of the literal is zero
exactly when the array holds the literal. -/
theorem strncmp_eq_zero_iff (s2 : Nat → Nat) :
    ∀ (l : List Nat) (off : Nat), (∀ b ∈ l, b ≠ 0) →
      (strncmp l s2 off l.length = 0 ↔ ∀ i, i < l.length → s2 (off + i) = byteAt l i) := by
  intro l
  induction l with
  | nil => intro off _; simp [strncmp]
  | cons c cs ih =>
    intro off hnz
    have hc : c ≠ 0 := hnz c (List.mem_cons_self c cs)
    have hcs : ∀ b ∈ cs, b ≠ 0 := fun b hb => hnz b (List.mem_cons_of_mem c hb)
    simp only [List.length_cons, strncmp, List.headD_cons, List.tail_cons]
    by_cases h : c = s2 off
    · rw [if_neg (by simpa using h), if_neg hc, ih (off + 1) hcs]
      constructor
      · intro hall i hi
        cases i with
        | zero => simpa [byteAt] using h.symm
        | succ i =>
          have := hall i (by omega)
          rw [show off + (i + 1) = off + 1 + i by omega, this]
          simp [byteAt]
      · intro hall i hi
        have := hall (i + 1) (by omega)
        rw [show off + 1 + i = off + (i + 1) by omega, this]
        simp [byteAt]
    · rw [if_pos (by simpa using h)]
      constructor
      · intro h0
        exfalso
        apply h
        have : (c : Int) = (s2 off : Int) := by omega
        exact_mod_cast this
      · intro hall
        exfalso
        apply h
        have := hall 0 (by omega)
        simpa [byteAt] using this.symm

namespace WriteAll

theorem ackLoop_some (BPbuffer : Nat → Nat) (left : Nat) :
    ∀ (k r : Nat), ackLoop BPbuffer left k = some r →
      r = k + left ∧ ∀ t, t < left → BPbuffer (14 + (k + t)) = 0 := by
  induction left with
  | zero =>
    intro k r h
    simp only [ackLoop] at h
    injection h with h
    exact ⟨by omega, fun t ht => absurd ht (Nat.not_lt_zero t)⟩
  | succ n ih =>
    intro k r h
    by_cases h0 : BPbuffer (14 + k) ≠ 0
    · simp only [ackLoop, if_pos h0] at h
      cases h
    · simp only [ackLoop, if_neg h0] at h
      obtain ⟨e1, e2⟩ := ih (k + 1) r h
      refine ⟨by omega, ?_⟩
      intro t ht
      cases t with
      | zero => simpa using h0
      | succ t =>
        have := e2 t (by omega)
        rw [show k + (t + 1) = k + 1 + t by omega]
        exact this

theorem ackLoop_all (BPbuffer : Nat → Nat) (left : Nat) :
    ∀ (k : Nat), (∀ t, t < left → BPbuffer (14 + (k + t)) = 0) →
      ackLoop BPbuffer left k = some (k + left) := by
  induction left with
  | zero => intro k _; rfl
  | succ n ih =>
    intro k h
    have h0 : ¬ BPbuffer (14 + k) ≠ 0 := by simpa using h 0 (by omega)
    simp only [ackLoop, if_neg h0]
    rw [ih (k + 1) (fun t ht => by
      have := h (t + 1) (by omega)
      rw [show k + 1 + t = k + (t + 1) by omega]
      exact this)]
    congr 1
    omega

/-- The checks of lines 197-254 that a response must pass. -/
theorem validate_none (BPbuffer : Nat → Nat) (j : Nat) (h : validate BPbuffer j = none) :
    (∀ i, i < 9 → BPbuffer i = byteAt litBBIO1I2C1 i)
    ∧ BPbuffer 9 = 1 ∧ BPbuffer 10 = 1 ∧ BPbuffer 11 = 1
    ∧ BPbuffer 12 = 0 ∧ BPbuffer 13 = 0
    ∧ (∀ k, k < j → BPbuffer (14 + k) = 0)
    ∧ BPbuffer (14 + j) = 1
    ∧ ¬ (BPbuffer (15 + j) ≠ 66 ∧ BPbuffer (16 + j) ≠ 66 ∧ BPbuffer (17 + j) ≠ 73
          ∧ BPbuffer (18 + j) ≠ 79)
    ∧ BPbuffer (20 + j) = 1 := by
  unfold validate at h
  by_cases h1 : strncmp litBBIO1 BPbuffer 0 5 ≠ 0
  · rw [if_pos h1] at h; cases h
  rw [if_neg h1] at h
  by_cases h2 : strncmp litBBIO1I2C1 BPbuffer 0 9 ≠ 0
  · rw [if_pos h2] at h; cases h
  rw [if_neg h2] at h
  by_cases h3 : BPbuffer 9 ≠ 1
  · rw [if_pos h3] at h; cases h
  rw [if_neg h3] at h
  by_cases h4 : BPbuffer 10 ≠ 1
  · rw [if_pos h4] at h; cases h
  rw [if_neg h4] at h
  by_cases h5 : BPbuffer 11 ≠ 1
  · rw [if_pos h5] at h; cases h
  rw [if_neg h5] at h
  by_cases h6 : BPbuffer 12 ≠ 0
  · rw [if_pos h6] at h; cases h
  rw [if_neg h6] at h
  by_cases h7 : BPbuffer 13 ≠ 0
  · rw [if_pos h7] at h; cases h
  rw [if_neg h7] at h
  cases ha : ackLoop BPbuffer j 0 with
  | none => rw [ha] at h; cases h
  | some k =>
    rw [ha] at h
    simp only at h
    obtain ⟨ek, eack⟩ := ackLoop_some BPbuffer j 0 k ha
    have ek : k = j := by omega
    subst ek
    by_cases h8 : BPbuffer (14 + k) ≠ 1
    · rw [if_pos h8] at h; cases h
    rw [if_neg h8] at h
    by_cases h9 : BPbuffer (15 + k) ≠ 66 ∧ BPbuffer (16 + k) ≠ 66 ∧ BPbuffer (17 + k) ≠ 73
        ∧ BPbuffer (18 + k) ≠ 79
    · rw [if_pos h9] at h; cases h
    rw [if_neg h9] at h
    by_cases h10 : BPbuffer (20 + k) ≠ 1
    · rw [if_pos h10] at h; cases h
    have hlit : ∀ i, i < 9 → BPbuffer i = byteAt litBBIO1I2C1 i := by
      have := (strncmp_eq_zero_iff BPbuffer litBBIO1I2C1 0 (by decide)).mp
        (by simpa [litBBIO1I2C1] using h2)
      intro i hi
      have := this i (by simpa [litBBIO1I2C1] using hi)
      simpa using this
    refine ⟨hlit, by simpa using h3, by simpa using h4, by simpa using h5, by simpa using h6,
      by simpa using h7, ?_, by simpa using h8, h9, by simpa using h10⟩
    intro t ht
    simpa using eack t ht


theorem sendBatch_len {σ : Type} (ch : Chan σ) (inputbuffer : List Nat) (st : State σ) :
    (sendBatch ch inputbuffer st).2.1 = batchLen inputbuffer := by
  simp only [sendBatch]
  exact fill_len _ _ _ _

theorem sendBatch_BPbuffer {σ : Type} (ch : Chan σ) (inputbuffer : List Nat) (st : State σ) :
    (sendBatch ch inputbuffer st).2.2.BPbuffer = st.BPbuffer := rfl

theorem sendBatch_writeaddress {σ : Type} (ch : Chan σ) (inputbuffer : List Nat)
    (st : State σ) : (sendBatch ch inputbuffer st).2.2.writeaddress = st.writeaddress := rfl

theorem readResponse_BPbuffer {σ : Type} (ch : Chan σ) (inputbuffer : List Nat)
    (st : State σ) :
    (readResponse ch (batchLen inputbuffer) (sendBatch ch inputbuffer st).2.2).BPbuffer
      = received ch inputbuffer st := rfl

/-- A pass whose `write` fails ends the run with `exit (2)`. -/
theorem batch_write_failed {σ : Type} (ch : Chan σ) (inputbuffer : List Nat) (st : State σ)
    (hw : (sendBatch ch inputbuffer st).1 = false) :
    batch ch inputbuffer st = (some 2, (sendBatch ch inputbuffer st).2.2) := by
  unfold batch
  simp only [hw, if_true]

/-- A pass whose read delivers no byte ends the run with `exit (3)`. -/
theorem batch_read_failed {σ : Type} (ch : Chan σ) (inputbuffer : List Nat) (st : State σ)
    (hw : (sendBatch ch inputbuffer st).1 = true)
    (hr : readResult (21 + batchLen inputbuffer + 1) (response ch inputbuffer st) ≤ 0) :
    batch ch inputbuffer st
      = (some 3, readResponse ch (batchLen inputbuffer) (sendBatch ch inputbuffer st).2.2) := by
  unfold response at hr
  unfold batch
  simp only [hw, sendBatch_len, hr, if_true, Bool.true_eq_false, if_false]

/-- A pass whose response fails a check ends the run there. -/
theorem batch_rejected {σ : Type} (ch : Chan σ) (inputbuffer : List Nat) (st : State σ)
    (code : Nat) (hw : (sendBatch ch inputbuffer st).1 = true)
    (hr : 0 < readResult (21 + batchLen inputbuffer + 1) (response ch inputbuffer st))
    (hv : validate (received ch inputbuffer st) (batchLen inputbuffer) = some code) :
    batch ch inputbuffer st
      = (some code, readResponse ch (batchLen inputbuffer) (sendBatch ch inputbuffer st).2.2) := by
  unfold response at hr
  rw [← readResponse_BPbuffer] at hv
  unfold batch
  simp only [hw, sendBatch_len, not_le.mpr hr, hv, Bool.true_eq_false, if_false]

/-- A pass whose response passes every check drains the banner and moves the cursor. -/
theorem batch_accepted {σ : Type} (ch : Chan σ) (inputbuffer : List Nat) (st : State σ)
    (hw : (sendBatch ch inputbuffer st).1 = true)
    (hr : 0 < readResult (21 + batchLen inputbuffer + 1) (response ch inputbuffer st))
    (hv : validate (received ch inputbuffer st) (batchLen inputbuffer) = none) :
    batch ch inputbuffer st
      = (none,
          { drain ch (readResponse ch (batchLen inputbuffer) (sendBatch ch inputbuffer st).2.2)
            with writeaddress := st.writeaddress + batchLen inputbuffer }) := by
  unfold response at hr
  rw [← readResponse_BPbuffer] at hv
  unfold batch
  simp only [hw, sendBatch_len, not_le.mpr hr, hv, Bool.true_eq_false, if_false]
  rfl

/-- A pass that lets the run go on had its write done, its read answered and its
response pass every check. -/
theorem batch_none {σ : Type} (ch : Chan σ) (inputbuffer : List Nat) (st : State σ)
    (h : (batch ch inputbuffer st).1 = none) :
    (sendBatch ch inputbuffer st).1 = true
    ∧ 0 < readResult (21 + batchLen inputbuffer + 1) (response ch inputbuffer st)
    ∧ validate (received ch inputbuffer st) (batchLen inputbuffer) = none := by
  cases hw : (sendBatch ch inputbuffer st).1 with
  | false => rw [batch_write_failed ch inputbuffer st hw] at h; cases h
  | true =>
    by_cases hr : readResult (21 + batchLen inputbuffer + 1) (response ch inputbuffer st) ≤ 0
    · rw [batch_read_failed ch inputbuffer st hw hr] at h; cases h
    · have hr : 0 < readResult (21 + batchLen inputbuffer + 1) (response ch inputbuffer st) :=
        not_le.mp hr
      cases hv : validate (received ch inputbuffer st) (batchLen inputbuffer) with
      | some code => rw [batch_rejected ch inputbuffer st code hw hr hv] at h; cases h
      | none => exact ⟨rfl, hr, rfl⟩

theorem readInto_full (buf : Nat → Nat) (n : Nat) (r : List Nat) (hn : n ≤ r.length) (i : Nat)
    (hi : i < n) : readInto buf n (some r) i = byteAt r i := by
  simp only [readInto, List.length_take, Nat.min_eq_left hn, if_pos hi]
  rw [byteAt_of_lt _ i (by rw [List.length_take]; omega), byteAt_of_lt r i (by omega)]
  simp [List.getElem_take]


/-- The calls of a pass whose `write` was done: the write, one read of `21 + j + 1`
bytes, and after it nothing but the reads of 132 bytes. -/
theorem batch_log {σ : Type} (ch : Chan σ) (inputbuffer : List Nat) (st : State σ)
    (hw : (sendBatch ch inputbuffer st).1 = true) :
    ∃ rest, (batch ch inputbuffer st).2.log
        = (sendBatch ch inputbuffer st).2.2.log
          ++ Event.read (21 + batchLen inputbuffer + 1) (response ch inputbuffer st) :: rest
      ∧ (∀ e ∈ rest, ∃ got, e = Event.read 132 got)
      ∧ ((batch ch inputbuffer st).1 ≠ none → rest = []) := by
  by_cases hr : readResult (21 + batchLen inputbuffer + 1) (response ch inputbuffer st) ≤ 0
  · rw [batch_read_failed ch inputbuffer st hw hr]
    exact ⟨[], rfl, by simp, fun _ => rfl⟩
  · have hr : 0 < readResult (21 + batchLen inputbuffer + 1) (response ch inputbuffer st) :=
      not_le.mp hr
    cases hv : validate (received ch inputbuffer st) (batchLen inputbuffer) with
    | some code =>
      rw [batch_rejected ch inputbuffer st code hw hr hv]
      exact ⟨[], rfl, by simp, fun _ => rfl⟩
    | none =>
      rw [batch_accepted ch inputbuffer st hw hr hv]
      refine ⟨[Event.read 132 (ch.read (readResponse ch (batchLen inputbuffer)
            (sendBatch ch inputbuffer st).2.2).dev 132).1,
          Event.read 132 (ch.read (ch.read (readResponse ch (batchLen inputbuffer)
            (sendBatch ch inputbuffer st).2.2).dev 132).2 132).1], ?_, ?_,
          fun h => absurd rfl h⟩
      · simp only [drain, readResponse, response, List.append_assoc, List.singleton_append]
      · intro e he
        simp only [List.mem_cons, List.mem_singleton, List.not_mem_nil, or_false] at he
        rcases he with h | h
        · exact ⟨_, h⟩
        · exact ⟨_, h⟩

theorem readInto_delivered (buf : Nat → Nat) (n : Nat) (r : List Nat) (i : Nat)
    (hi : i < n) (hr : i < r.length) : readInto buf n (some r) i = byteAt r i := by
  have hlen : i < (r.take n).length := by rw [List.length_take]; omega
  simp only [readInto, if_pos hlen]
  rw [byteAt_of_lt _ i hlen, byteAt_of_lt r i hr]
  simp [List.getElem_take]

theorem readResult_delivered (n : Nat) (r : List Nat) (hn : 0 < n) (hr : 0 < r.length) :
    0 < readResult n (some r) := by
  simp only [readResult, List.length_take]
  omega

/-- C2 fails for the response `"BBIO1I2C1"` of nine bytes.  With sixteen input bytes
(two batches of eight) the read of the second pass delivers these nine bytes of the
30 asked for: the response has no byte at the offsets 9 .. 28, the checks pass on
the bytes the first response left in `BPbuffer`, the pass lets the run go on, the
cursor moves to 16 and the run ends with exit status 0. -/
theorem short_response_accepted :
    litBBIO1I2C1.length = 9
    ∧ response Scripted.chan (loadInput Scripted.sixteenBytes)
        (batch Scripted.chan (loadInput Scripted.sixteenBytes)
          (initialState [some Scripted.fullResponse, some [], some [], some litBBIO1I2C1])).2
      = some litBBIO1I2C1
    ∧ (batch Scripted.chan (loadInput Scripted.sixteenBytes)
        (batch Scripted.chan (loadInput Scripted.sixteenBytes)
          (initialState [some Scripted.fullResponse, some [], some [], some litBBIO1I2C1])).2).1
      = none
    ∧ (main false Scripted.chan
        [some Scripted.fullResponse, some [], some [], some litBBIO1I2C1]
        Scripted.sixteenBytes).2.log[5]? = some (Event.read 30 (some litBBIO1I2C1))
    ∧ (main false Scripted.chan
        [some Scripted.fullResponse, some [], some [], some litBBIO1I2C1]
        Scripted.sixteenBytes).1 = 0
    ∧ (main false Scripted.chan
        [some Scripted.fullResponse, some [], some [], some litBBIO1I2C1]
        Scripted.sixteenBytes).2.writeaddress = 16 := by
  decide

/-- C2, amended: in a pass of the main loop with batch length `j`, the batched engine
asks for `21 + j + 1` bytes in one read after its write and reads nothing else before
the checks.  It lets the run go on only if `BPbuffer` as it stands after that read
(the bytes of the response `r` over what the earlier reads left there) has the bytes
0 .. 8 equal to `"BBIO1I2C1"`, the bytes 9, 10, 11 equal to 1, the bytes 12, 13 equal
to 0, the byte `14 + k` equal to 0 for every `k < j`, the byte `14 + j` equal to 1 and
the byte `20 + j` equal to 1.  When `r` has all the `21 + j + 1` bytes asked for,
`BPbuffer` holds them, and the engine accepts `r` only if `r[0..8]` is `"BBIO1I2C1"`,
`r[9] = r[10] = r[11] = 1`, `r[12] = r[13] = 0`, `r[14+k] = 0` for every `k < j`,
`r[14+j] = 1` and `r[20+j] = 1`.  A data acknowledgement different from 0 (the value
1 for instance) at a position `k < j`, in `BPbuffer` or among the bytes `r` delivers,
stops the run with `exit (4)`, whatever the earlier bytes are. -/
theorem fused_response_accepted_only_if {σ : Type} (ch : Chan σ) (inputbuffer : List Nat)
    (st : State σ) :
    ((sendBatch ch inputbuffer st).1 = true →
      ∃ rest, (batch ch inputbuffer st).2.log
          = (sendBatch ch inputbuffer st).2.2.log
            ++ Event.read (21 + batchLen inputbuffer + 1) (response ch inputbuffer st) :: rest
        ∧ (∀ e ∈ rest, ∃ got, e = Event.read 132 got))
    ∧ ((batch ch inputbuffer st).1 = none →
        (∀ i, i < 9 → received ch inputbuffer st i = byteAt [66, 66, 73, 79, 49, 73, 50, 67, 49] i)
        ∧ received ch inputbuffer st 9 = 1 ∧ received ch inputbuffer st 10 = 1
        ∧ received ch inputbuffer st 11 = 1
        ∧ received ch inputbuffer st 12 = 0 ∧ received ch inputbuffer st 13 = 0
        ∧ (∀ k, k < batchLen inputbuffer → received ch inputbuffer st (14 + k) = 0)
        ∧ received ch inputbuffer st (14 + batchLen inputbuffer) = 1
        ∧ received ch inputbuffer st (20 + batchLen inputbuffer) = 1)
    ∧ (∀ k, k < batchLen inputbuffer → received ch inputbuffer st (14 + k) ≠ 0 →
        (sendBatch ch inputbuffer st).1 = true →
        0 < readResult (21 + batchLen inputbuffer + 1) (response ch inputbuffer st) →
        (batch ch inputbuffer st).1 = some 4)
    ∧ (∀ r, response ch inputbuffer st = some r → 21 + batchLen inputbuffer + 1 ≤ r.length →
        ∀ i, i < 21 + batchLen inputbuffer + 1 → received ch inputbuffer st i = byteAt r i)
    ∧ (∀ r, response ch inputbuffer st = some r → 21 + batchLen inputbuffer + 1 ≤ r.length →
        (batch ch inputbuffer st).1 = none →
        (∀ i, i < 9 → byteAt r i = byteAt [66, 66, 73, 79, 49, 73, 50, 67, 49] i)
        ∧ byteAt r 9 = 1 ∧ byteAt r 10 = 1 ∧ byteAt r 11 = 1
        ∧ byteAt r 12 = 0 ∧ byteAt r 13 = 0
        ∧ (∀ k, k < batchLen inputbuffer → byteAt r (14 + k) = 0)
        ∧ byteAt r (14 + batchLen inputbuffer) = 1
        ∧ byteAt r (20 + batchLen inputbuffer) = 1)
    ∧ (∀ r k, response ch inputbuffer st = some r → k < batchLen inputbuffer →
        14 + k < r.length → byteAt r (14 + k) ≠ 0 →
        (sendBatch ch inputbuffer st).1 = true →
        (batch ch inputbuffer st).1 = some 4) := by
  have hfull : ∀ r, response ch inputbuffer st = some r →
      21 + batchLen inputbuffer + 1 ≤ r.length →
      ∀ i, i < 21 + batchLen inputbuffer + 1 → received ch inputbuffer st i = byteAt r i := by
    intro r hr hlen i hi
    unfold received
    rw [hr]
    exact readInto_full _ _ _ hlen i hi
  have hacc : (batch ch inputbuffer st).1 = none →
      (∀ i, i < 9 → received ch inputbuffer st i = byteAt [66, 66, 73, 79, 49, 73, 50, 67, 49] i)
      ∧ received ch inputbuffer st 9 = 1 ∧ received ch inputbuffer st 10 = 1
      ∧ received ch inputbuffer st 11 = 1
      ∧ received ch inputbuffer st 12 = 0 ∧ received ch inputbuffer st 13 = 0
      ∧ (∀ k, k < batchLen inputbuffer → received ch inputbuffer st (14 + k) = 0)
      ∧ received ch inputbuffer st (14 + batchLen inputbuffer) = 1
      ∧ received ch inputbuffer st (20 + batchLen inputbuffer) = 1 := by
    intro h
    obtain ⟨_, _, hv⟩ := batch_none ch inputbuffer st h
    obtain ⟨c1, c2, c3, c4, c5, c6, c7, c8, _, c10⟩ := validate_none _ _ hv
    exact ⟨c1, c2, c3, c4, c5, c6, c7, c8, c10⟩
  have hnack : ∀ k, k < batchLen inputbuffer → received ch inputbuffer st (14 + k) ≠ 0 →
      (sendBatch ch inputbuffer st).1 = true →
      0 < readResult (21 + batchLen inputbuffer + 1) (response ch inputbuffer st) →
      (batch ch inputbuffer st).1 = some 4 := by
    intro k hk hne hw hr
    rcases validate_cases (received ch inputbuffer st) (batchLen inputbuffer) with hv | hv
    · exact absurd ((validate_none _ _ hv).2.2.2.2.2.2.1 k hk) hne
    · rw [batch_rejected ch inputbuffer st 4 hw hr hv]
  refine ⟨?_, hacc, hnack, hfull, ?_, ?_⟩
  · intro hw
    obtain ⟨rest, h1, h2, _⟩ := batch_log ch inputbuffer st hw
    exact ⟨rest, h1, h2⟩
  · intro r hr hlen h
    obtain ⟨c1, c2, c3, c4, c5, c6, c7, c8, c9⟩ := hacc h
    have e := hfull r hr hlen
    refine ⟨?_, ?_, ?_, ?_, ?_, ?_, ?_, ?_, ?_⟩
    · intro i hi
      rw [← e i (by omega)]
      exact c1 i hi
    · rw [← e 9 (by omega)]; exact c2
    · rw [← e 10 (by omega)]; exact c3
    · rw [← e 11 (by omega)]; exact c4
    · rw [← e 12 (by omega)]; exact c5
    · rw [← e 13 (by omega)]; exact c6
    · intro k hk
      rw [← e (14 + k) (by omega)]
      exact c7 k hk
    · rw [← e (14 + batchLen inputbuffer) (by omega)]; exact c8
    · rw [← e (20 + batchLen inputbuffer) (by omega)]; exact c9
  · intro r k hr hk hdel hne hw
    have e : received ch inputbuffer st (14 + k) = byteAt r (14 + k) := by
      unfold received
      rw [hr]
      exact readInto_delivered _ _ r (14 + k) (by omega) hdel
    refine hnack k hk (by rw [e]; exact hne) hw ?_
    rw [hr]
    exact readResult_delivered _ r (by omega) (by omega)

/-- C2 amended, at the first pass for the line `"AB\n"` against the idealised device:
the response has the 25 bytes asked for, it is accepted, and it has the bytes the
checks ask for. -/
theorem fused_response_accepted_only_if_witness :
    (response Ideal.chan (loadInput [65, 66, 10]) (initialState (Ideal.start (fun _ => 0)))
        = some [66, 66, 73, 79, 49, 73, 50, 67, 49, 1, 1, 1, 0, 0, 0, 0, 0, 1, 66, 66, 73, 79,
            49, 1, 72]
      ∧ (batch Ideal.chan (loadInput [65, 66, 10])
          (initialState (Ideal.start (fun _ => 0)))).1 = none)
    ∧ ((∀ i, i < 9 →
          byteAt [66, 66, 73, 79, 49, 73, 50, 67, 49, 1, 1, 1, 0, 0, 0, 0, 0, 1, 66, 66, 73, 79,
            49, 1, 72] i = byteAt [66, 66, 73, 79, 49, 73, 50, 67, 49] i)
      ∧ byteAt [66, 66, 73, 79, 49, 73, 50, 67, 49, 1, 1, 1, 0, 0, 0, 0, 0, 1, 66, 66, 73, 79,
            49, 1, 72] 9 = 1) :=
  ⟨⟨by decide, by decide⟩,
   ⟨((fused_response_accepted_only_if Ideal.chan (loadInput [65, 66, 10])
        (initialState (Ideal.start (fun _ => 0)))).2.2.2.2.1
        [66, 66, 73, 79, 49, 73, 50, 67, 49, 1, 1, 1, 0, 0, 0, 0, 0, 1, 66, 66, 73, 79,
          49, 1, 72] (by decide) (by decide) (by decide)).1,
    ((fused_response_accepted_only_if Ideal.chan (loadInput [65, 66, 10])
        (initialState (Ideal.start (fun _ => 0)))).2.2.2.2.1
        [66, 66, 73, 79, 49, 73, 50, 67, 49, 1, 1, 1, 0, 0, 0, 0, 0, 1, 66, 66, 73, 79,
          49, 1, 72] (by decide) (by decide) (by decide)).2.1⟩⟩

end WriteAll

/-! ## The single-byte engines: steps and runs -/

namespace Single

theorem teardown_log {σ : Type} (ch : Chan σ) (cs : List (List Nat)) :
    ∀ st : State σ, (teardown ch cs st).log = st.log ++ cs.map Event.write := by
  induction cs with
  | nil => intro st; simp [teardown]
  | cons c cs ih =>
    intro st
    simp only [teardown, ih, put, List.map_cons, List.append_assoc, List.singleton_append]

theorem afterRead_log {σ : Type} (ch : Chan σ) (i data : Nat) (s : Step) (st : State σ) :
    (afterRead ch i data s st).log
      = st.log ++ [Event.write (command s st data), Event.read s.rlen (echo ch s st data)] := by
  unfold afterRead keep bump get put echo
  cases s.arg <;> cases s.check <;> simp

theorem afterRead_BPbuffer {σ : Type} (ch : Chan σ) (i data : Nat) (s : Step) (st : State σ) :
    (afterRead ch i data s st).BPbuffer = readInto st.BPbuffer s.rlen (echo ch s st data) := by
  unfold afterRead keep bump get put echo
  cases s.arg <;> cases s.check <;> simp

/-- A step whose `write` fails ends the run with `exit (2)`. -/
theorem runStep_write_failed {σ : Type} (ch : Chan σ) (i data : Nat) (s : Step) (st : State σ)
    (hw : (ch.write st.dev (command s st data)).1 = false) :
    (runStep ch i data s st).1 = Outcome.exit 2 := by
  unfold runStep
  simp only [put, hw, if_true]

/-- A step whose read result fires the guard ends the run with the exit code of the
guard, after the teardown writes of the guard. -/
theorem runStep_guard {σ : Type} (ch : Chan σ) (i data : Nat) (s : Step) (st : State σ)
    (hw : (ch.write st.dev (command s st data)).1 = true)
    (hg : guardFires s.guard (readResult s.rlen (echo ch s st data)) = true) :
    runStep ch i data s st
      = (Outcome.exit s.gexit, teardown ch s.gdown (afterRead ch i data s st)) := by
  have hg2 : guardFires s.guard (get ch (bump s (put ch st (command s st data)).2) s.rlen).1
      = true := by
    unfold get put bump echo at *
    cases s.arg <;> simpa using hg
  unfold runStep
  simp only [show (put ch st (command s st data)).1 = true from hw, hg2, if_true,
    Bool.true_eq_false, if_false]
  rfl

/-- A step whose read result passes the guard goes on as its check decides. -/
theorem runStep_checked {σ : Type} (ch : Chan σ) (i data : Nat) (s : Step) (st : State σ)
    (hw : (ch.write st.dev (command s st data)).1 = true)
    (hg : guardFires s.guard (readResult s.rlen (echo ch s st data)) = false) :
    runStep ch i data s st =
      match s.check with
      | Check.lit l =>
        if strncmp l (afterRead ch i data s st).BPbuffer 0 l.length ≠ 0 then
          (Outcome.exit s.cexit, teardown ch s.cdown (afterRead ch i data s st))
        else (Outcome.next, afterRead ch i data s st)
      | Check.ctrl =>
        if 1 ≠ (afterRead ch i data s st).BPbuffer 0 then
          (Outcome.exit s.cexit, teardown ch s.cdown (afterRead ch i data s st))
        else (Outcome.next, afterRead ch i data s st)
      | Check.ack =>
        if 1 = (afterRead ch i data s st).BPbuffer 0 then
          (Outcome.exit s.cexit, teardown ch s.cdown (afterRead ch i data s st))
        else (Outcome.next, afterRead ch i data s st)
      | Check.raw =>
        if 10 = (afterRead ch i data s st).BPbuffer 0 then
          (Outcome.brk, teardown ch s.cdown (afterRead ch i data s st))
        else (Outcome.next, afterRead ch i data s st) := by
  have hg2 : guardFires s.guard (get ch (bump s (put ch st (command s st data)).2) s.rlen).1
      = false := by
    unfold get put bump echo at *
    cases s.arg <;> simpa using hg
  unfold runStep
  simp only [show (put ch st (command s st data)).1 = true from hw, hg2,
    Bool.true_eq_false, Bool.false_eq_true, if_false]
  rfl

theorem runSteps_append {σ : Type} (ch : Chan σ) (i data : Nat) (pre rest : List Step) :
    ∀ (st0 st : State σ), runSteps ch i data pre st0 = (Outcome.next, st) →
      runSteps ch i data (pre ++ rest) st0 = runSteps ch i data rest st := by
  induction pre with
  | nil =>
    intro st0 st h
    simp only [runSteps] at h
    injection h with _ h2
    subst h2
    rfl
  | cons s pre ih =>
    intro st0 st h
    simp only [runSteps, List.cons_append] at h ⊢
    cases hs : runStep ch i data s st0 with
    | mk out st1 =>
      rw [hs] at h
      cases out with
      | next => simp only at h ⊢; exact ih st1 st h
      | exit c => simp only at h; cases h
      | brk => simp only at h; cases h

/-- A loop body stops at the first step that ends with `exit`. -/
theorem finish_exit_at {σ : Type} (ch : Chan σ) (i data : Nat) (pre post : List Step)
    (s : Step) (st0 st st1 : State σ) (code : Nat)
    (hpre : runSteps ch i data pre st0 = (Outcome.next, st))
    (hs : runStep ch i data s st = (Outcome.exit code, st1)) :
    finish ch i data (pre ++ s :: post) st0 = (Outcome.exit code, st1) := by
  unfold finish
  rw [runSteps_append ch i data pre (s :: post) st0 st hpre]
  simp only [runSteps, hs]

end Single

namespace Write

open Single

/-- The run of the write engine ends where a step of the loop body ends with `exit`,
with the exit code of that step. -/
theorem write_resume_exit_at {σ : Type} (ch : Chan σ) (inputbuffer : List Nat) (left i : Nat)
    (pre post : List Step) (s : Step) (st0 st st1 : State σ) (code : Nat)
    (hpre : runSteps ch i (byteAt inputbuffer i) pre st0 = (Outcome.next, st))
    (hs : runStep ch i (byteAt inputbuffer i) s st = (Outcome.exit code, st1)) :
    resume ch inputbuffer left i (pre ++ s :: post) st0 = (code, st1) := by
  unfold resume
  rw [finish_exit_at ch i _ pre post s st0 st st1 code hpre hs]

end Write

namespace Read

open Single

/-- The run of the read engine ends where a step of the loop body ends with `exit`,
with the exit code of that step. -/
theorem read_resume_exit_at {σ : Type} (ch : Chan σ) (left i : Nat)
    (pre post : List Step) (s : Step) (st0 st st1 : State σ) (code : Nat)
    (hpre : runSteps ch i 0 pre st0 = (Outcome.next, st))
    (hs : runStep ch i 0 s st = (Outcome.exit code, st1)) :
    resume ch left i (pre ++ s :: post) st0 = (code, st1) := by
  unfold resume
  rw [finish_exit_at ch i _ pre post s st0 st st1 code hpre hs]

end Read

namespace Single

theorem readResult_one (bs : List Nat) (h : bs ≠ []) : readResult 1 (some bs) = 1 := by
  cases bs with
  | nil => exact absurd rfl h
  | cons b rest => simp [readResult]

theorem readInto_one (buf : Nat → Nat) (bs : List Nat) (h : bs ≠ []) :
    readInto buf 1 (some bs) 0 = byteAt bs 0 := by
  cases bs with
  | nil => exact absurd rfl h
  | cons b rest => simp [readInto, byteAt]

theorem guardFires_one (g : Guard) : guardFires g 1 = false := by
  cases g <;> rfl

theorem guardFires_nonpos (g : Guard) (r : Int) (h : r ≤ 0) : guardFires g r = true := by
  cases g
  · simp [guardFires, h]
  · simp only [guardFires, decide_eq_true_eq]
    omega

/-- A control step whose echo is one byte different from 1 ends the run with the
exit code of its check, after the teardown writes of its check. -/
theorem runStep_ctrl_rejected {σ : Type} (ch : Chan σ) (i data : Nat) (s : Step)
    (st : State σ) (bs : List Nat) (hc : s.check = Check.ctrl) (hl : s.rlen = 1)
    (hw : (ch.write st.dev (command s st data)).1 = true)
    (he : echo ch s st data = some bs) (hbs : bs ≠ []) (hb : byteAt bs 0 ≠ 1) :
    runStep ch i data s st
      = (Outcome.exit s.cexit, teardown ch s.cdown (afterRead ch i data s st)) := by
  have hg : guardFires s.guard (readResult s.rlen (echo ch s st data)) = false := by
    rw [he, hl, readResult_one bs hbs]
    exact guardFires_one _
  rw [runStep_checked ch i data s st hw hg, hc]
  simp only
  rw [afterRead_BPbuffer, he, hl, readInto_one _ bs hbs, if_pos (fun h => hb h.symm)]

/-- An acknowledged step whose echo is one byte goes on unless that byte is 1. -/
theorem runStep_ack {σ : Type} (ch : Chan σ) (i data : Nat) (s : Step)
    (st : State σ) (bs : List Nat) (hc : s.check = Check.ack) (hl : s.rlen = 1)
    (hw : (ch.write st.dev (command s st data)).1 = true)
    (he : echo ch s st data = some bs) (hbs : bs ≠ []) :
    runStep ch i data s st
      = if byteAt bs 0 = 1 then
          (Outcome.exit s.cexit, teardown ch s.cdown (afterRead ch i data s st))
        else (Outcome.next, afterRead ch i data s st) := by
  have hg : guardFires s.guard (readResult s.rlen (echo ch s st data)) = false := by
    rw [he, hl, readResult_one bs hbs]
    exact guardFires_one _
  rw [runStep_checked ch i data s st hw hg, hc]
  simp only
  rw [afterRead_BPbuffer, he, hl, readInto_one _ bs hbs]
  by_cases h : byteAt bs 0 = 1
  · rw [if_pos h.symm, if_pos h]
  · rw [if_neg (fun h1 => h h1.symm), if_neg h]

/-- The log of a step that ends with its check failing. -/
theorem rejected_log {σ : Type} (ch : Chan σ) (i data : Nat) (s : Step) (st : State σ) :
    (teardown ch s.cdown (afterRead ch i data s st)).log
      = st.log ++ [Event.write (command s st data), Event.read s.rlen (echo ch s st data)]
          ++ s.cdown.map Event.write := by
  rw [teardown_log, afterRead_log]

end Single

namespace Write

open Single

/-- The control steps of the write engine read one byte, end with `exit (4)` and
tear down with nothing, with disable-I2C and disable-bitbang, or with stop,
disable-I2C and disable-bitbang. -/
theorem ctrl_steps : ∀ s ∈ steps, s.check = Check.ctrl →
    s.rlen = 1 ∧ s.cexit = 4
    ∧ (s.cdown = [] ∨ s.cdown = [[0x00], [0x0F]] ∨ s.cdown = [[0x03], [0x00], [0x0F]]) := by
  decide

end Write

namespace Read

open Single

/-- The control steps of the read engine read one byte, end with `exit (4)` and
tear down with nothing, with disable-I2C and disable-bitbang, or with stop,
disable-I2C and disable-bitbang. -/
theorem read_ctrl_steps : ∀ s ∈ steps, s.check = Check.ctrl →
    s.rlen = 1 ∧ s.cexit = 4
    ∧ (s.cdown = [] ∨ s.cdown = [[0x00], [0x0F]] ∨ s.cdown = [[0x03], [0x00], [0x0F]]) := by
  decide

end Read

namespace WriteAll

/-- A response with a control echo different from 1 fails the checks. -/
theorem validate_ctrl (BPbuffer : Nat → Nat) (j : Nat)
    (h : BPbuffer 9 ≠ 1 ∨ BPbuffer 10 ≠ 1 ∨ BPbuffer 11 ≠ 1 ∨ BPbuffer (14 + j) ≠ 1
      ∨ BPbuffer (20 + j) ≠ 1) : validate BPbuffer j = some 4 := by
  rcases validate_cases BPbuffer j with hv | hv
  · obtain ⟨_, c2, c3, c4, _, _, _, c8, _, c10⟩ := validate_none _ _ hv
    rcases h with h | h | h | h | h
    · exact absurd c2 h
    · exact absurd c3 h
    · exact absurd c4 h
    · exact absurd c8 h
    · exact absurd c10 h
  · exact hv

/-- A response with a data-phase echo different from 0 fails the checks. -/
theorem validate_ack (BPbuffer : Nat → Nat) (j : Nat)
    (h : BPbuffer 12 ≠ 0 ∨ BPbuffer 13 ≠ 0 ∨ ∃ k, k < j ∧ BPbuffer (14 + k) ≠ 0) :
    validate BPbuffer j = some 4 := by
  rcases validate_cases BPbuffer j with hv | hv
  · obtain ⟨_, _, _, _, c5, c6, c7, _, _, _⟩ := validate_none _ _ hv
    rcases h with h | h | ⟨k, hk, h⟩
    · exact absurd c5 h
    · exact absurd c6 h
    · exact absurd (c7 k hk) h
  · exact hv

/-- The run of the batched engine ends where a pass ends with `exit`. -/
theorem mainLoop_exit {σ : Type} (ch : Chan σ) (inputbuffer : List Nat) (left : Nat)
    (st st1 : State σ) (code : Nat) (h : batch ch inputbuffer st = (some code, st1)) :
    mainLoop ch inputbuffer (left + 1) st = (code, st1) := by
  simp only [mainLoop, h]

end WriteAll

/-! ## Claims about the validation of echoes -/

/-- C8: in each of the three engines, whenever the byte echoed for a control command
(peripheral enable, start bit, bulk-write header, send-NACK, stop bit, bitbang
disable) is a value other than 1, the run ends with exit status 4.  In the write and
in the read engine the calls after that echo are the teardown writes of the step and
nothing else (none, or disable-I2C and disable-bitbang, or stop, disable-I2C and
disable-bitbang): no later step of the loop body and no later pass is run.  In the
batched engine no call at all follows the read of the fused response and the cursor
stays where it was. -/
theorem control_echo_not_one_fails {σ : Type} (ch : Chan σ) :
    (∀ (pre post : List Single.Step) (s : Single.Step), Write.steps = pre ++ s :: post →
      s.check = Single.Check.ctrl →
      ∀ (inputbuffer : List Nat) (left i : Nat) (st0 st : Single.State σ) (bs : List Nat),
        Single.runSteps ch i (byteAt inputbuffer i) pre st0 = (Single.Outcome.next, st) →
        (ch.write st.dev (Single.command s st (byteAt inputbuffer i))).1 = true →
        Single.echo ch s st (byteAt inputbuffer i) = some bs → bs ≠ [] → byteAt bs 0 ≠ 1 →
        (Write.resume ch inputbuffer left i Write.steps st0).1 = 4
        ∧ (Write.resume ch inputbuffer left i Write.steps st0).2.log
            = st.log ++ [Event.write (Single.command s st (byteAt inputbuffer i)),
                         Event.read 1 (some bs)] ++ s.cdown.map Event.write
        ∧ (s.cdown = [] ∨ s.cdown = [[0x00], [0x0F]] ∨ s.cdown = [[0x03], [0x00], [0x0F]]))
    ∧ (∀ (pre post : List Single.Step) (s : Single.Step), Read.steps = pre ++ s :: post →
      s.check = Single.Check.ctrl →
      ∀ (left i : Nat) (st0 st : Single.State σ) (bs : List Nat),
        Single.runSteps ch i 0 pre st0 = (Single.Outcome.next, st) →
        (ch.write st.dev (Single.command s st 0)).1 = true →
        Single.echo ch s st 0 = some bs → bs ≠ [] → byteAt bs 0 ≠ 1 →
        (Read.resume ch left i Read.steps st0).1 = 4
        ∧ (Read.resume ch left i Read.steps st0).2.log
            = st.log ++ [Event.write (Single.command s st 0), Event.read 1 (some bs)]
                ++ s.cdown.map Event.write
        ∧ (s.cdown = [] ∨ s.cdown = [[0x00], [0x0F]] ∨ s.cdown = [[0x03], [0x00], [0x0F]]))
    ∧ (∀ (inputbuffer : List Nat) (left : Nat) (st : WriteAll.State σ),
        (WriteAll.sendBatch ch inputbuffer st).1 = true →
        0 < readResult (21 + WriteAll.batchLen inputbuffer + 1)
              (WriteAll.response ch inputbuffer st) →
        (WriteAll.received ch inputbuffer st 9 ≠ 1
          ∨ WriteAll.received ch inputbuffer st 10 ≠ 1
          ∨ WriteAll.received ch inputbuffer st 11 ≠ 1
          ∨ WriteAll.received ch inputbuffer st (14 + WriteAll.batchLen inputbuffer) ≠ 1
          ∨ WriteAll.received ch inputbuffer st (20 + WriteAll.batchLen inputbuffer) ≠ 1) →
        (WriteAll.mainLoop ch inputbuffer (left + 1) st).1 = 4
        ∧ (WriteAll.mainLoop ch inputbuffer (left + 1) st).2.log
            = (WriteAll.sendBatch ch inputbuffer st).2.2.log
              ++ [Event.read (21 + WriteAll.batchLen inputbuffer + 1)
                    (WriteAll.response ch inputbuffer st)]
        ∧ (WriteAll.mainLoop ch inputbuffer (left + 1) st).2.writeaddress = st.writeaddress) := by
  refine ⟨?_, ?_, ?_⟩
  · intro pre post s hsteps hc inputbuffer left i st0 st bs hpre hw he hbs hb
    have hmem : s ∈ Write.steps := by rw [hsteps]; simp
    obtain ⟨hl, hx, hd⟩ := Write.ctrl_steps s hmem hc
    have hstep := Single.runStep_ctrl_rejected ch i (byteAt inputbuffer i) s st bs hc hl hw he
      hbs hb
    rw [hsteps, Write.write_resume_exit_at ch inputbuffer left i pre post s st0 st _ _ hpre hstep]
    refine ⟨hx, ?_, hd⟩
    simp only
    rw [Single.rejected_log, he, hl]
  · intro pre post s hsteps hc left i st0 st bs hpre hw he hbs hb
    have hmem : s ∈ Read.steps := by rw [hsteps]; simp
    obtain ⟨hl, hx, hd⟩ := Read.read_ctrl_steps s hmem hc
    have hstep := Single.runStep_ctrl_rejected ch i 0 s st bs hc hl hw he hbs hb
    rw [hsteps, Read.read_resume_exit_at ch left i pre post s st0 st _ _ hpre hstep]
    refine ⟨hx, ?_, hd⟩
    simp only
    rw [Single.rejected_log, he, hl]
  · intro inputbuffer left st hw hr hbad
    have hv := WriteAll.validate_ctrl _ _ hbad
    rw [WriteAll.mainLoop_exit ch inputbuffer left st _ 4
      (WriteAll.batch_rejected ch inputbuffer st 4 hw hr hv)]
    exact ⟨rfl, rfl, rfl⟩

/-- C8, with a scripted device that answers 0 to the peripheral-enable command: the
write engine and the read engine end with exit status 4 in their first pass, and so
does the batched engine on a response whose peripheral-enable echo is 0. -/
theorem control_echo_not_one_fails_witness :
    (Write.resume Scripted.chan [65] 0 0 Write.steps
        (Write.initialState [some litBBIO1, some litI2C1, some [0]] (fun _ => 0))).1 = 4
    ∧ (Read.resume Scripted.chan 1023 0 Read.steps
        (Read.initialState [some litBBIO1, some litI2C1, some [0]] (fun _ => 0)
          (fun _ => 0))).1 = 4
    ∧ (WriteAll.mainLoop Scripted.chan (WriteAll.loadInput [65, 10]) (0 + 1)
        (WriteAll.initialState [some (litBBIO1I2C1 ++ [0])])).1 = 4 :=
  ⟨((control_echo_not_one_fails Scripted.chan).1
      [Write.stepBBEN, Write.stepI2CEN] _ Write.stepPPEN rfl rfl [65] 0 0
      (Write.initialState [some litBBIO1, some litI2C1, some [0]] (fun _ => 0))
      (Single.runSteps Scripted.chan 0 (byteAt [65] 0) [Write.stepBBEN, Write.stepI2CEN]
        (Write.initialState [some litBBIO1, some litI2C1, some [0]] (fun _ => 0))).2
      [0] (Prod.ext (by decide) rfl) (by decide) (by decide) (by decide) (by decide)).1,
   ((control_echo_not_one_fails Scripted.chan).2.1
      [Read.stepBBEN, Read.stepI2CEN] _ Read.stepPPEN rfl rfl 1023 0
      (Read.initialState [some litBBIO1, some litI2C1, some [0]] (fun _ => 0) (fun _ => 0))
      (Single.runSteps Scripted.chan 0 0 [Read.stepBBEN, Read.stepI2CEN]
        (Read.initialState [some litBBIO1, some litI2C1, some [0]] (fun _ => 0)
          (fun _ => 0))).2
      [0] (Prod.ext (by decide) rfl) (by decide) (by decide) (by decide) (by decide)).1,
   ((control_echo_not_one_fails Scripted.chan).2.2 (WriteAll.loadInput [65, 10]) 0
      (WriteAll.initialState [some (litBBIO1I2C1 ++ [0])]) (by decide) (by decide)
      (Or.inl (by decide))).1⟩

namespace Write

open Single

/-- The acknowledged steps of the write engine read one byte, end with `exit (4)`
and tear down with stop, disable-I2C and disable-bitbang. -/
theorem ack_steps : ∀ s ∈ steps, s.check = Check.ack →
    s.rlen = 1 ∧ s.cexit = 4 ∧ s.cdown = [[0x03], [0x00], [0x0F]] := by
  decide

end Write

namespace Read

open Single

/-- The acknowledged steps of the read engine read one byte, end with `exit (4)`
and tear down with stop, disable-I2C and disable-bitbang. -/
theorem read_ack_steps : ∀ s ∈ steps, s.check = Check.ack →
    s.rlen = 1 ∧ s.cexit = 4 ∧ s.cdown = [[0x03], [0x00], [0x0F]] := by
  decide

end Read

/-- C9 fails in the write engine: with the echo 2 for the device-address byte (and
the expected echo everywhere else) the pass goes on to the address byte, the data
byte and the stop bit, and the run ends with exit status 0. -/
theorem device_address_echo_two_continues :
    (Write.main Scripted.chan (Scripted.writePass litBBIO1 2) (fun _ => 0) [65]).1 = 0
    ∧ (Write.main Scripted.chan (Scripted.writePass litBBIO1 2) (fun _ => 0) [65]).2.log[10]?
        = some (Event.write [0xA0])
    ∧ (Write.main Scripted.chan (Scripted.writePass litBBIO1 2) (fun _ => 0) [65]).2.log[11]?
        = some (Event.read 1 (some [2]))
    ∧ writesOf (Write.main Scripted.chan (Scripted.writePass litBBIO1 2) (fun _ => 0) [65]).2.log
        = [List.replicate 20 0, [0x02], [0x4C], [0x02], [0x12], [0xA0], [0], [65], [0x03],
           [0x00], [0x0F]] := by
  decide

/-- C9, amended: in the batched engine a data-phase echo (device-address byte,
address byte, data byte) lets the run go on only when it is 0, and any other value
ends the run with exit status 4; in the write and in the read engine a data-phase
step ends the run, with the teardown writes stop, disable-I2C, disable-bitbang and
exit status 4, when the echoed byte is 1, and goes on to the next step for every
other echoed value. -/
theorem data_phase_echo {σ : Type} (ch : Chan σ) :
    (∀ (inputbuffer : List Nat) (st : WriteAll.State σ),
        (WriteAll.batch ch inputbuffer st).1 = none →
        WriteAll.received ch inputbuffer st 12 = 0
        ∧ WriteAll.received ch inputbuffer st 13 = 0
        ∧ ∀ k, k < WriteAll.batchLen inputbuffer →
            WriteAll.received ch inputbuffer st (14 + k) = 0)
    ∧ (∀ (inputbuffer : List Nat) (left : Nat) (st : WriteAll.State σ),
        (WriteAll.sendBatch ch inputbuffer st).1 = true →
        0 < readResult (21 + WriteAll.batchLen inputbuffer + 1)
              (WriteAll.response ch inputbuffer st) →
        (WriteAll.received ch inputbuffer st 12 ≠ 0
          ∨ WriteAll.received ch inputbuffer st 13 ≠ 0
          ∨ ∃ k, k < WriteAll.batchLen inputbuffer
              ∧ WriteAll.received ch inputbuffer st (14 + k) ≠ 0) →
        (WriteAll.mainLoop ch inputbuffer (left + 1) st).1 = 4)
    ∧ (∀ (pre post : List Single.Step) (s : Single.Step), Write.steps = pre ++ s :: post →
      s.check = Single.Check.ack →
      ∀ (inputbuffer : List Nat) (left i : Nat) (st0 st : Single.State σ) (bs : List Nat),
        Single.runSteps ch i (byteAt inputbuffer i) pre st0 = (Single.Outcome.next, st) →
        (ch.write st.dev (Single.command s st (byteAt inputbuffer i))).1 = true →
        Single.echo ch s st (byteAt inputbuffer i) = some bs → bs ≠ [] →
        (byteAt bs 0 = 1 →
          (Write.resume ch inputbuffer left i Write.steps st0).1 = 4
          ∧ (Write.resume ch inputbuffer left i Write.steps st0).2.log
              = st.log ++ [Event.write (Single.command s st (byteAt inputbuffer i)),
                           Event.read 1 (some bs)]
                  ++ [Event.write [0x03], Event.write [0x00], Event.write [0x0F]])
        ∧ (byteAt bs 0 ≠ 1 →
          Single.runStep ch i (byteAt inputbuffer i) s st
            = (Single.Outcome.next, Single.afterRead ch i (byteAt inputbuffer i) s st)))
    ∧ (∀ (pre post : List Single.Step) (s : Single.Step), Read.steps = pre ++ s :: post →
      s.check = Single.Check.ack →
      ∀ (left i : Nat) (st0 st : Single.State σ) (bs : List Nat),
        Single.runSteps ch i 0 pre st0 = (Single.Outcome.next, st) →
        (ch.write st.dev (Single.command s st 0)).1 = true →
        Single.echo ch s st 0 = some bs → bs ≠ [] →
        (byteAt bs 0 = 1 →
          (Read.resume ch left i Read.steps st0).1 = 4
          ∧ (Read.resume ch left i Read.steps st0).2.log
              = st.log ++ [Event.write (Single.command s st 0), Event.read 1 (some bs)]
                  ++ [Event.write [0x03], Event.write [0x00], Event.write [0x0F]])
        ∧ (byteAt bs 0 ≠ 1 →
          Single.runStep ch i 0 s st
            = (Single.Outcome.next, Single.afterRead ch i 0 s st))) := by
  refine ⟨?_, ?_, ?_, ?_⟩
  · intro inputbuffer st h
    obtain ⟨_, _, hv⟩ := WriteAll.batch_none ch inputbuffer st h
    obtain ⟨_, _, _, _, c5, c6, c7, _, _, _⟩ := WriteAll.validate_none _ _ hv
    exact ⟨c5, c6, c7⟩
  · intro inputbuffer left st hw hr hbad
    have hv := WriteAll.validate_ack _ _ hbad
    rw [WriteAll.mainLoop_exit ch inputbuffer left st _ 4
      (WriteAll.batch_rejected ch inputbuffer st 4 hw hr hv)]
  · intro pre post s hsteps hc inputbuffer left i st0 st bs hpre hw he hbs
    have hmem : s ∈ Write.steps := by rw [hsteps]; simp
    obtain ⟨hl, hx, hd⟩ := Write.ack_steps s hmem hc
    have hstep := Single.runStep_ack ch i (byteAt inputbuffer i) s st bs hc hl hw he hbs
    refine ⟨?_, ?_⟩
    · intro hb
      rw [if_pos hb] at hstep
      rw [hsteps, Write.write_resume_exit_at ch inputbuffer left i pre post s st0 st _ _ hpre
        hstep]
      refine ⟨hx, ?_⟩
      simp only
      rw [Single.rejected_log, he, hl, hd]
      rfl
    · intro hb
      rw [if_neg hb] at hstep
      exact hstep
  · intro pre post s hsteps hc left i st0 st bs hpre hw he hbs
    have hmem : s ∈ Read.steps := by rw [hsteps]; simp
    obtain ⟨hl, hx, hd⟩ := Read.read_ack_steps s hmem hc
    have hstep := Single.runStep_ack ch i 0 s st bs hc hl hw he hbs
    refine ⟨?_, ?_⟩
    · intro hb
      rw [if_pos hb] at hstep
      rw [hsteps, Read.read_resume_exit_at ch left i pre post s st0 st _ _ hpre hstep]
      refine ⟨hx, ?_⟩
      simp only
      rw [Single.rejected_log, he, hl, hd]
      rfl
    · intro hb
      rw [if_neg hb] at hstep
      exact hstep

/-- C9 amended, with scripted devices: the write engine ends with exit status 4 on
the echo 1 for the device-address byte, and the batched engine on the echo 1 for the
address byte. -/
theorem data_phase_echo_witness :
    (Write.resume Scripted.chan [65] 0 0 Write.steps
        (Write.initialState (Scripted.writePass litBBIO1 1) (fun _ => 0))).1 = 4
    ∧ (WriteAll.mainLoop Scripted.chan (WriteAll.loadInput [65, 10]) (0 + 1)
        (WriteAll.initialState [some (litBBIO1I2C1 ++ [1, 1, 1, 0, 1])])).1 = 4 :=
  ⟨(((data_phase_echo Scripted.chan).2.2.1
      [Write.stepBBEN, Write.stepI2CEN, Write.stepPPEN, Write.stepSTART, Write.stepBULK] _
      Write.stepDEVADDR rfl rfl [65] 0 0
      (Write.initialState (Scripted.writePass litBBIO1 1) (fun _ => 0))
      (Single.runSteps Scripted.chan 0 (byteAt [65] 0)
        [Write.stepBBEN, Write.stepI2CEN, Write.stepPPEN, Write.stepSTART, Write.stepBULK]
        (Write.initialState (Scripted.writePass litBBIO1 1) (fun _ => 0))).2
      [1] (Prod.ext (by decide) rfl) (by decide) (by decide) (by decide)).1 (by decide)).1,
   (data_phase_echo Scripted.chan).2.1 (WriteAll.loadInput [65, 10]) 0
      (WriteAll.initialState [some (litBBIO1I2C1 ++ [1, 1, 1, 0, 1])]) (by decide) (by decide)
      (Or.inr (Or.inl (by decide)))⟩

namespace Single

theorem guardFires_le0_some (n : Nat) (bs : List Nat) (hn : 1 ≤ n) (hbs : bs ≠ []) :
    guardFires Guard.le0 (readResult n (some bs)) = false := by
  cases bs with
  | nil => exact absurd rfl hbs
  | cons b rest =>
    simp only [guardFires, readResult, List.length_take, List.length_cons,
      decide_eq_false_iff_not, not_le]
    omega

/-- A step that compares the echo with a literal and whose read delivers at least
one byte decides on the array `BPbuffer` as it stands after the read: the bytes
delivered, followed by the bytes earlier reads left there. -/
theorem runStep_lit {σ : Type} (ch : Chan σ) (i data : Nat) (s : Step) (st : State σ)
    (l bs : List Nat) (hc : s.check = Check.lit l) (hg : s.guard = Guard.le0)
    (hl : 1 ≤ s.rlen) (hw : (ch.write st.dev (command s st data)).1 = true)
    (he : echo ch s st data = some bs) (hbs : bs ≠ []) :
    runStep ch i data s st
      = if strncmp l (readInto st.BPbuffer s.rlen (some bs)) 0 l.length ≠ 0 then
          (Outcome.exit s.cexit, teardown ch s.cdown (afterRead ch i data s st))
        else (Outcome.next, afterRead ch i data s st) := by
  have hgf : guardFires s.guard (readResult s.rlen (echo ch s st data)) = false := by
    rw [he, hg]
    exact guardFires_le0_some _ _ hl hbs
  rw [runStep_checked ch i data s st hw hgf, hc]
  simp only
  rw [afterRead_BPbuffer, he]

/-- The log of a step that ends with its guard firing. -/
theorem guard_log {σ : Type} (ch : Chan σ) (i data : Nat) (s : Step) (st : State σ) :
    (teardown ch s.gdown (afterRead ch i data s st)).log
      = st.log ++ [Event.write (command s st data), Event.read s.rlen (echo ch s st data)]
          ++ s.gdown.map Event.write := by
  rw [teardown_log, afterRead_log]

end Single

namespace Write

open Single

/-- The exit code of a failed read in the write engine is 3, or 4 at the data byte;
the steps that compare with a literal test the read result with `result <= 0` and
ask for at least one byte. -/
theorem guard_steps : ∀ s ∈ steps, (s.gexit = 3 ∨ s.gexit = 4)
    ∧ ∀ l, s.check = Check.lit l → s.guard = Guard.le0 ∧ 1 ≤ s.rlen ∧ s.cexit = 4 := by
  intro s hs
  simp only [steps, List.mem_cons, List.mem_singleton, List.not_mem_nil, or_false] at hs
  rcases hs with h | h | h | h | h | h | h | h | h | h | h <;> subst h <;>
    refine ⟨by decide, ?_⟩ <;> intro l hl <;> first
      | exact ⟨rfl, by decide, rfl⟩
      | (exfalso; revert hl; simp [stepPPEN, stepSTART, stepBULK, stepDEVADDR, stepADDRESS,
          stepDATA, stepSTOP, stepBBDIS])

end Write

namespace Read

open Single

/-- The exit code of a failed read in the read engine is 3; the steps that compare
with a literal test the read result with `result <= 0` and ask for at least one
byte. -/
theorem read_guard_steps : ∀ s ∈ steps, s.gexit = 3
    ∧ ∀ l, s.check = Check.lit l → s.guard = Guard.le0 ∧ 1 ≤ s.rlen ∧ s.cexit = 4 := by
  intro s hs
  simp only [steps, List.mem_cons, List.mem_singleton, List.not_mem_nil, or_false] at hs
  rcases hs with h | h | h | h | h | h | h | h | h | h | h | h | h | h | h <;> subst h <;>
    refine ⟨by decide, ?_⟩ <;> intro l hl <;> first
      | exact ⟨rfl, by decide, rfl⟩
      | (exfalso; revert hl; simp [stepPPEN, stepSTART, stepBULK1, stepDEVWRITEADDR,
          stepADDRESS, stepRESTART, stepBULK2, stepDEVREADADDR, stepREAD, stepNACK, stepSTOP,
          stepBBDIS])

end Read

/-- C10 fails in the batched engine and in the write engine.  Batched engine, sixteen
input bytes: the read of the second pass delivers one byte of the 30 asked for, the
checks pass on the bytes the first response left in `BPbuffer`, and the run ends with
exit status 0 after two batches.  Write engine, two input bytes: the read of the
`"BBIO1"` echo of the second pass delivers one byte of the five asked for, and the
run ends with exit status 0 after both passes. -/
theorem short_read_passes :
    ((WriteAll.main false Scripted.chan
        [some Scripted.fullResponse, some [], some [], some [66]] Scripted.sixteenBytes).1 = 0
      ∧ (WriteAll.main false Scripted.chan
          [some Scripted.fullResponse, some [], some [], some [66]]
          Scripted.sixteenBytes).2.log[5]? = some (Event.read 30 (some [66]))
      ∧ (writesOf (WriteAll.main false Scripted.chan
          [some Scripted.fullResponse, some [], some [], some [66]]
          Scripted.sixteenBytes).2.log).length = 2
      ∧ (WriteAll.main false Scripted.chan
          [some Scripted.fullResponse, some [], some [], some [66]]
          Scripted.sixteenBytes).2.writeaddress = 16)
    ∧ ((Write.main Scripted.chan
          (Scripted.writePass litBBIO1 0 ++ Scripted.writePass [66] 0) (fun _ => 0)
          [65, 66]).1 = 0
      ∧ (Write.main Scripted.chan
          (Scripted.writePass litBBIO1 0 ++ Scripted.writePass [66] 0) (fun _ => 0)
          [65, 66]).2.log[25]? = some (Event.read 5 (some [66]))
      ∧ (writesOf (Write.main Scripted.chan
          (Scripted.writePass litBBIO1 0 ++ Scripted.writePass [66] 0) (fun _ => 0)
          [65, 66]).2.log).length = 22) := by
  decide

/-- C10, amended: in every engine a read that delivers no byte (or fails) ends the
run in failure at once, whatever `BPbuffer` holds: with exit status 3 (4 at the data
byte of the write engine) after the teardown writes of that step in the write and in
the read engine, with exit status 3 in the batched engine.  A read that delivers at
least one byte is not a failure by itself, also when it delivers fewer bytes than
asked for: the `"BBIO1"` and `"I2C1"` steps compare the literal with `BPbuffer` as
it stands after the read, and the batched engine runs its checks on `BPbuffer` as it
stands after the read. -/
theorem empty_read_fails {σ : Type} (ch : Chan σ) :
    (∀ (pre post : List Single.Step) (s : Single.Step), Write.steps = pre ++ s :: post →
      ∀ (inputbuffer : List Nat) (left i : Nat) (st0 st : Single.State σ),
        Single.runSteps ch i (byteAt inputbuffer i) pre st0 = (Single.Outcome.next, st) →
        (ch.write st.dev (Single.command s st (byteAt inputbuffer i))).1 = true →
        (readResult s.rlen (Single.echo ch s st (byteAt inputbuffer i)) ≤ 0 →
          (Write.resume ch inputbuffer left i Write.steps st0).1 = s.gexit
          ∧ (s.gexit = 3 ∨ s.gexit = 4)
          ∧ (Write.resume ch inputbuffer left i Write.steps st0).2.log
              = st.log ++ [Event.write (Single.command s st (byteAt inputbuffer i)),
                  Event.read s.rlen (Single.echo ch s st (byteAt inputbuffer i))]
                ++ s.gdown.map Event.write)
        ∧ (∀ l bs, s.check = Single.Check.lit l →
            Single.echo ch s st (byteAt inputbuffer i) = some bs → bs ≠ [] →
            Single.runStep ch i (byteAt inputbuffer i) s st
              = if strncmp l (readInto st.BPbuffer s.rlen (some bs)) 0 l.length ≠ 0 then
                  (Single.Outcome.exit 4, Single.teardown ch s.cdown
                    (Single.afterRead ch i (byteAt inputbuffer i) s st))
                else (Single.Outcome.next,
                    Single.afterRead ch i (byteAt inputbuffer i) s st)))
    ∧ (∀ (pre post : List Single.Step) (s : Single.Step), Read.steps = pre ++ s :: post →
      ∀ (left i : Nat) (st0 st : Single.State σ),
        Single.runSteps ch i 0 pre st0 = (Single.Outcome.next, st) →
        (ch.write st.dev (Single.command s st 0)).1 = true →
        (readResult s.rlen (Single.echo ch s st 0) ≤ 0 →
          (Read.resume ch left i Read.steps st0).1 = 3
          ∧ (Read.resume ch left i Read.steps st0).2.log
              = st.log ++ [Event.write (Single.command s st 0),
                  Event.read s.rlen (Single.echo ch s st 0)]
                ++ s.gdown.map Event.write)
        ∧ (∀ l bs, s.check = Single.Check.lit l →
            Single.echo ch s st 0 = some bs → bs ≠ [] →
            Single.runStep ch i 0 s st
              = if strncmp l (readInto st.BPbuffer s.rlen (some bs)) 0 l.length ≠ 0 then
                  (Single.Outcome.exit 4, Single.teardown ch s.cdown
                    (Single.afterRead ch i 0 s st))
                else (Single.Outcome.next, Single.afterRead ch i 0 s st)))
    ∧ (∀ (inputbuffer : List Nat) (left : Nat) (st : WriteAll.State σ),
        (WriteAll.sendBatch ch inputbuffer st).1 = true →
        (readResult (21 + WriteAll.batchLen inputbuffer + 1)
            (WriteAll.response ch inputbuffer st) ≤ 0 →
          (WriteAll.mainLoop ch inputbuffer (left + 1) st).1 = 3)
        ∧ (0 < readResult (21 + WriteAll.batchLen inputbuffer + 1)
            (WriteAll.response ch inputbuffer st) →
          ((WriteAll.batch ch inputbuffer st).1 = none ↔
            WriteAll.validate (WriteAll.received ch inputbuffer st)
              (WriteAll.batchLen inputbuffer) = none))) := by
  refine ⟨?_, ?_, ?_⟩
  · intro pre post s hsteps inputbuffer left i st0 st hpre hw
    have hmem : s ∈ Write.steps := by rw [hsteps]; simp
    obtain ⟨hx, hlit⟩ := Write.guard_steps s hmem
    refine ⟨?_, ?_⟩
    · intro hr
      have hstep := Single.runStep_guard ch i (byteAt inputbuffer i) s st hw
        (Single.guardFires_nonpos _ _ hr)
      rw [hsteps, Write.write_resume_exit_at ch inputbuffer left i pre post s st0 st _ _ hpre
        hstep]
      refine ⟨rfl, hx, ?_⟩
      simp only
      rw [Single.guard_log]
    · intro l bs hc he hbs
      obtain ⟨hg, hl, hcx⟩ := hlit l hc
      rw [Single.runStep_lit ch i _ s st l bs hc hg hl hw he hbs, hcx]
  · intro pre post s hsteps left i st0 st hpre hw
    have hmem : s ∈ Read.steps := by rw [hsteps]; simp
    obtain ⟨hx, hlit⟩ := Read.read_guard_steps s hmem
    refine ⟨?_, ?_⟩
    · intro hr
      have hstep := Single.runStep_guard ch i 0 s st hw (Single.guardFires_nonpos _ _ hr)
      rw [hsteps, Read.read_resume_exit_at ch left i pre post s st0 st _ _ hpre hstep]
      refine ⟨hx, ?_⟩
      simp only
      rw [Single.guard_log]
    · intro l bs hc he hbs
      obtain ⟨hg, hl, hcx⟩ := hlit l hc
      rw [Single.runStep_lit ch i _ s st l bs hc hg hl hw he hbs, hcx]
  · intro inputbuffer left st hw
    refine ⟨?_, ?_⟩
    · intro hr
      rw [WriteAll.mainLoop_exit ch inputbuffer left st _ 3
        (WriteAll.batch_read_failed ch inputbuffer st hw hr)]
    · intro hr
      constructor
      · intro h
        exact (WriteAll.batch_none ch inputbuffer st h).2.2
      · intro hv
        rw [WriteAll.batch_accepted ch inputbuffer st hw hr hv]

/-- C10 amended, with a scripted device that delivers nothing: the write engine, the
read engine and the batched engine end with exit status 3 at their first read. -/
theorem empty_read_fails_witness :
    (Write.resume Scripted.chan [65] 0 0 Write.steps
        (Write.initialState [] (fun _ => 0))).1 = 3
    ∧ (Read.resume Scripted.chan 1023 0 Read.steps
        (Read.initialState [] (fun _ => 0) (fun _ => 0))).1 = 3
    ∧ (WriteAll.mainLoop Scripted.chan (WriteAll.loadInput [65, 10]) (0 + 1)
        (WriteAll.initialState [])).1 = 3 :=
  ⟨(((empty_read_fails Scripted.chan).1 [] _ Write.stepBBEN rfl [65] 0 0
      (Write.initialState [] (fun _ => 0)) (Write.initialState [] (fun _ => 0))
      rfl (by decide)).1 (by decide)).1,
   (((empty_read_fails Scripted.chan).2.1 [] _ Read.stepBBEN rfl 1023 0
      (Read.initialState [] (fun _ => 0) (fun _ => 0))
      (Read.initialState [] (fun _ => 0) (fun _ => 0)) rfl (by decide)).1 (by decide)).1,
   ((empty_read_fails Scripted.chan).2.2 (WriteAll.loadInput [65, 10]) 0
      (WriteAll.initialState []) (by decide)).1 (by decide)⟩

/-! ## The round trip through the idealised device -/

/-- C7, at the input of nine bytes `"ABCDEFGHI"` without newline, the store of the
idealised device empty at the start and the store of line 134 coming last: the
batched engine ends with exit status 0 after one batch, the store holds the first
eight bytes of the input, and `store[8]` is still 0 where the input has the byte 73. -/
theorem nine_bytes_not_stored :
    (WriteAll.main false Ideal.chan (Ideal.start (fun _ => 0)) WriteAll.nineBytes).1 = 0
    ∧ (List.range 9).map
        (WriteAll.main false Ideal.chan (Ideal.start (fun _ => 0)) WriteAll.nineBytes).2.dev.store
        = [65, 66, 67, 68, 69, 70, 71, 72, 0]
    ∧ byteAt WriteAll.nineBytes 8 = 73
    ∧ (WriteAll.main false Ideal.chan (Ideal.start (fun _ => 0)) WriteAll.nineBytes).2.dev.out
        = [] := by
  decide

/-! ## Claims settled on the tables and on runs -/

namespace WriteAll

/-- The test of line 245 lets a response pass as soon as one of the four bytes at
`15 + j .. 18 + j` is the expected one; the byte at `19 + j` is not looked at. -/
theorem validate_disable_echo (BPbuffer : Nat → Nat) (j : Nat)
    (h1 : ∀ i, i < 9 → BPbuffer i = byteAt litBBIO1I2C1 i)
    (h9 : BPbuffer 9 = 1) (h10 : BPbuffer 10 = 1) (h11 : BPbuffer 11 = 1)
    (h12 : BPbuffer 12 = 0) (h13 : BPbuffer 13 = 0)
    (hack : ∀ k, k < j → BPbuffer (14 + k) = 0) (hstop : BPbuffer (14 + j) = 1)
    (hany : BPbuffer (15 + j) = 66 ∨ BPbuffer (16 + j) = 66 ∨ BPbuffer (17 + j) = 73
      ∨ BPbuffer (18 + j) = 79)
    (hlast : BPbuffer (20 + j) = 1) : validate BPbuffer j = none := by
  have e9 : strncmp litBBIO1I2C1 BPbuffer 0 9 = 0 :=
    (strncmp_eq_zero_iff BPbuffer litBBIO1I2C1 0 (by decide)).mpr
      (fun i hi => by simpa using h1 i (by simpa [litBBIO1I2C1] using hi))
  have e5 : strncmp litBBIO1 BPbuffer 0 5 = 0 :=
    (strncmp_eq_zero_iff BPbuffer litBBIO1 0 (by decide)).mpr
      (fun i hi => by
        have hi5 : i < 5 := by simpa [litBBIO1] using hi
        have := h1 i (by omega)
        rw [Nat.zero_add, this]
        have : i = 0 ∨ i = 1 ∨ i = 2 ∨ i = 3 ∨ i = 4 := by omega
        rcases this with h | h | h | h | h <;> subst h <;> rfl)
  have ea : ackLoop BPbuffer j 0 = some j := by
    have := ackLoop_all BPbuffer j 0 (fun t ht => by simpa using hack t ht)
    simpa using this
  unfold validate
  rw [if_neg (by simp [e5]), if_neg (by simp [e9]), if_neg (by simp [h9]),
    if_neg (by simp [h10]), if_neg (by simp [h11]), if_neg (by simp [h12]),
    if_neg (by simp [h13]), ea]
  simp only
  rw [if_neg (by simp [hstop]), if_neg (by
    intro hall
    rcases hany with h | h | h | h
    · exact hall.1 h
    · exact hall.2.1 h
    · exact hall.2.2.1 h
    · exact hall.2.2.2 h), if_neg (by simp [hlast])]

/-- C11, at the line `"A\n"` (batch length 2) and a response whose disable-I2C echo
at offsets 17 .. 21 is `"BZZZZ"`: four of the five bytes differ from `"BBIO1"`, the
response passes the checks, the pass moves the cursor on and the run ends with exit
status 0. -/
theorem disable_echo_not_compared :
    batchLen (loadInput [65, 10]) = 2
    ∧ (List.range 5).map (fun i => byteAt Scripted.badDisableEcho (15 + 2 + i))
        = [66, 90, 90, 90, 90]
    ∧ (List.range 5).map (fun i => byteAt Scripted.badDisableEcho (15 + 2 + i)) ≠ litBBIO1
    ∧ (batch Scripted.chan (loadInput [65, 10])
        (initialState [some Scripted.badDisableEcho])).1 = none
    ∧ (main false Scripted.chan [some Scripted.badDisableEcho] [65, 10]).1 = 0
    ∧ (main false Scripted.chan [some Scripted.badDisableEcho] [65, 10]).2.writeaddress = 2 := by
  decide

end WriteAll

namespace Single

theorem afterRead_address {σ : Type} (ch : Chan σ) (i data : Nat) (s : Step) (st : State σ) :
    (afterRead ch i data s st).address = (bump s st).address
    ∧ (afterRead ch i data s st).addressbuffer = (bump s st).addressbuffer := by
  unfold afterRead keep bump get put
  cases s.arg <;> cases s.check <;> simp

/-- A step that goes on leaves the state of its write, its read and the statements
tied to them. -/
theorem runStep_next {σ : Type} (ch : Chan σ) (i data : Nat) (s : Step) (st st1 : State σ)
    (h : runStep ch i data s st = (Outcome.next, st1)) : st1 = afterRead ch i data s st := by
  cases hw : (ch.write st.dev (command s st data)).1 with
  | false =>
    have := runStep_write_failed ch i data s st hw
    rw [h] at this
    cases this
  | true =>
    cases hg : guardFires s.guard (readResult s.rlen (echo ch s st data)) with
    | true =>
      rw [runStep_guard ch i data s st hw hg] at h
      cases h
    | false =>
      rw [runStep_checked ch i data s st hw hg] at h
      cases hc : s.check with
      | lit l =>
        rw [hc] at h
        simp only at h
        split_ifs at h
        · cases h
        · injection h with _ h2; exact h2.symm
      | ctrl =>
        rw [hc] at h
        simp only at h
        split_ifs at h
        · cases h
        · injection h with _ h2; exact h2.symm
      | ack =>
        rw [hc] at h
        simp only at h
        split_ifs at h
        · cases h
        · injection h with _ h2; exact h2.symm
      | raw =>
        rw [hc] at h
        simp only at h
        split_ifs at h
        · cases h
        · injection h with _ h2; exact h2.symm

/-- The writes and the address cursor of steps that all go on. -/
theorem runSteps_next {σ : Type} (ch : Chan σ) (i data : Nat) (steps : List Step) :
    ∀ (st st1 : State σ), runSteps ch i data steps st = (Outcome.next, st1) →
      writesOf st1.log
        = writesOf st.log ++ commandsFrom steps st.address st.addressbuffer data
      ∧ st1.address = addressAfter steps st.address := by
  induction steps with
  | nil =>
    intro st st1 h
    simp only [runSteps] at h
    injection h with _ h2
    subst h2
    simp [commandsFrom, addressAfter]
  | cons s rest ih =>
    intro st st1 h
    simp only [runSteps] at h
    cases hs : runStep ch i data s st with
    | mk out st2 =>
      rw [hs] at h
      cases out with
      | exit c => simp only at h; cases h
      | brk => simp only at h; cases h
      | next =>
        simp only at h
        have e := runStep_next ch i data s st st2 hs
        obtain ⟨ih1, ih2⟩ := ih st2 st1 h
        have hlog : writesOf st2.log = writesOf st.log ++ [command s st data] := by
          rw [e, afterRead_log, writesOf_append]
          rfl
        obtain ⟨ea, eb⟩ := afterRead_address ch i data s st
        rw [← e] at ea eb
        rw [ih1, ih2, hlog, ea, eb]
        cases hsa : s.arg <;> simp [commandsFrom, addressAfter, command, bump, hsa]

theorem drain_writes {σ : Type} (ch : Chan σ) (st : State σ) :
    writesOf (drain ch st).log = writesOf st.log ∧ (drain ch st).address = st.address := by
  simp [drain, get, writesOf_append, writesOf]

/-- The writes and the address cursor of a loop body that runs to its end. -/
theorem finish_next {σ : Type} (ch : Chan σ) (i data : Nat) (steps : List Step)
    (st st1 : State σ) (h : finish ch i data steps st = (Outcome.next, st1)) :
    writesOf st1.log
        = writesOf st.log ++ commandsFrom steps st.address st.addressbuffer data
    ∧ st1.address = addressAfter steps st.address := by
  unfold finish at h
  cases hr : runSteps ch i data steps st with
  | mk out st2 =>
    rw [hr] at h
    cases out with
    | exit c => simp only at h; cases h
    | brk => simp only at h; cases h
    | next =>
      simp only at h
      injection h with _ h2
      subst h2
      obtain ⟨e1, e2⟩ := runSteps_next ch i data steps st st2 hr
      obtain ⟨d1, d2⟩ := drain_writes ch st2
      rw [d1, d2]
      exact ⟨e1, e2⟩

end Single

/-- C13: a pass of the read engine that runs to its end (every write done, every
echo accepted, the byte read not 10), started with the address cursor `a` below 256
in `readaddress` and `addressbuffer`, makes these writes, in this order: 20 zero
bytes, 0x02 (I2C enable), 0x4C, 0x02 (start), 0x11, 0xA0, `a`, 0x02 (repeated
start), 0x10, 0xA1, 0x04, 0x07, 0x03, 0x00, 0x0F; and the cursor is `a + 1`
afterwards. -/
theorem read_pass_writes {σ : Type} (ch : Chan σ) (i a : Nat) (st st1 : Single.State σ)
    (ha : st.address = a) (hab : st.addressbuffer = a)
    (h : Single.finish ch i 0 Read.steps st = (Single.Outcome.next, st1)) :
    writesOf st1.log
      = writesOf st.log ++
        [List.replicate 20 0, [0x02], [0x4C], [0x02], [0x11], [0xA0], [a], [0x02], [0x10],
         [0xA1], [0x04], [0x07], [0x03], [0x00], [0x0F]]
    ∧ st1.address = a + 1 := by
  obtain ⟨e1, e2⟩ := Single.finish_next ch i 0 Read.steps st st1 h
  rw [e1, e2, ha, hab]
  exact ⟨rfl, rfl⟩

/-- C13, at the first pass against the idealised device whose store starts with the
byte 65. -/
theorem read_pass_writes_witness :
    writesOf (Single.finish Ideal.chan 0 0 Read.steps
        (Read.initialState (Ideal.start (fun _ => 65)) (fun _ => 0) (fun _ => 0))).2.log
      = [] ++
        [List.replicate 20 0, [0x02], [0x4C], [0x02], [0x11], [0xA0], [0], [0x02], [0x10],
         [0xA1], [0x04], [0x07], [0x03], [0x00], [0x0F]]
    ∧ (Single.finish Ideal.chan 0 0 Read.steps
        (Read.initialState (Ideal.start (fun _ => 65)) (fun _ => 0) (fun _ => 0))).2.address
      = 0 + 1 :=
  read_pass_writes Ideal.chan 0 0
    (Read.initialState (Ideal.start (fun _ => 65)) (fun _ => 0) (fun _ => 0)) _ rfl rfl
    (Prod.ext (by decide) rfl)

/-- C20: for every address `a` (a byte value) and data byte `b`, the write buffer the
batched engine sends for a one-byte batch (`j = 1`, cursor `a`, data byte `b`) is,
byte for byte, the concatenation in order of the bytes of the eleven writes the
single-byte write engine makes in a pass that runs to its end with the address `a`
in `addressbuffer` and the data byte `b`; these are 30 bytes. -/
theorem one_byte_batch_is_write_pass {σ τ : Type} (chA : Chan σ) (chW : Chan τ)
    (inputbuffer : List Nat) (stA : WriteAll.State σ) (i a b : Nat)
    (stW stW1 : Single.State τ)
    (hs : WriteAll.Static stA.writebuffer) (ha : stA.writeaddress = a) (ha256 : a < 256)
    (hj : WriteAll.batchLen inputbuffer = 1)
    (hb : byteAt inputbuffer stA.inputbuffercount = b)
    (hWa : stW.addressbuffer = a)
    (h : Single.finish chW i b Write.steps stW = (Single.Outcome.next, stW1)) :
    writesOf (WriteAll.batch chA inputbuffer stA).2.log
        = writesOf stA.log ++ [WriteAll.frame a [b]]
    ∧ writesOf stW1.log
        = writesOf stW.log ++
          [List.replicate 20 0, [0x02], [0x4C], [0x02], [0x12], [0xA0], [a], [b], [0x03],
           [0x00], [0x0F]]
    ∧ WriteAll.frame a [b]
        = [List.replicate 20 0, [0x02], [0x4C], [0x02], [0x12], [0xA0], [a], [b], [0x03],
           [0x00], [0x0F]].flatten
    ∧ (WriteAll.frame a [b]).length = 30 := by
  obtain ⟨e1, _⟩ := Single.finish_next chW i b Write.steps stW stW1 h
  have f3 := (WriteAll.batch_facts chA inputbuffer stA).2.2.1
  rw [WriteAll.fill_frame inputbuffer stA.writebuffer stA.writeaddress stA.inputbuffercount hs,
    ha, Nat.mod_eq_of_lt ha256, hj] at f3
  have hwin : WriteAll.window inputbuffer stA.inputbuffercount 1 = [b] := by
    rw [← hb]
    rfl
  rw [hwin] at f3
  rw [hWa] at e1
  exact ⟨f3, e1, rfl, rfl⟩

/-- C20, for the line `"\n"` in the batched engine (cursor 0, data byte 10) and the
first pass of the write engine with the data byte 10, both against the idealised
device. -/
theorem one_byte_batch_is_write_pass_witness :
    writesOf (WriteAll.batch Ideal.chan (WriteAll.loadInput [10])
        (WriteAll.initialState (Ideal.start (fun _ => 0)))).2.log
      = writesOf (WriteAll.initialState (Ideal.start (fun _ => 0))).log
          ++ [WriteAll.frame 0 [10]]
    ∧ writesOf (Single.finish Ideal.chan 0 10 Write.steps
        (Write.initialState (Ideal.start (fun _ => 0)) (fun _ => 0))).2.log
      = writesOf (Write.initialState (Ideal.start (fun _ => 0)) (fun _ => 0)).log ++
          [List.replicate 20 0, [0x02], [0x4C], [0x02], [0x12], [0xA0], [0], [10], [0x03],
           [0x00], [0x0F]]
    ∧ WriteAll.frame 0 [10]
        = [List.replicate 20 0, [0x02], [0x4C], [0x02], [0x12], [0xA0], [0], [10], [0x03],
           [0x00], [0x0F]].flatten
    ∧ (WriteAll.frame 0 [10]).length = 30 :=
  one_byte_batch_is_write_pass Ideal.chan Ideal.chan (WriteAll.loadInput [10])
    (WriteAll.initialState (Ideal.start (fun _ => 0))) 0 0 10
    (Write.initialState (Ideal.start (fun _ => 0)) (fun _ => 0)) _
    WriteAll.initial_static rfl (by decide) (by decide) (by decide) rfl
    (Prod.ext (by decide) rfl)

namespace Single

/-- The read-one-byte step whose read delivers a byte ends the loop when that byte
is 10, after the writes of its teardown, and goes on otherwise. -/
theorem runStep_raw {σ : Type} (ch : Chan σ) (i data : Nat) (s : Step)
    (st : State σ) (bs : List Nat) (hc : s.check = Check.raw) (hl : s.rlen = 1)
    (hw : (ch.write st.dev (command s st data)).1 = true)
    (he : echo ch s st data = some bs) (hbs : bs ≠ []) :
    runStep ch i data s st
      = if byteAt bs 0 = 10 then (Outcome.brk, teardown ch s.cdown (afterRead ch i data s st))
        else (Outcome.next, afterRead ch i data s st) := by
  have hg : guardFires s.guard (readResult s.rlen (echo ch s st data)) = false := by
    rw [he, hl, readResult_one bs hbs]
    exact guardFires_one _
  rw [runStep_checked ch i data s st hw hg, hc]
  simp only
  rw [afterRead_BPbuffer, he, hl, readInto_one _ bs hbs]
  by_cases h : byteAt bs 0 = 10
  · rw [if_pos h.symm, if_pos h]
  · rw [if_neg (fun h1 => h h1.symm), if_neg h]

theorem afterRead_outputbuffer {σ : Type} (ch : Chan σ) (i data : Nat) (s : Step)
    (st : State σ) (hc : s.check = Check.raw) :
    (afterRead ch i data s st).outputbuffer
      = setAt st.outputbuffer i (readInto st.BPbuffer s.rlen (echo ch s st data) 0) := by
  unfold afterRead keep bump get put echo
  rw [hc]
  cases s.arg <;> rfl

theorem teardown_outputbuffer {σ : Type} (ch : Chan σ) (cs : List (List Nat)) :
    ∀ st : State σ, (teardown ch cs st).outputbuffer = st.outputbuffer
      ∧ (teardown ch cs st).address = st.address := by
  induction cs with
  | nil => intro st; exact ⟨rfl, rfl⟩
  | cons c cs ih =>
    intro st
    simp only [teardown]
    rw [(ih _).1, (ih _).2]
    exact ⟨rfl, rfl⟩

/-- A loop body stops at the first step that ends with `break`. -/
theorem finish_brk_at {σ : Type} (ch : Chan σ) (i data : Nat) (pre post : List Step)
    (s : Step) (st0 st st1 : State σ)
    (hpre : runSteps ch i data pre st0 = (Outcome.next, st))
    (hs : runStep ch i data s st = (Outcome.brk, st1)) :
    finish ch i data (pre ++ s :: post) st0 = (Outcome.brk, st1) := by
  unfold finish
  rw [runSteps_append ch i data pre (s :: post) st0 st hpre]
  simp only [runSteps, hs]

end Single

namespace Read

open Single

/-- The run of the read engine ends, with exit status 0, where a step of the loop
body ends with `break`. -/
theorem read_resume_brk_at {σ : Type} (ch : Chan σ) (left i : Nat)
    (pre post : List Step) (s : Step) (st0 st st1 : State σ)
    (hpre : runSteps ch i 0 pre st0 = (Outcome.next, st))
    (hs : runStep ch i 0 s st = (Outcome.brk, st1)) :
    resume ch left i (pre ++ s :: post) st0 = (0, st1) := by
  unfold resume
  rw [finish_brk_at ch i _ pre post s st0 st st1 hpre hs]

end Read

/-- C14 fails against the idealised device whose store starts with the byte 10: after
the read-one-byte command 0x04 the read engine writes 0x00 and 0x0F and ends its
loop; it writes no stop bit 0x03. -/
theorem end_of_data_without_stop :
    (Read.main Ideal.chan (Ideal.start (fun _ => 10)) (fun _ => 0) (fun _ => 0)).1 = 0
    ∧ writesOf (Read.main Ideal.chan (Ideal.start (fun _ => 10)) (fun _ => 0)
        (fun _ => 0)).2.log
      = [List.replicate 20 0, [0x02], [0x4C], [0x02], [0x11], [0xA0], [0], [0x02], [0x10],
         [0xA1], [0x04], [0x00], [0x0F]]
    ∧ [0x03] ∉ writesOf (Read.main Ideal.chan (Ideal.start (fun _ => 10)) (fun _ => 0)
        (fun _ => 0)).2.log := by
  decide

/-- C14, amended: when the byte returned by the read-one-byte command equals 10, the
read engine, having stored that byte in `outputbuffer[i]`, writes disable-I2C (0x00),
then disable-bitbang (0x0F), in that order and nothing else, and ends its loop; the
run ends with exit status 0. -/
theorem end_of_data_teardown {σ : Type} (ch : Chan σ) (left i : Nat)
    (st0 st : Single.State σ) (bs : List Nat)
    (hpre : Single.runSteps ch i 0
        [Read.stepBBEN, Read.stepI2CEN, Read.stepPPEN, Read.stepSTART, Read.stepBULK1,
         Read.stepDEVWRITEADDR, Read.stepADDRESS, Read.stepRESTART, Read.stepBULK2,
         Read.stepDEVREADADDR] st0 = (Single.Outcome.next, st))
    (hw : (ch.write st.dev [0x04]).1 = true)
    (he : (ch.read (ch.write st.dev [0x04]).2 1).1 = some bs) (hbs : bs ≠ [])
    (h10 : byteAt bs 0 = 10) :
    (Read.resume ch left i Read.steps st0).1 = 0
    ∧ (Read.resume ch left i Read.steps st0).2.log
        = st.log ++ [Event.write [0x04], Event.read 1 (some bs), Event.write [0x00],
            Event.write [0x0F]]
    ∧ (Read.resume ch left i Read.steps st0).2.outputbuffer = setAt st.outputbuffer i 10 := by
  have hstep := Single.runStep_raw ch i 0 Read.stepREAD st bs rfl rfl hw he hbs
  rw [if_pos h10] at hstep
  have hres := Read.read_resume_brk_at ch left i _
    [Read.stepNACK, Read.stepSTOP, Read.stepI2CDIS, Read.stepBBDIS] Read.stepREAD st0 st _
    hpre hstep
  have hsteps : Read.steps =
      [Read.stepBBEN, Read.stepI2CEN, Read.stepPPEN, Read.stepSTART, Read.stepBULK1,
         Read.stepDEVWRITEADDR, Read.stepADDRESS, Read.stepRESTART, Read.stepBULK2,
         Read.stepDEVREADADDR] ++ Read.stepREAD ::
        [Read.stepNACK, Read.stepSTOP, Read.stepI2CDIS, Read.stepBBDIS] := rfl
  rw [hsteps, hres]
  refine ⟨rfl, ?_, ?_⟩
  · simp only
    rw [Single.rejected_log]
    have he2 : Single.echo ch Read.stepREAD st 0 = some bs := he
    rw [he2, List.append_assoc]
    rfl
  · simp only
    rw [(Single.teardown_outputbuffer ch _ _).1, Single.afterRead_outputbuffer ch i 0 _ st rfl]
    have he2 : Single.echo ch Read.stepREAD st 0 = some bs := he
    rw [he2]
    have : Read.stepREAD.rlen = 1 := rfl
    rw [this, Single.readInto_one _ bs hbs, h10]

/-- C14 amended, at the first pass against the idealised device whose store starts
with the byte 10. -/
theorem end_of_data_teardown_witness :
    (Read.resume Ideal.chan 1023 0 Read.steps
        (Read.initialState (Ideal.start (fun _ => 10)) (fun _ => 0) (fun _ => 0))).1 = 0
    ∧ (Read.resume Ideal.chan 1023 0 Read.steps
        (Read.initialState (Ideal.start (fun _ => 10)) (fun _ => 0) (fun _ => 0))).2.outputbuffer
      = setAt (Single.runSteps Ideal.chan 0 0
          [Read.stepBBEN, Read.stepI2CEN, Read.stepPPEN, Read.stepSTART, Read.stepBULK1,
           Read.stepDEVWRITEADDR, Read.stepADDRESS, Read.stepRESTART, Read.stepBULK2,
           Read.stepDEVREADADDR]
          (Read.initialState (Ideal.start (fun _ => 10)) (fun _ => 0)
            (fun _ => 0))).2.outputbuffer 0 10 :=
  ⟨(end_of_data_teardown Ideal.chan 1023 0
      (Read.initialState (Ideal.start (fun _ => 10)) (fun _ => 0) (fun _ => 0)) _ [10]
      (Prod.ext (by decide) rfl) (by decide) (by decide) (by decide) (by decide)).1,
   (end_of_data_teardown Ideal.chan 1023 0
      (Read.initialState (Ideal.start (fun _ => 10)) (fun _ => 0) (fun _ => 0)) _ [10]
      (Prod.ext (by decide) rfl) (by decide) (by decide) (by decide) (by decide)).2.2⟩

namespace Write

open Single

/-- The steps of the write engine from the start bit to the stop bit check a control
echo or an acknowledgement of one byte and end with `exit (4)`; the start bit and the
stop bit tear down with disable-I2C and disable-bitbang, the other steps with stop,
disable-I2C and disable-bitbang. -/
theorem transaction_steps : ∀ s ∈ transaction,
    (s.check = Check.ctrl ∨ s.check = Check.ack) ∧ s.rlen = 1 ∧ s.cexit = 4
    ∧ s.cdown = (if s.arg = Arg.const [0x02] ∨ s.arg = Arg.const [0x03]
        then [[0x00], [0x0F]] else [[0x03], [0x00], [0x0F]]) := by
  decide

end Write

namespace Read

open Single

/-- The steps of the read engine from the start bit to the stop bit that check their
echo check a control echo or an acknowledgement of one byte and end with `exit (4)`;
the start bits, the NACK and the stop bit tear down with disable-I2C and
disable-bitbang, the other steps with stop, disable-I2C and disable-bitbang. -/
theorem read_transaction_steps : ∀ s ∈ transaction, s.check ≠ Check.raw →
    (s.check = Check.ctrl ∨ s.check = Check.ack) ∧ s.rlen = 1 ∧ s.cexit = 4
    ∧ s.cdown = (if s.arg = Arg.const [0x02] ∨ s.arg = Arg.const [0x03]
          ∨ s.arg = Arg.const [0x07]
        then [[0x00], [0x0F]] else [[0x03], [0x00], [0x0F]]) := by
  decide

end Read

namespace Single

/-- A step that checks a control echo or an acknowledgement of one byte and gets an
echo that fails the check ends with the exit code and the teardown of the check. -/
theorem runStep_rejected {σ : Type} (ch : Chan σ) (i data : Nat) (s : Step)
    (st : State σ) (bs : List Nat) (hl : s.rlen = 1)
    (hw : (ch.write st.dev (command s st data)).1 = true)
    (he : echo ch s st data = some bs) (hbs : bs ≠ [])
    (hbad : (s.check = Check.ctrl ∧ byteAt bs 0 ≠ 1) ∨ (s.check = Check.ack ∧ byteAt bs 0 = 1)) :
    runStep ch i data s st
      = (Outcome.exit s.cexit, teardown ch s.cdown (afterRead ch i data s st)) := by
  rcases hbad with ⟨hc, hb⟩ | ⟨hc, hb⟩
  · exact runStep_ctrl_rejected ch i data s st bs hc hl hw he hbs hb
  · rw [runStep_ack ch i data s st bs hc hl hw he hbs, if_pos hb]

end Single

/-- C15 fails in the write engine at the start bit: with the echo 0 for the start bit
the run ends with exit status 4 after the two writes 0x00 and 0x0F; no stop bit 0x03
is written. -/
theorem start_bit_teardown_two_writes :
    (Write.main Scripted.chan Scripted.startRefused (fun _ => 0) [65]).1 = 4
    ∧ writesOf (Write.main Scripted.chan Scripted.startRefused (fun _ => 0) [65]).2.log
      = [List.replicate 20 0, [0x02], [0x4C], [0x02], [0x00], [0x0F]]
    ∧ (Write.main Scripted.chan Scripted.startRefused (fun _ => 0) [65]).2.log[7]?
      = some (Event.read 1 (some [0])) := by
  decide

/-- C15, amended: in the single-byte write and read engines, for every step from the
start bit to the stop bit that checks its echo, an echo that fails the check is
followed by the teardown writes of the step and by nothing else, and the run ends
with exit status 4.  The teardown writes are stop (0x03), disable-I2C (0x00),
disable-bitbang (0x0F), in that order, for the bulk-write command, the device
address, the address byte and the data byte; they are disable-I2C and
disable-bitbang alone for the start bit, the repeated start bit, the NACK and the
stop bit. -/
theorem transaction_teardown {σ : Type} (ch : Chan σ) :
    (∀ (pre post : List Single.Step) (s : Single.Step), Write.steps = pre ++ s :: post →
      s ∈ Write.transaction →
      ∀ (inputbuffer : List Nat) (left i : Nat) (st0 st : Single.State σ) (bs : List Nat),
        Single.runSteps ch i (byteAt inputbuffer i) pre st0 = (Single.Outcome.next, st) →
        (ch.write st.dev (Single.command s st (byteAt inputbuffer i))).1 = true →
        Single.echo ch s st (byteAt inputbuffer i) = some bs → bs ≠ [] →
        ((s.check = Single.Check.ctrl ∧ byteAt bs 0 ≠ 1)
          ∨ (s.check = Single.Check.ack ∧ byteAt bs 0 = 1)) →
        (Write.resume ch inputbuffer left i Write.steps st0).1 = 4
        ∧ (Write.resume ch inputbuffer left i Write.steps st0).2.log
            = st.log ++ [Event.write (Single.command s st (byteAt inputbuffer i)),
                         Event.read 1 (some bs)]
              ++ (if s.arg = Single.Arg.const [0x02] ∨ s.arg = Single.Arg.const [0x03]
                  then [Event.write [0x00], Event.write [0x0F]]
                  else [Event.write [0x03], Event.write [0x00], Event.write [0x0F]]))
    ∧ (∀ (pre post : List Single.Step) (s : Single.Step), Read.steps = pre ++ s :: post →
      s ∈ Read.transaction →
      ∀ (left i : Nat) (st0 st : Single.State σ) (bs : List Nat),
        Single.runSteps ch i 0 pre st0 = (Single.Outcome.next, st) →
        (ch.write st.dev (Single.command s st 0)).1 = true →
        Single.echo ch s st 0 = some bs → bs ≠ [] →
        ((s.check = Single.Check.ctrl ∧ byteAt bs 0 ≠ 1)
          ∨ (s.check = Single.Check.ack ∧ byteAt bs 0 = 1)) →
        (Read.resume ch left i Read.steps st0).1 = 4
        ∧ (Read.resume ch left i Read.steps st0).2.log
            = st.log ++ [Event.write (Single.command s st 0), Event.read 1 (some bs)]
              ++ (if s.arg = Single.Arg.const [0x02] ∨ s.arg = Single.Arg.const [0x03]
                    ∨ s.arg = Single.Arg.const [0x07]
                  then [Event.write [0x00], Event.write [0x0F]]
                  else [Event.write [0x03], Event.write [0x00], Event.write [0x0F]])) := by
  refine ⟨?_, ?_⟩
  · intro pre post s hsteps hmem inputbuffer left i st0 st bs hpre hw he hbs hbad
    obtain ⟨_, hl, hx, hd⟩ := Write.transaction_steps s hmem
    have hstep := Single.runStep_rejected ch i (byteAt inputbuffer i) s st bs hl hw he hbs hbad
    rw [hsteps, Write.write_resume_exit_at ch inputbuffer left i pre post s st0 st _ _ hpre
      hstep]
    refine ⟨hx, ?_⟩
    simp only
    rw [Single.rejected_log, he, hl, hd]
    split_ifs <;> rfl
  · intro pre post s hsteps hmem left i st0 st bs hpre hw he hbs hbad
    have hraw : s.check ≠ Single.Check.raw := by
      rcases hbad with ⟨hc, _⟩ | ⟨hc, _⟩ <;> rw [hc] <;> decide
    obtain ⟨_, hl, hx, hd⟩ := Read.read_transaction_steps s hmem hraw
    have hstep := Single.runStep_rejected ch i 0 s st bs hl hw he hbs hbad
    rw [hsteps, Read.read_resume_exit_at ch left i pre post s st0 st _ _ hpre hstep]
    refine ⟨hx, ?_⟩
    simp only
    rw [Single.rejected_log, he, hl, hd]
    split_ifs <;> rfl

/-- C15 amended, with scripted devices: the write engine on the echo 0 for the start
bit, the read engine on the echo 1 for the device write address. -/
theorem transaction_teardown_witness :
    (Write.resume Scripted.chan [65] 0 0 Write.steps
        (Write.initialState Scripted.startRefused (fun _ => 0))).1 = 4
    ∧ (Read.resume Scripted.chan 1023 0 Read.steps
        (Read.initialState (Scripted.writePass litBBIO1 1) (fun _ => 0) (fun _ => 0))).1 = 4 :=
  ⟨((transaction_teardown Scripted.chan).1
      [Write.stepBBEN, Write.stepI2CEN, Write.stepPPEN] _ Write.stepSTART rfl (by decide)
      [65] 0 0 (Write.initialState Scripted.startRefused (fun _ => 0))
      (Single.runSteps Scripted.chan 0 (byteAt [65] 0)
        [Write.stepBBEN, Write.stepI2CEN, Write.stepPPEN]
        (Write.initialState Scripted.startRefused (fun _ => 0))).2
      [0] (Prod.ext (by decide) rfl) (by decide) (by decide) (by decide)
      (Or.inl ⟨rfl, by decide⟩)).1,
   ((transaction_teardown Scripted.chan).2
      [Read.stepBBEN, Read.stepI2CEN, Read.stepPPEN, Read.stepSTART, Read.stepBULK1] _
      Read.stepDEVWRITEADDR rfl (by decide) 1023 0
      (Read.initialState (Scripted.writePass litBBIO1 1) (fun _ => 0) (fun _ => 0))
      (Single.runSteps Scripted.chan 0 0
        [Read.stepBBEN, Read.stepI2CEN, Read.stepPPEN, Read.stepSTART, Read.stepBULK1]
        (Read.initialState (Scripted.writePass litBBIO1 1) (fun _ => 0) (fun _ => 0))).2
      [1] (Prod.ext (by decide) rfl) (by decide) (by decide) (by decide)
      (Or.inr ⟨rfl, by decide⟩)).1⟩

/-- C17: in all three engines the bulk-write header byte is `0x10 | (N - 1)` with `N`
the number of bytes of the I2C burst that follows it, the device-address byte
included: 0x11 in the read engine in front of its burst of 2 bytes (device write
address, address), 0x10 in front of its burst of 1 byte (device read address), 0x12
in the write engine in front of its burst of 3 bytes (device address, address, data
byte), and `16 + 1 + j = 0x10 | (j + 1)` in the batched engine in front of its burst
of `j + 2` bytes (device address, address, `j` data bytes), for every `j` in 1..8. -/
theorem bulk_write_header (j : Nat) (hj1 : 1 ≤ j) (hj8 : j ≤ 8) (a : Nat) (d : List Nat)
    (hd : d.length = j) (inputbuffer : List Nat) (wb : Nat → Nat) (cnt : Nat) :
    (Single.burstAfter Read.BULKWRITE1 Read.steps = [Read.stepDEVWRITEADDR, Read.stepADDRESS]
      ∧ Read.BULKWRITE1 = [0x11] ∧ 0x11 = 0x10 ||| (2 - 1))
    ∧ (Single.burstAfter Read.BULKWRITE2 Read.steps = [Read.stepDEVREADADDR]
      ∧ Read.BULKWRITE2 = [0x10] ∧ 0x10 = 0x10 ||| (1 - 1))
    ∧ (Single.burstAfter Write.BULKWRITE Write.steps
        = [Write.stepDEVADDR, Write.stepADDRESS, Write.stepDATA]
      ∧ Write.BULKWRITE = [0x12] ∧ 0x12 = 0x10 ||| (3 - 1))
    ∧ 16 + 1 + j = 0x10 ||| (j + 1)
    ∧ WriteAll.frame a d
        = List.replicate 20 0 ++ [0x02, 0x4C, 0x02]
          ++ [0x10 ||| (([0xA0, a] ++ d).length - 1)] ++ ([0xA0, a] ++ d) ++ [0x03, 0x00, 0x0F]
    ∧ ([0xA0, a] ++ d).length = j + 2
    ∧ (WriteAll.fill inputbuffer wb a cnt).2.1 23
        = 0x10 ||| (WriteAll.batchLen inputbuffer + 2 - 1) := by
  have key : ∀ n, 1 ≤ n → n ≤ 8 → 16 + 1 + n = 0x10 ||| (n + 1) := by
    intro n h1 h8
    interval_cases n <;> rfl
  have hb := WriteAll.batchLen_bounds inputbuffer
  refine ⟨by decide, by decide, by decide, key j hj1 hj8, ?_, by simp [hd], ?_⟩
  · have : ([0xA0, a] ++ d).length - 1 = j + 1 := by simp [hd]
    rw [this, ← key j hj1 hj8, ← hd]
    simp [WriteAll.frame]
  · rw [WriteAll.fill_buffer, if_neg (by omega), if_neg (by omega), if_neg (by omega),
      if_neg (by omega), if_pos rfl, Nat.mod_eq_of_lt (by omega),
      key (WriteAll.batchLen inputbuffer) hb.1 hb.2]
    rfl

/-- C17, for a batch of the two data bytes 65 and 10 at address 0. -/
theorem bulk_write_header_witness :
    16 + 1 + 2 = 0x10 ||| (2 + 1)
    ∧ WriteAll.frame 0 [65, 10]
        = List.replicate 20 0 ++ [0x02, 0x4C, 0x02]
          ++ [0x10 ||| (([0xA0, 0] ++ [65, 10]).length - 1)] ++ ([0xA0, 0] ++ [65, 10])
          ++ [0x03, 0x00, 0x0F] :=
  ⟨(bulk_write_header 2 (by decide) (by decide) 0 [65, 10] rfl (WriteAll.loadInput [65, 10])
      WriteAll.initialWritebuffer 0).2.2.2.1,
   (bulk_write_header 2 (by decide) (by decide) 0 [65, 10] rfl (WriteAll.loadInput [65, 10])
      WriteAll.initialWritebuffer 0).2.2.2.2.1⟩

namespace WriteAll

/-- C18 fails at the cursor 12 and the batch length 8: the addresses 12 .. 19 lie in
the pages 0 and 1.  From a state with the cursor at 12 the engine sends such a batch:
address byte 12 and eight data bytes. -/
theorem batch_at_twelve_crosses_page :
    12 ≤ 255 ∧ 1 ≤ 8 ∧ 8 ≤ 8
    ∧ page 12 = 0 ∧ page (12 + 8 - 1) = 1
    ∧ ¬ (∀ t, t < 8 → page (12 + t) = page 12)
    ∧ writesOf (batch Ideal.chan (loadInput nineBytes)
        (stateAt (Ideal.start (fun _ => 0)) 12)).2.log
      = [frame 12 [65, 66, 67, 68, 69, 70, 71, 72]] := by
  decide

/-- C18, amended: for every address cursor `a` in 0..255 and every batch length `j`
in 1..8 such that `a` is a multiple of 8, or more generally such that the offset of
`a` within its page leaves room for `j` bytes (`a mod 16 + j ≤ 16`), a batch of `j`
bytes starting at `a` is page-safe: the addresses `a .. a + j - 1` all lie in the
page of `a`. -/
theorem batch_page_safe (a j : Nat) (ha : a ≤ 255) (hj1 : 1 ≤ j) (hj8 : j ≤ 8)
    (hfit : a % 8 = 0 ∨ a % 16 + j ≤ 16) :
    (∀ t, t < j → page (a + t) = page a) ∧ page a = page (a + j - 1) := by
  unfold page
  refine ⟨?_, ?_⟩
  · intro t ht
    omega
  · omega

/-- C18 amended, at the cursor 8 and the batch length 8. -/
theorem batch_page_safe_witness :
    (∀ t, t < 8 → page (8 + t) = page 8) ∧ page 8 = page (8 + 8 - 1) :=
  batch_page_safe 8 8 (by decide) (by decide) (by decide) (Or.inl (by decide))

end WriteAll

namespace WriteAll

/-- A data-copy loop that ends before its last pass ended on a newline. -/
theorem copyLoop_short (inputbuffer : List Nat) (left : Nat) :
    ∀ (j : Nat) (wb : Nat → Nat) (cnt : Nat),
      (copyLoop inputbuffer left j wb cnt).1 < j + left →
      byteAt inputbuffer ((copyLoop inputbuffer left j wb cnt).1 - 1) = 10 := by
  induction left with
  | zero =>
    intro j wb cnt h
    simp only [copyLoop] at h
    omega
  | succ n ih =>
    intro j wb cnt h
    by_cases h0 : byteAt inputbuffer j = 10
    · simp only [copyLoop, h0, if_true] at h ⊢
      simpa using h0
    · simp only [copyLoop, h0, if_false] at h ⊢
      exact ih (j + 1) _ _ (by omega)

theorem batchLen_short (inputbuffer : List Nat) (h : batchLen inputbuffer < 8) :
    byteAt inputbuffer (batchLen inputbuffer - 1) = 10 := by
  unfold batchLen at h ⊢
  exact copyLoop_short inputbuffer 8 0 _ _ (by omega)

theorem numloops_short (late : Bool) (len : Nat) (h : len ≤ 8) : numloops late len = 1 := by
  unfold numloops postIncAssign
  split_ifs <;> omega

/-- A line of at most 255 bytes with a newline at most as its last byte is stored
whole by `fgets`. -/
theorem fgets_line (stdin : List Nat) (hlen : stdin.length ≤ 255)
    (hshape : ∀ t, t + 1 < stdin.length → byteAt stdin t ≠ 10) :
    fgets BUFFERSIZE stdin = stdin := by
  by_cases hlast : byteAt stdin (stdin.length - 1) = 10
  · have hpos : 0 < stdin.length := by
      by_contra hn
      rw [byteAt_beyond stdin _ (by omega)] at hlast
      cases hlast
    rw [fgets_newline BUFFERSIZE stdin (stdin.length - 1) (by omega) hlast
      (fun t ht => hshape t (by omega)) (by simp only [BUFFERSIZE]; omega)]
    rw [show stdin.length - 1 + 1 = stdin.length by omega, List.take_length]
  · apply fgets_whole BUFFERSIZE stdin _ (by simp only [BUFFERSIZE]; omega)
    intro b hb
    obtain ⟨t, ht, rfl⟩ := List.getElem_of_mem hb
    have e : byteAt stdin t = stdin[t] := by
      rw [byteAt_of_lt stdin t ht]
      rfl
    rw [← e]
    by_cases h1 : t + 1 < stdin.length
    · exact hshape t h1
    · have : t = stdin.length - 1 := by omega
      rw [this]
      exact hlast

/-- C16: for every input line of at most 255 bytes in which the byte 10 occurs, if at
all, only as the final byte, every batch the batched engine sends, with address byte
`a` and `j` data bytes, has its data addresses `a .. a + j - 1` inside one 16-byte
page: `floor (a / 16) = floor ((a + j - 1) / 16)`. -/
theorem batches_page_safe {σ : Type} (late : Bool) (ch : Chan σ) (dev : σ) (stdin : List Nat)
    (hlen : stdin.length ≤ 255)
    (hshape : ∀ t, t + 1 < stdin.length → byteAt stdin t ≠ 10) :
    ∀ i, i < (writesOf (main late ch dev stdin).2.log).length →
      ∃ a d, (writesOf (main late ch dev stdin).2.log)[i]? = some (frame a d)
        ∧ a < 256 ∧ 1 ≤ d.length ∧ d.length ≤ 8
        ∧ a / 16 = (a + d.length - 1) / 16
        ∧ ∀ t, t < d.length → page (a + t) = page a := by
  have hf := fgets_line stdin hlen hshape
  have hbyte : ∀ t, byteAt (loadInput stdin) t = byteAt stdin t := by
    intro t
    rw [loadInput_byteAt, hf]
  have hb := batchLen_bounds (loadInput stdin)
  obtain ⟨m, h1, _, h3, _⟩ := main_run late ch dev stdin
  have hn32 : numloops late (strlen (loadInput stdin)) ≤ 32 := by
    have := numloops_le late (strlen (loadInput stdin))
    have := loadInput_strlen stdin
    omega
  have hm : batchLen (loadInput stdin) < 8 → m ≤ 1 := by
    intro hL
    have h10 := batchLen_short (loadInput stdin) hL
    rw [hbyte] at h10
    have hin : batchLen (loadInput stdin) - 1 < stdin.length := by
      by_contra hn
      rw [byteAt_beyond stdin _ (by omega)] at h10
      cases h10
    have hend : ¬ (batchLen (loadInput stdin) - 1 + 1 < stdin.length) :=
      fun hlt => hshape _ hlt h10
    have hs : strlen (loadInput stdin) ≤ stdin.length := by
      unfold loadInput
      rw [hf]
      exact strlen_append_zeros _ _
    have := numloops_short late (strlen (loadInput stdin)) (by omega)
    omega
  intro i hi
  rw [h3] at hi ⊢
  simp only [List.length_map, List.length_range] at hi
  refine ⟨(batchLen (loadInput stdin) * i) % 256,
    window (loadInput stdin) (batchLen (loadInput stdin) * i) (batchLen (loadInput stdin)),
    ?_, Nat.mod_lt _ (by decide), ?_, ?_, ?_, ?_⟩
  · rw [List.getElem?_map, List.getElem?_range hi]
    rfl
  · rw [window_length]; exact hb.1
  · rw [window_length]; exact hb.2
  · rw [window_length]
    by_cases hL : batchLen (loadInput stdin) < 8
    · have : i = 0 := by have := hm hL; omega
      subst this
      simp only [Nat.mul_zero, Nat.zero_mod, Nat.zero_add]
      omega
    · have h8 : batchLen (loadInput stdin) = 8 := by omega
      rw [h8]
      omega
  · rw [window_length]
    intro t ht
    unfold page
    by_cases hL : batchLen (loadInput stdin) < 8
    · have : i = 0 := by have := hm hL; omega
      subst this
      simp only [Nat.mul_zero, Nat.zero_mod, Nat.zero_add]
      omega
    · have h8 : batchLen (loadInput stdin) = 8 := by omega
      rw [h8] at ht ⊢
      omega

/-- C16, at the line `"ABCDEFGHI"` against the idealised device, for the first batch
of the run. -/
theorem batches_page_safe_witness :
    (nineBytes.length ≤ 255
      ∧ 0 < (writesOf (main true Ideal.chan (Ideal.start (fun _ => 0)) nineBytes).2.log).length)
    ∧ ∃ a d, (writesOf (main true Ideal.chan (Ideal.start (fun _ => 0)) nineBytes).2.log)[0]?
          = some (frame a d)
        ∧ a < 256 ∧ 1 ≤ d.length ∧ d.length ≤ 8
        ∧ a / 16 = (a + d.length - 1) / 16
        ∧ ∀ t, t < d.length → page (a + t) = page a :=
  ⟨⟨by decide, by decide⟩,
   batches_page_safe true Ideal.chan (Ideal.start (fun _ => 0)) nineBytes (by decide)
    (by
      intro t ht
      have h9 : t + 1 < 9 := ht
      have h8 : t < 8 := by omega
      interval_cases t <;> decide) 0 (by decide)⟩

end WriteAll

namespace WriteAll

theorem window_byteAt (inputbuffer : List Nat) (cnt j t : Nat) (ht : t < j) :
    byteAt (window inputbuffer cnt j) t = byteAt inputbuffer (cnt + t) := by
  rw [byteAt_of_lt _ t (by rw [window_length]; exact ht)]
  simp [window]

/-- C19: in the batched engine the address cursor `writeaddress` equals the number
of input bytes consumed `inputbuffercount` at the start of every batch: both are 0
before the first batch, and a batch that lets the run go on moves both on by the
batch length.  Hence, for every input, the batch number `i` of a run has an address
byte `a` that is the offset in the input buffer of its first data byte, and its data
byte at position `t` is the byte of the input buffer at offset `a + t`. -/
theorem cursor_is_input_offset {σ : Type} (ch : Chan σ) (dev : σ) :
    ((initialState dev).writeaddress = 0 ∧ (initialState dev).inputbuffercount = 0)
    ∧ (∀ (inputbuffer : List Nat) (st : State σ),
        st.writeaddress = st.inputbuffercount → (batch ch inputbuffer st).1 = none →
        (batch ch inputbuffer st).2.writeaddress = (batch ch inputbuffer st).2.inputbuffercount)
    ∧ (∀ (late : Bool) (stdin : List Nat) (i : Nat),
        i < (writesOf (main late ch dev stdin).2.log).length →
        ∃ a d, (writesOf (main late ch dev stdin).2.log)[i]? = some (frame a d)
          ∧ a < 256 ∧ a = batchLen (loadInput stdin) * i
          ∧ d.length = batchLen (loadInput stdin)
          ∧ ∀ t, t < d.length → byteAt d t = byteAt (loadInput stdin) (a + t)) := by
  refine ⟨⟨rfl, rfl⟩, ?_, ?_⟩
  · intro inputbuffer st heq hnone
    obtain ⟨_, f2, _, f4, _⟩ := batch_facts ch inputbuffer st
    rw [f2, f4 hnone, heq]
  · intro late stdin i hi
    have hb := batchLen_bounds (loadInput stdin)
    obtain ⟨m, h1, _, h3, _⟩ := main_run late ch dev stdin
    have hn32 : numloops late (strlen (loadInput stdin)) ≤ 32 := by
      have := numloops_le late (strlen (loadInput stdin))
      have := loadInput_strlen stdin
      omega
    rw [h3] at hi ⊢
    simp only [List.length_map, List.length_range] at hi
    have hlt : batchLen (loadInput stdin) * i < 256 := by
      have h31 : i ≤ 31 := by omega
      calc batchLen (loadInput stdin) * i ≤ 8 * 31 := Nat.mul_le_mul hb.2 h31
        _ < 256 := by decide
    refine ⟨batchLen (loadInput stdin) * i,
      window (loadInput stdin) (batchLen (loadInput stdin) * i) (batchLen (loadInput stdin)),
      ?_, hlt, rfl, window_length _ _ _, ?_⟩
    · rw [List.getElem?_map, List.getElem?_range hi]
      simp only [Option.map_some']
      rw [Nat.mod_eq_of_lt hlt]
    · intro t ht
      rw [window_length] at ht
      exact window_byteAt _ _ _ t ht

/-- C19, at the first batch for the line `"AB\n"` against the idealised device. -/
theorem cursor_is_input_offset_witness :
    (batch Ideal.chan (loadInput [65, 66, 10])
        (initialState (Ideal.start (fun _ => 0)))).2.writeaddress
      = (batch Ideal.chan (loadInput [65, 66, 10])
        (initialState (Ideal.start (fun _ => 0)))).2.inputbuffercount :=
  (cursor_is_input_offset Ideal.chan (Ideal.start (fun _ => 0))).2.1 (loadInput [65, 66, 10])
    (initialState (Ideal.start (fun _ => 0))) rfl (by decide)

end WriteAll

/-! ## The read engine against the idealised device -/

namespace Ideal

theorem feed_zeros (n : Nat) : ∀ (z b : Nat) (P : Phase) (p : Nat) (s : Nat → Nat) (o : List Nat),
    z + n < 20 →
    (List.replicate n 0).foldl feed ⟨Mode.user, z, b, P, p, s, o⟩
      = ⟨Mode.user, z + n, b, P, p, s, o⟩ := by
  induction n with
  | zero => intro z b P p s o _; rfl
  | succ n ih =>
    intro z b P p s o h
    rw [List.replicate_succ, List.foldl_cons]
    have h1 : feed ⟨Mode.user, z, b, P, p, s, o⟩ 0 = ⟨Mode.user, z + 1, b, P, p, s, o⟩ := by
      simp only [feed, if_true]
      rw [if_neg (by omega)]
    rw [h1, ih (z + 1) b P p s o (by omega)]
    congr 1
    omega

/-- Twenty zero bytes take the idealised device from user mode to bitbang mode, with
the echo `"BBIO1"`. -/
theorem write_enable (b : Nat) (P : Phase) (p : Nat) (s : Nat → Nat) :
    chan.write ⟨Mode.user, 0, b, P, p, s, []⟩ (List.replicate 20 0)
      = (true, ⟨Mode.bitbang, 0, b, P, p, s, litBBIO1⟩) := by
  have h19 := feed_zeros 19 0 b P p s [] (by decide)
  show (true, (List.replicate (19 + 1) 0).foldl feed ⟨Mode.user, 0, b, P, p, s, []⟩) = _
  rw [List.replicate_succ', List.foldl_append, h19]
  rfl

end Ideal

namespace Read

open Single

/-- The step "enable bitbang" of the read engine against the idealised device. -/
theorem ideal_BBEN (P : Ideal.Phase) (p : Nat) (store B : Nat → Nat) (n a : Nat)
    (O : Nat → Nat) (L : List Event) (i : Nat) :
    ∃ B1 L1, runStep Ideal.chan i 0 stepBBEN ⟨⟨Ideal.Mode.user, 0, 0, P, p, store, []⟩, B, n, a, O, L⟩
      = (Outcome.next, ⟨⟨Ideal.Mode.bitbang, 0, 0, P, p, store, []⟩, B1, n, a, O, L1⟩) := by
  simp only [runStep, put, command, stepBBEN, BBEN, Ideal.write_enable]
  exact ⟨_, _, rfl⟩

/-- The step "enable I2C" of the read engine against the idealised device. -/
theorem ideal_I2CEN (P : Ideal.Phase) (p : Nat) (store B : Nat → Nat) (n a : Nat)
    (O : Nat → Nat) (L : List Event) (i : Nat) :
    ∃ B1 L1, runStep Ideal.chan i 0 stepI2CEN ⟨⟨Ideal.Mode.bitbang, 0, 0, P, p, store, []⟩, B, n, a, O, L⟩
      = (Outcome.next, ⟨⟨Ideal.Mode.i2c, 0, 0, P, p, store, []⟩, B1, n, a, O, L1⟩) := by
  exact ⟨_, _, rfl⟩

/-- The step "power and pullups" of the read engine against the idealised device. -/
theorem ideal_PPEN (P : Ideal.Phase) (p : Nat) (store B : Nat → Nat) (n a : Nat)
    (O : Nat → Nat) (L : List Event) (i : Nat) :
    ∃ B1 L1, runStep Ideal.chan i 0 stepPPEN ⟨⟨Ideal.Mode.i2c, 0, 0, P, p, store, []⟩, B, n, a, O, L⟩
      = (Outcome.next, ⟨⟨Ideal.Mode.i2c, 0, 0, P, p, store, []⟩, B1, n, a, O, L1⟩) := by
  exact ⟨_, _, rfl⟩

/-- The step "start bit" of the read engine against the idealised device. -/
theorem ideal_START (P : Ideal.Phase) (p : Nat) (store B : Nat → Nat) (n a : Nat)
    (O : Nat → Nat) (L : List Event) (i : Nat) :
    ∃ B1 L1, runStep Ideal.chan i 0 stepSTART ⟨⟨Ideal.Mode.i2c, 0, 0, P, p, store, []⟩, B, n, a, O, L⟩
      = (Outcome.next, ⟨⟨Ideal.Mode.i2c, 0, 0, Ideal.Phase.device, p, store, []⟩, B1, n, a, O, L1⟩) := by
  exact ⟨_, _, rfl⟩

/-- The step "first bulk write command" of the read engine against the idealised device. -/
theorem ideal_BULK1 (p : Nat) (store B : Nat → Nat) (n a : Nat)
    (O : Nat → Nat) (L : List Event) (i : Nat) :
    ∃ B1 L1, runStep Ideal.chan i 0 stepBULK1 ⟨⟨Ideal.Mode.i2c, 0, 0, Ideal.Phase.device, p, store, []⟩, B, n, a, O, L⟩
      = (Outcome.next, ⟨⟨Ideal.Mode.i2c, 0, 2, Ideal.Phase.device, p, store, []⟩, B1, n, a, O, L1⟩) := by
  exact ⟨_, _, rfl⟩

/-- The step "device write address" of the read engine against the idealised device. -/
theorem ideal_DEVWRITEADDR (p : Nat) (store B : Nat → Nat) (n a : Nat)
    (O : Nat → Nat) (L : List Event) (i : Nat) :
    ∃ B1 L1, runStep Ideal.chan i 0 stepDEVWRITEADDR ⟨⟨Ideal.Mode.i2c, 0, 2, Ideal.Phase.device, p, store, []⟩, B, n, a, O, L⟩
      = (Outcome.next, ⟨⟨Ideal.Mode.i2c, 0, 1, Ideal.Phase.word, p, store, []⟩, B1, n, a, O, L1⟩) := by
  exact ⟨_, _, rfl⟩

/-- The step "read address" of the read engine against the idealised device. -/
theorem ideal_ADDRESS (p : Nat) (store B : Nat → Nat) (n a : Nat)
    (O : Nat → Nat) (L : List Event) (i : Nat) :
    ∃ B1 L1, runStep Ideal.chan i 0 stepADDRESS ⟨⟨Ideal.Mode.i2c, 0, 1, Ideal.Phase.word, p, store, []⟩, B, n, a, O, L⟩
      = (Outcome.next, ⟨⟨Ideal.Mode.i2c, 0, 0, Ideal.Phase.data, (a % 256), store, []⟩, B1, (n + 1), ((n + 1) % 256), O, L1⟩) := by
  exact ⟨_, _, rfl⟩

/-- The step "second start bit" of the read engine against the idealised device. -/
theorem ideal_RESTART (P : Ideal.Phase) (p : Nat) (store B : Nat → Nat) (n a : Nat)
    (O : Nat → Nat) (L : List Event) (i : Nat) :
    ∃ B1 L1, runStep Ideal.chan i 0 stepRESTART ⟨⟨Ideal.Mode.i2c, 0, 0, P, p, store, []⟩, B, n, a, O, L⟩
      = (Outcome.next, ⟨⟨Ideal.Mode.i2c, 0, 0, Ideal.Phase.device, p, store, []⟩, B1, n, a, O, L1⟩) := by
  exact ⟨_, _, rfl⟩

/-- The step "second bulk write command" of the read engine against the idealised device. -/
theorem ideal_BULK2 (p : Nat) (store B : Nat → Nat) (n a : Nat)
    (O : Nat → Nat) (L : List Event) (i : Nat) :
    ∃ B1 L1, runStep Ideal.chan i 0 stepBULK2 ⟨⟨Ideal.Mode.i2c, 0, 0, Ideal.Phase.device, p, store, []⟩, B, n, a, O, L⟩
      = (Outcome.next, ⟨⟨Ideal.Mode.i2c, 0, 1, Ideal.Phase.device, p, store, []⟩, B1, n, a, O, L1⟩) := by
  exact ⟨_, _, rfl⟩

/-- The step "device read address" of the read engine against the idealised device. -/
theorem ideal_DEVREADADDR (p : Nat) (store B : Nat → Nat) (n a : Nat)
    (O : Nat → Nat) (L : List Event) (i : Nat) :
    ∃ B1 L1, runStep Ideal.chan i 0 stepDEVREADADDR ⟨⟨Ideal.Mode.i2c, 0, 1, Ideal.Phase.device, p, store, []⟩, B, n, a, O, L⟩
      = (Outcome.next, ⟨⟨Ideal.Mode.i2c, 0, 0, Ideal.Phase.reading, p, store, []⟩, B1, n, a, O, L1⟩) := by
  exact ⟨_, _, rfl⟩

/-- The step "NACK" of the read engine against the idealised device. -/
theorem ideal_NACK (P : Ideal.Phase) (p : Nat) (store B : Nat → Nat) (n a : Nat)
    (O : Nat → Nat) (L : List Event) (i : Nat) :
    ∃ B1 L1, runStep Ideal.chan i 0 stepNACK ⟨⟨Ideal.Mode.i2c, 0, 0, P, p, store, []⟩, B, n, a, O, L⟩
      = (Outcome.next, ⟨⟨Ideal.Mode.i2c, 0, 0, P, p, store, []⟩, B1, n, a, O, L1⟩) := by
  exact ⟨_, _, rfl⟩

/-- The step "stop bit" of the read engine against the idealised device. -/
theorem ideal_STOP (P : Ideal.Phase) (p : Nat) (store B : Nat → Nat) (n a : Nat)
    (O : Nat → Nat) (L : List Event) (i : Nat) :
    ∃ B1 L1, runStep Ideal.chan i 0 stepSTOP ⟨⟨Ideal.Mode.i2c, 0, 0, P, p, store, []⟩, B, n, a, O, L⟩
      = (Outcome.next, ⟨⟨Ideal.Mode.i2c, 0, 0, Ideal.Phase.idle, p, store, []⟩, B1, n, a, O, L1⟩) := by
  exact ⟨_, _, rfl⟩

/-- The step "disable I2C" of the read engine against the idealised device. -/
theorem ideal_I2CDIS (P : Ideal.Phase) (p : Nat) (store B : Nat → Nat) (n a : Nat)
    (O : Nat → Nat) (L : List Event) (i : Nat) :
    ∃ B1 L1, runStep Ideal.chan i 0 stepI2CDIS ⟨⟨Ideal.Mode.i2c, 0, 0, P, p, store, []⟩, B, n, a, O, L⟩
      = (Outcome.next, ⟨⟨Ideal.Mode.bitbang, 0, 0, P, p, store, []⟩, B1, n, a, O, L1⟩) := by
  exact ⟨_, _, rfl⟩

/-- The step "disable bitbang" of the read engine against the idealised device. -/
theorem ideal_BBDIS (P : Ideal.Phase) (p : Nat) (store B : Nat → Nat) (n a : Nat)
    (O : Nat → Nat) (L : List Event) (i : Nat) :
    ∃ B1 L1, runStep Ideal.chan i 0 stepBBDIS ⟨⟨Ideal.Mode.bitbang, 0, 0, P, p, store, []⟩, B, n, a, O, L⟩
      = (Outcome.next, ⟨⟨Ideal.Mode.user, 0, 0, P, p, store, Ideal.banner⟩, B1, n, a, O, L1⟩) := by
  exact ⟨_, _, rfl⟩

theorem ideal_drain (P : Ideal.Phase) (p : Nat) (store B : Nat → Nat) (n a : Nat)
    (O : Nat → Nat) (L : List Event) :
    ∃ B1 L1, drain Ideal.chan ⟨⟨Ideal.Mode.user, 0, 0, P, p, store, Ideal.banner⟩, B, n, a, O, L⟩
      = ⟨⟨Ideal.Mode.user, 0, 0, P, p, store, []⟩, B1, n, a, O, L1⟩ :=
  ⟨_, _, rfl⟩

/-- The step "read one byte" of the read engine against the idealised device: the
byte delivered is the byte of the store at the address pointer. -/
theorem ideal_READ (p : Nat) (store B : Nat → Nat) (n a : Nat)
    (O : Nat → Nat) (L : List Event) (i : Nat) :
    runStep Ideal.chan i 0 stepREAD ⟨⟨Ideal.Mode.i2c, 0, 0, Ideal.Phase.reading, p, store, []⟩, B, n, a, O, L⟩
      = if store p = 10 then
          (Outcome.brk, teardown Ideal.chan stepREAD.cdown
            (afterRead Ideal.chan i 0 stepREAD ⟨⟨Ideal.Mode.i2c, 0, 0, Ideal.Phase.reading, p, store, []⟩, B, n, a, O, L⟩))
        else (Outcome.next, afterRead Ideal.chan i 0 stepREAD ⟨⟨Ideal.Mode.i2c, 0, 0, Ideal.Phase.reading, p, store, []⟩, B, n, a, O, L⟩) :=
  runStep_raw Ideal.chan i 0 stepREAD _ [store p] rfl rfl rfl rfl (by simp)

theorem ideal_afterRead (p : Nat) (store B : Nat → Nat) (n a : Nat)
    (O : Nat → Nat) (L : List Event) (i : Nat) :
    ∃ B1 L1, afterRead Ideal.chan i 0 stepREAD ⟨⟨Ideal.Mode.i2c, 0, 0, Ideal.Phase.reading, p, store, []⟩, B, n, a, O, L⟩
      = ⟨⟨Ideal.Mode.i2c, 0, 0, Ideal.Phase.reading, p, store, []⟩, B1, n, a, setAt O i (store p), L1⟩ :=
  ⟨_, _, rfl⟩

theorem ideal_teardown (d : Ideal.Dev) (B : Nat → Nat) (n a : Nat)
    (O : Nat → Nat) (L : List Event) :
    ∃ d1 L1, teardown Ideal.chan stepREAD.cdown ⟨d, B, n, a, O, L⟩ = ⟨d1, B, n, a, O, L1⟩ :=
  ⟨_, _, rfl⟩

/-- A pass of the read engine against the idealised device in user mode, the byte
of the store at the address not being 10: the pass runs to its end, stores that byte
in `outputbuffer[i]`, moves the cursor on and leaves the device in user mode. -/
theorem ideal_pass_next (P : Ideal.Phase) (p : Nat) (store B : Nat → Nat) (n a : Nat)
    (O : Nat → Nat) (L : List Event) (i : Nat) (h : store (a % 256) ≠ 10) :
    ∃ B1 L1, finish Ideal.chan i 0 steps ⟨⟨Ideal.Mode.user, 0, 0, P, p, store, []⟩, B, n, a, O, L⟩
      = (Outcome.next, ⟨⟨Ideal.Mode.user, 0, 0, Ideal.Phase.idle, a % 256, store, []⟩, B1,
          n + 1, (n + 1) % 256, setAt O i (store (a % 256)), L1⟩) := by
  obtain ⟨B1, L1, h1⟩ := ideal_BBEN P p store B n a O L i
  obtain ⟨B2, L2, h2⟩ := ideal_I2CEN P p store B1 n a O L1 i
  obtain ⟨B3, L3, h3⟩ := ideal_PPEN P p store B2 n a O L2 i
  obtain ⟨B4, L4, h4⟩ := ideal_START P p store B3 n a O L3 i
  obtain ⟨B5, L5, h5⟩ := ideal_BULK1 p store B4 n a O L4 i
  obtain ⟨B6, L6, h6⟩ := ideal_DEVWRITEADDR p store B5 n a O L5 i
  obtain ⟨B7, L7, h7⟩ := ideal_ADDRESS p store B6 n a O L6 i
  obtain ⟨B8, L8, h8⟩ := ideal_RESTART Ideal.Phase.data (a % 256) store B7 (n + 1)
    ((n + 1) % 256) O L7 i
  obtain ⟨B9, L9, h9⟩ := ideal_BULK2 (a % 256) store B8 (n + 1) ((n + 1) % 256) O L8 i
  obtain ⟨B10, L10, h10⟩ := ideal_DEVREADADDR (a % 256) store B9 (n + 1) ((n + 1) % 256) O L9 i
  have h11 := ideal_READ (a % 256) store B10 (n + 1) ((n + 1) % 256) O L10 i
  rw [if_neg h] at h11
  obtain ⟨B11, L11, h11a⟩ := ideal_afterRead (a % 256) store B10 (n + 1) ((n + 1) % 256) O L10 i
  rw [h11a] at h11
  obtain ⟨B12, L12, h12⟩ := ideal_NACK Ideal.Phase.reading (a % 256) store B11 (n + 1)
    ((n + 1) % 256) (setAt O i (store (a % 256))) L11 i
  obtain ⟨B13, L13, h13⟩ := ideal_STOP Ideal.Phase.reading (a % 256) store B12 (n + 1)
    ((n + 1) % 256) (setAt O i (store (a % 256))) L12 i
  obtain ⟨B14, L14, h14⟩ := ideal_I2CDIS Ideal.Phase.idle (a % 256) store B13 (n + 1)
    ((n + 1) % 256) (setAt O i (store (a % 256))) L13 i
  obtain ⟨B15, L15, h15⟩ := ideal_BBDIS Ideal.Phase.idle (a % 256) store B14 (n + 1)
    ((n + 1) % 256) (setAt O i (store (a % 256))) L14 i
  obtain ⟨B16, L16, h16⟩ := ideal_drain Ideal.Phase.idle (a % 256) store B15 (n + 1)
    ((n + 1) % 256) (setAt O i (store (a % 256))) L15
  refine ⟨B16, L16, ?_⟩
  simp only [finish, steps, runSteps, h1, h2, h3, h4, h5, h6, h7, h8, h9, h10, h11, h12, h13,
    h14, h15, h16]

/-- A pass of the read engine against the idealised device in user mode, the byte
of the store at the address being 10: the pass stores that byte in `outputbuffer[i]`
and ends the loop. -/
theorem ideal_pass_brk (P : Ideal.Phase) (p : Nat) (store B : Nat → Nat) (n a : Nat)
    (O : Nat → Nat) (L : List Event) (i : Nat) (h : store (a % 256) = 10) :
    ∃ d1 B1 L1, finish Ideal.chan i 0 steps ⟨⟨Ideal.Mode.user, 0, 0, P, p, store, []⟩, B, n, a, O, L⟩
      = (Outcome.brk, ⟨d1, B1, n + 1, (n + 1) % 256, setAt O i (store (a % 256)), L1⟩) := by
  obtain ⟨B1, L1, h1⟩ := ideal_BBEN P p store B n a O L i
  obtain ⟨B2, L2, h2⟩ := ideal_I2CEN P p store B1 n a O L1 i
  obtain ⟨B3, L3, h3⟩ := ideal_PPEN P p store B2 n a O L2 i
  obtain ⟨B4, L4, h4⟩ := ideal_START P p store B3 n a O L3 i
  obtain ⟨B5, L5, h5⟩ := ideal_BULK1 p store B4 n a O L4 i
  obtain ⟨B6, L6, h6⟩ := ideal_DEVWRITEADDR p store B5 n a O L5 i
  obtain ⟨B7, L7, h7⟩ := ideal_ADDRESS p store B6 n a O L6 i
  obtain ⟨B8, L8, h8⟩ := ideal_RESTART Ideal.Phase.data (a % 256) store B7 (n + 1)
    ((n + 1) % 256) O L7 i
  obtain ⟨B9, L9, h9⟩ := ideal_BULK2 (a % 256) store B8 (n + 1) ((n + 1) % 256) O L8 i
  obtain ⟨B10, L10, h10⟩ := ideal_DEVREADADDR (a % 256) store B9 (n + 1) ((n + 1) % 256) O L9 i
  have h11 := ideal_READ (a % 256) store B10 (n + 1) ((n + 1) % 256) O L10 i
  rw [if_pos h] at h11
  obtain ⟨B11, L11, h11a⟩ := ideal_afterRead (a % 256) store B10 (n + 1) ((n + 1) % 256) O L10 i
  rw [h11a] at h11
  obtain ⟨d12, L12, h12⟩ := ideal_teardown
    ⟨Ideal.Mode.i2c, 0, 0, Ideal.Phase.reading, a % 256, store, []⟩ B11 (n + 1)
    ((n + 1) % 256) (setAt O i (store (a % 256))) L11
  rw [h12] at h11
  refine ⟨d12, B11, L12, ?_⟩
  simp only [finish, steps, runSteps, h1, h2, h3, h4, h5, h6, h7, h8, h9, h10, h11]

end Read

namespace Read

open Single

/-- A pass that runs to its end is followed by the next pass, from the first step. -/
theorem resume_next {σ : Type} (ch : Chan σ) (left i : Nat) (rest : List Step)
    (st st1 : State σ) (h : finish ch i 0 rest st = (Outcome.next, st1)) :
    resume ch (left + 1) i rest st = resume ch left (i + 1) steps st1 := by
  rw [resume, h]

/-- The last pass, run to its end, ends the program with status 0. -/
theorem resume_last {σ : Type} (ch : Chan σ) (i : Nat) (rest : List Step)
    (st st1 : State σ) (h : finish ch i 0 rest st = (Outcome.next, st1)) :
    resume ch 0 i rest st = (0, st1) := by
  rw [resume, h]

/-- A pass that leaves the loop ends the program with status 0. -/
theorem resume_brk {σ : Type} (ch : Chan σ) (left i : Nat) (rest : List Step)
    (st st1 : State σ) (h : finish ch i 0 rest st = (Outcome.brk, st1)) :
    resume ch left i rest st = (0, st1) := by
  rw [resume, h]

/-- The read program is its loop from pass 0 on. -/
theorem main_ideal (store garbage output : Nat → Nat) :
    main Ideal.chan (Ideal.start store) garbage output
      = resume Ideal.chan 1023 0 steps
          ⟨⟨Ideal.Mode.user, 0, 0, Ideal.Phase.idle, 0, store, []⟩, garbage, 0, 0, output, []⟩ :=
  rfl

/-- The loop of the read engine against the idealised device, from pass `i` on with
the cursor at `i`, the first byte 10 of the store being at index `k` with
`i ≤ k < 256`: the loop ends with status 0 after the pass that reads index `k`, the
cursor is `k + 1`, and `outputbuffer[i .. k]` holds `store[i .. k]`, the byte 10
included; the other cells are unchanged. -/
theorem ideal_resume_terminator (store : Nat → Nat) (k : Nat) (hk : k < 256)
    (h10 : store k = 10) (hfirst : ∀ j, j < k → store j ≠ 10) :
    ∀ (d i left : Nat) (P : Ideal.Phase) (p : Nat) (B O : Nat → Nat) (L : List Event),
      i + d = k → d ≤ left →
      (resume Ideal.chan left i steps
          ⟨⟨Ideal.Mode.user, 0, 0, P, p, store, []⟩, B, i, i, O, L⟩).1 = 0
      ∧ (resume Ideal.chan left i steps
          ⟨⟨Ideal.Mode.user, 0, 0, P, p, store, []⟩, B, i, i, O, L⟩).2.address = k + 1
      ∧ ∀ j, (resume Ideal.chan left i steps
          ⟨⟨Ideal.Mode.user, 0, 0, P, p, store, []⟩, B, i, i, O, L⟩).2.outputbuffer j
          = if i ≤ j ∧ j ≤ k then store j else O j := by
  intro d
  induction d with
  | zero =>
    intro i left P p B O L hi _
    have hik : i = k := by omega
    subst hik
    have hmod : i % 256 = i := Nat.mod_eq_of_lt hk
    obtain ⟨d1, B1, L1, hfin⟩ := ideal_pass_brk P p store B i i O L i (by rw [hmod]; exact h10)
    rw [resume_brk _ _ _ _ _ _ hfin, hmod]
    refine ⟨rfl, rfl, ?_⟩
    intro j
    by_cases hj : j = i
    · subst hj
      simp [setAt_same]
    · rw [if_neg (by omega)]
      exact setAt_other O i (store i) j hj
  | succ d ih =>
    intro i left P p B O L hi hleft
    have hlt : i < k := by omega
    have hmod : i % 256 = i := Nat.mod_eq_of_lt (by omega)
    have hmod1 : (i + 1) % 256 = i + 1 := Nat.mod_eq_of_lt (by omega)
    obtain ⟨B1, L1, hfin⟩ := ideal_pass_next P p store B i i O L i
      (by rw [hmod]; exact hfirst i hlt)
    obtain ⟨left1, rfl⟩ : ∃ left1, left = left1 + 1 := ⟨left - 1, by omega⟩
    rw [resume_next _ _ _ _ _ _ hfin, hmod, hmod1]
    obtain ⟨e1, e2, e3⟩ := ih (i + 1) left1 Ideal.Phase.idle i B1 (setAt O i (store i)) L1
      (by omega) (by omega)
    refine ⟨e1, e2, ?_⟩
    intro j
    rw [e3 j]
    by_cases hj : j = i
    · subst hj
      rw [if_neg (by omega), if_pos (by omega)]
      exact setAt_same O j (store j)
    · rw [setAt_other O i (store i) j hj]
      by_cases hc : i + 1 ≤ j ∧ j ≤ k
      · rw [if_pos hc, if_pos (by omega)]
      · rw [if_neg hc, if_neg (by omega)]

/-- The loop of the read engine against the idealised device whose store holds no
byte 10 at the indices below 256: the engine never meets the end of data, whatever
the store holds from index 256 on; every pass runs to its end and the cursor has
moved by the number of passes. -/
theorem ideal_resume_no_terminator (store : Nat → Nat) (hnone : ∀ j, j < 256 → store j ≠ 10) :
    ∀ (left i : Nat) (P : Ideal.Phase) (p : Nat) (B O : Nat → Nat) (n a : Nat) (L : List Event),
      (resume Ideal.chan left i steps
          ⟨⟨Ideal.Mode.user, 0, 0, P, p, store, []⟩, B, n, a, O, L⟩).1 = 0
      ∧ (resume Ideal.chan left i steps
          ⟨⟨Ideal.Mode.user, 0, 0, P, p, store, []⟩, B, n, a, O, L⟩).2.address = n + left + 1 := by
  intro left
  induction left with
  | zero =>
    intro i P p B O n a L
    obtain ⟨B1, L1, hfin⟩ := ideal_pass_next P p store B n a O L i
      (hnone (a % 256) (Nat.mod_lt a (by omega)))
    rw [resume_last _ _ _ _ _ hfin]
    exact ⟨rfl, rfl⟩
  | succ left ih =>
    intro i P p B O n a L
    obtain ⟨B1, L1, hfin⟩ := ideal_pass_next P p store B n a O L i
      (hnone (a % 256) (Nat.mod_lt a (by omega)))
    rw [resume_next _ _ _ _ _ _ hfin]
    obtain ⟨e1, e2⟩ := ih (i + 1) Ideal.Phase.idle (a % 256) B1
      (setAt O i (store (a % 256))) (n + 1) ((n + 1) % 256) L1
    exact ⟨e1, by rw [e2]; omega⟩

/-- The read program against the idealised device, the first byte 10 of the store
being at index `k < 256`. -/
theorem ideal_main_terminator (store garbage output : Nat → Nat) (k : Nat) (hk : k < 256)
    (h10 : store k = 10) (hfirst : ∀ j, j < k → store j ≠ 10) :
    (main Ideal.chan (Ideal.start store) garbage output).1 = 0
    ∧ (main Ideal.chan (Ideal.start store) garbage output).2.address = k + 1
    ∧ ∀ j, (main Ideal.chan (Ideal.start store) garbage output).2.outputbuffer j
        = if j ≤ k then store j else output j := by
  obtain ⟨e1, e2, e3⟩ := ideal_resume_terminator store k hk h10 hfirst k 0 1023
    Ideal.Phase.idle 0 garbage output [] (by omega) (by omega)
  rw [main_ideal]
  refine ⟨e1, e2, ?_⟩
  intro j
  have := e3 j
  simp only [Nat.zero_le, true_and] at this
  exact this

end Read

namespace Read

/-- The read program against the idealised device whose store holds no byte 10 at the
indices below 256: all 1024 passes run, the byte 10 is never met. -/
theorem ideal_main_no_terminator (store garbage output : Nat → Nat)
    (hnone : ∀ j, j < 256 → store j ≠ 10) :
    (main Ideal.chan (Ideal.start store) garbage output).1 = 0
    ∧ (main Ideal.chan (Ideal.start store) garbage output).2.address = 1024 := by
  rw [main_ideal]
  exact ideal_resume_no_terminator store hnone 1023 0 Ideal.Phase.idle 0 garbage output 0 0 []

end Read

/-- C12 fails for the store whose first byte 10 is at index 5: the read engine ends
its loop with the cursor at 6 and has placed six bytes in the output buffer, the
byte 10 among them: `outputbuffer[5]` was 0 and is 10. -/
theorem read_stores_terminator :
    Ideal.storeEndingAt 5 5 = 10
    ∧ (∀ j, j < 5 → Ideal.storeEndingAt 5 j ≠ 10)
    ∧ (Read.main Ideal.chan (Ideal.start (Ideal.storeEndingAt 5)) (fun _ => 0) (fun _ => 0)).1 = 0
    ∧ (Read.main Ideal.chan (Ideal.start (Ideal.storeEndingAt 5)) (fun _ => 0)
        (fun _ => 0)).2.address = 6
    ∧ (Read.main Ideal.chan (Ideal.start (Ideal.storeEndingAt 5)) (fun _ => 0)
        (fun _ => 0)).2.outputbuffer 5 = 10
    ∧ (fun _ => 0 : Nat → Nat) 5 ≠ 10 := by
  have hfirst : ∀ j, j < 5 → Ideal.storeEndingAt 5 j ≠ 10 := by
    intro j hj
    simp [Ideal.storeEndingAt]
    omega
  obtain ⟨e1, e2, e3⟩ := Read.ideal_main_terminator (Ideal.storeEndingAt 5) (fun _ => 0)
    (fun _ => 0) 5 (by omega) (by simp [Ideal.storeEndingAt]) hfirst
  refine ⟨by simp [Ideal.storeEndingAt], hfirst, e1, e2, ?_, by simp⟩
  rw [e3 5]
  simp [Ideal.storeEndingAt]

/-- C12, amended: for every store whose first byte of value 10 is at index `k < 256`,
the read engine run against the idealised device ends its loop with status 0 at the
pass that reads index `k`, the cursor being `k + 1`, and the bytes it has placed in
the output buffer are exactly the `k + 1` bytes `store[0 .. k]`, the byte 10
included; the cells after index `k` keep what they held. -/
theorem read_until_terminator (store garbage output : Nat → Nat) (k : Nat) (hk : k < 256)
    (h10 : store k = 10) (hfirst : ∀ j, j < k → store j ≠ 10) :
    (Read.main Ideal.chan (Ideal.start store) garbage output).1 = 0
    ∧ (Read.main Ideal.chan (Ideal.start store) garbage output).2.address = k + 1
    ∧ (∀ j, j ≤ k →
        (Read.main Ideal.chan (Ideal.start store) garbage output).2.outputbuffer j = store j)
    ∧ (Read.main Ideal.chan (Ideal.start store) garbage output).2.outputbuffer k = 10
    ∧ (∀ j, k < j →
        (Read.main Ideal.chan (Ideal.start store) garbage output).2.outputbuffer j = output j) := by
  obtain ⟨e1, e2, e3⟩ := Read.ideal_main_terminator store garbage output k hk h10 hfirst
  refine ⟨e1, e2, ?_, ?_, ?_⟩
  · intro j hj
    rw [e3 j, if_pos hj]
  · rw [e3 k, if_pos (Nat.le_refl k), h10]
  · intro j hj
    rw [e3 j, if_neg (by omega)]

/-- C12, amended, on the store whose first byte 10 is at index 5: the output buffer
holds the six bytes `store[0 .. 5]`. -/
theorem read_until_terminator_witness :
    (5 < 256 ∧ Ideal.storeEndingAt 5 5 = 10 ∧ ∀ j, j < 5 → Ideal.storeEndingAt 5 j ≠ 10)
    ∧ ((Read.main Ideal.chan (Ideal.start (Ideal.storeEndingAt 5)) (fun _ => 0)
          (fun _ => 7)).1 = 0
      ∧ (Read.main Ideal.chan (Ideal.start (Ideal.storeEndingAt 5)) (fun _ => 0)
          (fun _ => 7)).2.address = 5 + 1
      ∧ (∀ j, j ≤ 5 →
          (Read.main Ideal.chan (Ideal.start (Ideal.storeEndingAt 5)) (fun _ => 0)
            (fun _ => 7)).2.outputbuffer j = Ideal.storeEndingAt 5 j)
      ∧ (Read.main Ideal.chan (Ideal.start (Ideal.storeEndingAt 5)) (fun _ => 0)
          (fun _ => 7)).2.outputbuffer 5 = 10
      ∧ (∀ j, 5 < j →
          (Read.main Ideal.chan (Ideal.start (Ideal.storeEndingAt 5)) (fun _ => 0)
            (fun _ => 7)).2.outputbuffer j = (fun _ => 7 : Nat → Nat) j)) :=
  ⟨⟨by decide, by decide, by intro j hj; interval_cases j <;> decide⟩,
   read_until_terminator (Ideal.storeEndingAt 5) (fun _ => 0) (fun _ => 7) 5 (by decide)
     (by decide) (by intro j hj; interval_cases j <;> decide)⟩

/-! ## The array cells the batched engine uses are inside the arrays -/

namespace WriteAll

theorem mem_span (arr : Arr) (kind : Use) (n : Nat) (a : Access) (h : a ∈ span arr kind n) :
    a.arr = arr ∧ a.kind = kind ∧ a.index < n := by
  simp only [span, List.mem_map, List.mem_range] at h
  obtain ⟨i, hi, rfl⟩ := h
  exact ⟨rfl, rfl, hi⟩

/-- The data-copy loop stores in `writebuffer[26 + j ..]` below the cell `26 + j` of
the end of the loop, and loads from `inputbuffer` below `inputbuffercount + 8` and
below 8. -/
theorem copyLoopAccesses_bound (inputbuffer : List Nat) (left : Nat) :
    ∀ (j cnt : Nat) (a : Access), a ∈ copyLoopAccesses inputbuffer left j cnt →
      (a.arr = Arr.writebuffer
        ∧ ∀ (wb : Nat → Nat) (c : Nat), a.index < 26 + (copyLoop inputbuffer left j wb c).1)
      ∨ (a.arr = Arr.inputbuffer ∧ (a.index < cnt + left ∨ a.index < j + left)) := by
  induction left with
  | zero =>
    intro j cnt a h
    simp [copyLoopAccesses] at h
  | succ left ih =>
    intro j cnt a h
    simp only [copyLoopAccesses, List.mem_append, List.mem_cons, List.mem_singleton,
      List.not_mem_nil, or_false] at h
    rcases h with (rfl | rfl | rfl) | h
    · exact Or.inr ⟨rfl, Or.inl (by simp)⟩
    · refine Or.inl ⟨rfl, ?_⟩
      intro wb c
      have := (copyLoop_spec inputbuffer (left + 1) j wb c).2.2.1 (by omega)
      simp only
      omega
    · exact Or.inr ⟨rfl, Or.inr (by simp)⟩
    · by_cases h10 : byteAt inputbuffer j = 10
      · rw [if_pos h10] at h
        simp at h
      · rw [if_neg h10] at h
        rcases ih (j + 1) (cnt + 1) a h with ⟨h1, h2⟩ | ⟨h1, h2⟩
        · refine Or.inl ⟨h1, ?_⟩
          intro wb c
          have := h2 (setAt wb (26 + j) (byteAt inputbuffer c)) (c + 1)
          simp only [copyLoop, if_neg h10]
          exact this
        · refine Or.inr ⟨h1, ?_⟩
          omega

/-- The cells `strncmp` inspects lie below `off + n`. -/
theorem strncmpAccesses_bound (s2 : Nat → Nat) (n : Nat) :
    ∀ (s1 : List Nat) (off : Nat) (a : Access), a ∈ strncmpAccesses s1 s2 off n →
      a.arr = Arr.BPbuffer ∧ a.kind = Use.load ∧ a.index < off + n := by
  induction n with
  | zero =>
    intro s1 off a h
    simp [strncmpAccesses] at h
  | succ n ih =>
    intro s1 off a h
    simp only [strncmpAccesses, List.mem_cons] at h
    rcases h with rfl | h
    · exact ⟨rfl, rfl, by simp⟩
    · by_cases h1 : s1.headD 0 ≠ s2 off
      · rw [if_pos h1] at h
        simp at h
      · rw [if_neg h1] at h
        by_cases h2 : s1.headD 0 = 0
        · rw [if_pos h2] at h
          simp at h
        · rw [if_neg h2] at h
          obtain ⟨e1, e2, e3⟩ := ih s1.tail (off + 1) a h
          exact ⟨e1, e2, by omega⟩

/-- The cells the acknowledgement loop inspects lie below `14 + k + left`. -/
theorem ackLoopAccesses_bound (BPbuffer : Nat → Nat) (left : Nat) :
    ∀ (k : Nat) (a : Access), a ∈ ackLoopAccesses BPbuffer left k →
      a.arr = Arr.BPbuffer ∧ a.kind = Use.load ∧ a.index < 14 + k + left := by
  induction left with
  | zero =>
    intro k a h
    simp [ackLoopAccesses] at h
  | succ left ih =>
    intro k a h
    simp only [ackLoopAccesses, List.mem_cons] at h
    rcases h with rfl | h
    · exact ⟨rfl, rfl, by simp⟩
    · by_cases h1 : BPbuffer (14 + k) ≠ 0
      · rw [if_pos h1] at h
        simp at h
      · rw [if_neg h1] at h
        obtain ⟨e1, e2, e3⟩ := ih (k + 1) a h
        exact ⟨e1, e2, by omega⟩

theorem disableEchoAccesses_bound (BPbuffer : Nat → Nat) (k : Nat) (a : Access)
    (h : a ∈ disableEchoAccesses BPbuffer k) :
    a.arr = Arr.BPbuffer ∧ a.kind = Use.load ∧ a.index ≤ 18 + k := by
  simp only [disableEchoAccesses, List.mem_cons] at h
  rcases h with rfl | h
  · exact ⟨rfl, rfl, by simp⟩
  · by_cases h1 : BPbuffer (15 + k) ≠ 66
    · rw [if_pos h1, List.mem_cons] at h
      rcases h with rfl | h
      · exact ⟨rfl, rfl, by simp⟩
      · by_cases h2 : BPbuffer (16 + k) ≠ 66
        · rw [if_pos h2, List.mem_cons] at h
          rcases h with rfl | h
          · exact ⟨rfl, rfl, by simp⟩
          · by_cases h3 : BPbuffer (17 + k) ≠ 73
            · rw [if_pos h3, List.mem_singleton] at h
              subst h
              exact ⟨rfl, rfl, by simp⟩
            · rw [if_neg h3] at h
              simp at h
        · rw [if_neg h2] at h
          simp at h
    · rw [if_neg h1] at h
      simp at h

theorem trailerAccesses_bound (BPbuffer : Nat → Nat) (k : Nat) (a : Access)
    (h : a ∈ trailerAccesses BPbuffer k) :
    a.arr = Arr.BPbuffer ∧ a.kind = Use.load ∧ a.index ≤ 20 + k := by
  simp only [trailerAccesses, List.mem_cons] at h
  rcases h with rfl | h
  · exact ⟨rfl, rfl, by simp⟩
  · by_cases h1 : BPbuffer (14 + k) ≠ 1
    · rw [if_pos h1] at h
      simp at h
    · rw [if_neg h1, List.mem_append] at h
      rcases h with h | h
      · obtain ⟨e1, e2, e3⟩ := disableEchoAccesses_bound BPbuffer k a h
        exact ⟨e1, e2, by omega⟩
      · by_cases h2 : BPbuffer (15 + k) ≠ 66 ∧ BPbuffer (16 + k) ≠ 66
            ∧ BPbuffer (17 + k) ≠ 73 ∧ BPbuffer (18 + k) ≠ 79
        · rw [if_pos h2] at h
          simp at h
        · rw [if_neg h2, List.mem_singleton] at h
          subst h
          exact ⟨rfl, rfl, by simp⟩

end WriteAll

namespace WriteAll

theorem echoAccesses_bound (BPbuffer : Nat → Nat) (j : Nat) (a : Access)
    (h : a ∈ echoAccesses BPbuffer j) :
    a.arr = Arr.BPbuffer ∧ a.kind = Use.load ∧ a.index ≤ 20 + j := by
  simp only [echoAccesses, List.mem_cons] at h
  rcases h with rfl | h
  · exact ⟨rfl, rfl, by dsimp only; omega⟩
  by_cases h9 : BPbuffer 9 ≠ 1
  · rw [if_pos h9] at h
    simp at h
  rw [if_neg h9, List.mem_cons] at h
  rcases h with rfl | h
  · exact ⟨rfl, rfl, by dsimp only; omega⟩
  by_cases h10 : BPbuffer 10 ≠ 1
  · rw [if_pos h10] at h
    simp at h
  rw [if_neg h10, List.mem_cons] at h
  rcases h with rfl | h
  · exact ⟨rfl, rfl, by dsimp only; omega⟩
  by_cases h11 : BPbuffer 11 ≠ 1
  · rw [if_pos h11] at h
    simp at h
  rw [if_neg h11, List.mem_cons] at h
  rcases h with rfl | h
  · exact ⟨rfl, rfl, by dsimp only; omega⟩
  by_cases h12 : BPbuffer 12 ≠ 0
  · rw [if_pos h12] at h
    simp at h
  rw [if_neg h12, List.mem_cons] at h
  rcases h with rfl | h
  · exact ⟨rfl, rfl, by dsimp only; omega⟩
  by_cases h13 : BPbuffer 13 ≠ 0
  · rw [if_pos h13] at h
    simp at h
  rw [if_neg h13, List.mem_append] at h
  rcases h with h | h
  · obtain ⟨e1, e2, e3⟩ := ackLoopAccesses_bound BPbuffer j 0 a h
    exact ⟨e1, e2, by omega⟩
  · cases hk : ackLoop BPbuffer j 0 with
    | none =>
      rw [hk] at h
      simp at h
    | some k =>
      rw [hk] at h
      have hkj := (ackLoop_some BPbuffer j 0 k hk).1
      obtain ⟨e1, e2, e3⟩ := trailerAccesses_bound BPbuffer k a h
      exact ⟨e1, e2, by omega⟩

/-- The checks on the fused response inspect cells of `BPbuffer` up to `20 + j`. -/
theorem validateAccesses_bound (BPbuffer : Nat → Nat) (j : Nat) (a : Access)
    (h : a ∈ validateAccesses BPbuffer j) :
    a.arr = Arr.BPbuffer ∧ a.kind = Use.load ∧ a.index ≤ 20 + j := by
  simp only [validateAccesses, List.mem_append] at h
  rcases h with h | h
  · obtain ⟨e1, e2, e3⟩ := strncmpAccesses_bound BPbuffer 5 litBBIO1 0 a h
    exact ⟨e1, e2, by omega⟩
  by_cases h1 : strncmp litBBIO1 BPbuffer 0 5 ≠ 0
  · rw [if_pos h1] at h
    simp at h
  rw [if_neg h1, List.mem_append] at h
  rcases h with h | h
  · obtain ⟨e1, e2, e3⟩ := strncmpAccesses_bound BPbuffer 9 litBBIO1I2C1 0 a h
    exact ⟨e1, e2, by omega⟩
  by_cases h2 : strncmp litBBIO1I2C1 BPbuffer 0 9 ≠ 0
  · rw [if_pos h2] at h
    simp at h
  rw [if_neg h2] at h
  exact echoAccesses_bound BPbuffer j a h

/-- The cells used to fill, patch and send the write buffer: cells of `writebuffer` up
to `29 + j`, and cells of `inputbuffer` below `inputbuffercount + 8`. -/
theorem sendBatchAccesses_bound {σ : Type} (ch : Chan σ) (inputbuffer : List Nat)
    (st : State σ) (a : Access) (h : a ∈ sendBatchAccesses ch inputbuffer st) :
    (a.arr = Arr.writebuffer ∧ a.index ≤ 29 + batchLen inputbuffer)
    ∨ (a.arr = Arr.inputbuffer ∧ a.index < st.inputbuffercount + 8) := by
  simp only [sendBatchAccesses, sendBatch_len, List.mem_append, List.mem_cons,
    List.mem_singleton, List.not_mem_nil, or_false] at h
  rcases h with ((rfl | h) | (rfl | rfl | rfl | rfl | rfl)) | h
  · exact Or.inl ⟨rfl, by dsimp only; omega⟩
  · rcases copyLoopAccesses_bound inputbuffer 8 0 st.inputbuffercount a h with
      ⟨h1, h2⟩ | ⟨h1, h2⟩
    · refine Or.inl ⟨h1, ?_⟩
      have := h2 (fun _ => 0) 0
      unfold batchLen
      omega
    · exact Or.inr ⟨h1, by omega⟩
  · exact Or.inl ⟨rfl, by dsimp only; omega⟩
  · exact Or.inl ⟨rfl, by dsimp only; omega⟩
  · exact Or.inl ⟨rfl, by dsimp only; omega⟩
  · exact Or.inl ⟨rfl, by dsimp only; omega⟩
  · exact Or.inl ⟨rfl, by dsimp only; omega⟩
  · obtain ⟨e1, _, e3⟩ := mem_span _ _ _ a h
    exact Or.inl ⟨e1, by omega⟩

/-- The cells one pass of the main loop uses. -/
theorem batchAccesses_bound {σ : Type} (ch : Chan σ) (inputbuffer : List Nat)
    (st : State σ) (a : Access) (h : a ∈ batchAccesses ch inputbuffer st) :
    (a.arr = Arr.writebuffer ∧ a.index ≤ 29 + batchLen inputbuffer)
    ∨ (a.arr = Arr.inputbuffer ∧ a.index < st.inputbuffercount + 8)
    ∨ (a.arr = Arr.BPbuffer ∧ a.kind = Use.load ∧ a.index ≤ 20 + batchLen inputbuffer)
    ∨ (a.arr = Arr.BPbuffer ∧ a.kind = Use.store ∧ a.index < 132) := by
  have hb := batchLen_bounds inputbuffer
  simp only [batchAccesses, sendBatch_len, List.mem_append] at h
  rcases h with h | h
  · rcases sendBatchAccesses_bound ch inputbuffer st a h with h1 | h1
    · exact Or.inl h1
    · exact Or.inr (Or.inl h1)
  by_cases hw : (sendBatch ch inputbuffer st).1 = false
  · rw [if_pos hw] at h
    simp at h
  rw [if_neg hw, List.mem_append] at h
  rcases h with h | h
  · obtain ⟨e1, e2, e3⟩ := mem_span _ _ _ a h
    exact Or.inr (Or.inr (Or.inr ⟨e1, e2, by omega⟩))
  by_cases hr : readResult (21 + batchLen inputbuffer + 1)
      (ch.read (sendBatch ch inputbuffer st).2.2.dev (21 + batchLen inputbuffer + 1)).1 ≤ 0
  · rw [if_pos hr] at h
    simp at h
  rw [if_neg hr, List.mem_append] at h
  rcases h with h | h
  · exact Or.inr (Or.inr (Or.inl (validateAccesses_bound _ _ a h)))
  · cases hv : validate (readResponse ch (batchLen inputbuffer)
        (sendBatch ch inputbuffer st).2.2).BPbuffer (batchLen inputbuffer) with
    | some code =>
      rw [hv] at h
      simp at h
    | none =>
      rw [hv] at h
      simp only [List.mem_append, or_self] at h
      obtain ⟨e1, e2, e3⟩ := mem_span _ _ _ a h
      exact Or.inr (Or.inr (Or.inr ⟨e1, e2, e3⟩))

/-- The cells the main loop uses in `left` passes from the state `st`. -/
theorem mainLoopAccesses_bound {σ : Type} (ch : Chan σ) (inputbuffer : List Nat) (left : Nat) :
    ∀ (st : State σ) (a : Access), a ∈ mainLoopAccesses ch inputbuffer left st →
      (a.arr = Arr.writebuffer ∧ a.index ≤ 29 + batchLen inputbuffer)
      ∨ (a.arr = Arr.inputbuffer ∧ a.index < st.inputbuffercount + 8 * left)
      ∨ (a.arr = Arr.BPbuffer ∧ a.kind = Use.load ∧ a.index ≤ 20 + batchLen inputbuffer)
      ∨ (a.arr = Arr.BPbuffer ∧ a.kind = Use.store ∧ a.index < 132) := by
  induction left with
  | zero =>
    intro st a h
    simp [mainLoopAccesses] at h
  | succ left ih =>
    intro st a h
    have hb := batchLen_bounds inputbuffer
    simp only [mainLoopAccesses, List.mem_append] at h
    rcases h with h | h
    · rcases batchAccesses_bound ch inputbuffer st a h with h1 | h1 | h1 | h1
      · exact Or.inl h1
      · exact Or.inr (Or.inl ⟨h1.1, by omega⟩)
      · exact Or.inr (Or.inr (Or.inl h1))
      · exact Or.inr (Or.inr (Or.inr h1))
    · have hc := (batch_facts ch inputbuffer st).2.1
      cases hbt : batch ch inputbuffer st with
      | mk out st1 =>
        rw [hbt] at h hc
        simp only at hc
        cases out with
        | some code => simp at h
        | none =>
          simp only at h
          rcases ih st1 a h with h1 | h1 | h1 | h1
          · exact Or.inl h1
          · exact Or.inr (Or.inl ⟨h1.1, by omega⟩)
          · exact Or.inr (Or.inr (Or.inl h1))
          · exact Or.inr (Or.inr (Or.inr h1))

end WriteAll

namespace WriteAll

theorem loadInput_length (stdin : List Nat) : (loadInput stdin).length = 256 := by
  have h := fgets_length BUFFERSIZE stdin
  simp only [BUFFERSIZE] at h
  simp only [loadInput, List.length_append, List.length_replicate, BUFFERSIZE]
  omega

theorem numloops_input (late : Bool) (stdin : List Nat) :
    1 ≤ numloops late (strlen (loadInput stdin))
    ∧ 8 * numloops late (strlen (loadInput stdin)) ≤ 256 := by
  have h1 := numloops_pos late (strlen (loadInput stdin))
  have h2 := numloops_le late (strlen (loadInput stdin))
  have h3 := loadInput_strlen stdin
  refine ⟨h1, ?_⟩
  omega

/-- The first pass of the main loop stores in `writebuffer[29 + j]`. -/
theorem mainAccesses_last_store {σ : Type} (late : Bool) (ch : Chan σ) (dev : σ)
    (stdin : List Nat) :
    ⟨Arr.writebuffer, Use.store, 29 + batchLen (loadInput stdin)⟩
      ∈ mainAccesses late ch dev stdin := by
  obtain ⟨n, hn⟩ : ∃ n, numloops late (strlen (loadInput stdin)) = n + 1 :=
    ⟨numloops late (strlen (loadInput stdin)) - 1,
      by have := numloops_pos late (strlen (loadInput stdin)); omega⟩
  simp only [mainAccesses, hn, mainLoopAccesses, batchAccesses, sendBatchAccesses,
    sendBatch_len, List.mem_append, List.mem_cons, List.mem_singleton]
  simp

end WriteAll

/-- C21: in every run of the batched engine, whatever the bytes on standard input
(the input buffer is zero-filled, holds at most 255 of them and so is NUL-terminated
within its 256 cells), every array cell the main loop uses is in bounds.  With `j`
the batch length of the passes, `1 ≤ j ≤ 8`: the indices into the 38-byte write
buffer are at most `29 + j ≤ 37`, and the cell `29 + j` is stored to; the indices
into the 256-byte input buffer are at most `8 * numloops - 1 ≤ 255`; the offsets of
the response that are inspected are at most `20 + j`, below the `21 + j + 1` bytes
requested and below the 256 cells of the response buffer; the areas handed to `read`
are inside the response buffer. -/
theorem array_indices_in_bounds {σ : Type} (late : Bool) (ch : Chan σ) (dev : σ)
    (stdin : List Nat) :
    ((WriteAll.loadInput stdin).length = 256 ∧ strlen (WriteAll.loadInput stdin) ≤ 255)
    ∧ (1 ≤ WriteAll.batchLen (WriteAll.loadInput stdin)
      ∧ WriteAll.batchLen (WriteAll.loadInput stdin) ≤ 8)
    ∧ ⟨WriteAll.Arr.writebuffer, WriteAll.Use.store,
        29 + WriteAll.batchLen (WriteAll.loadInput stdin)⟩
        ∈ WriteAll.mainAccesses late ch dev stdin
    ∧ ∀ a, a ∈ WriteAll.mainAccesses late ch dev stdin →
        a.index < a.arr.size
        ∧ (a.arr = WriteAll.Arr.writebuffer →
            a.index ≤ 29 + WriteAll.batchLen (WriteAll.loadInput stdin)
            ∧ 29 + WriteAll.batchLen (WriteAll.loadInput stdin) ≤ 37)
        ∧ (a.arr = WriteAll.Arr.inputbuffer →
            a.index ≤ 8 * WriteAll.numloops late (strlen (WriteAll.loadInput stdin)) - 1
            ∧ 8 * WriteAll.numloops late (strlen (WriteAll.loadInput stdin)) - 1 ≤ 255
            ∧ a.index < (WriteAll.loadInput stdin).length)
        ∧ (a.arr = WriteAll.Arr.BPbuffer → a.kind = WriteAll.Use.load →
            a.index ≤ 20 + WriteAll.batchLen (WriteAll.loadInput stdin)
            ∧ 20 + WriteAll.batchLen (WriteAll.loadInput stdin)
                < 21 + WriteAll.batchLen (WriteAll.loadInput stdin) + 1
            ∧ 20 + WriteAll.batchLen (WriteAll.loadInput stdin) < 256) := by
  have hlen := WriteAll.loadInput_length stdin
  have hb := WriteAll.batchLen_bounds (WriteAll.loadInput stdin)
  obtain ⟨hn1, hn2⟩ := WriteAll.numloops_input late stdin
  refine ⟨⟨hlen, WriteAll.loadInput_strlen stdin⟩, hb,
    WriteAll.mainAccesses_last_store late ch dev stdin, ?_⟩
  intro a ha
  have h := WriteAll.mainLoopAccesses_bound ch (WriteAll.loadInput stdin) _ _ a ha
  have h0 : (WriteAll.initialState dev).inputbuffercount = 0 := rfl
  rw [h0] at h
  rcases h with ⟨h1, h2⟩ | ⟨h1, h2⟩ | ⟨h1, h2, h3⟩ | ⟨h1, h2, h3⟩
  · refine ⟨?_, fun _ => ⟨h2, by omega⟩, ?_, ?_⟩
    · rw [h1]
      simp only [WriteAll.Arr.size]
      omega
    · intro hc
      rw [h1] at hc
      exact absurd hc (by decide)
    · intro hc
      rw [h1] at hc
      exact absurd hc (by decide)
  · refine ⟨?_, ?_, fun _ => ⟨by omega, by omega, by omega⟩, ?_⟩
    · rw [h1]
      simp only [WriteAll.Arr.size, WriteAll.BUFFERSIZE]
      omega
    · intro hc
      rw [h1] at hc
      exact absurd hc (by decide)
    · intro hc
      rw [h1] at hc
      exact absurd hc (by decide)
  · refine ⟨?_, ?_, ?_, fun _ _ => ⟨h3, by omega, by omega⟩⟩
    · rw [h1]
      simp only [WriteAll.Arr.size, WriteAll.BUFFERSIZE]
      omega
    · intro hc
      rw [h1] at hc
      exact absurd hc (by decide)
    · intro hc
      rw [h1] at hc
      exact absurd hc (by decide)
  · refine ⟨?_, ?_, ?_, ?_⟩
    · rw [h1]
      simp only [WriteAll.Arr.size, WriteAll.BUFFERSIZE]
      omega
    · intro hc
      rw [h1] at hc
      exact absurd hc (by decide)
    · intro hc
      rw [h1] at hc
      exact absurd hc (by decide)
    · intro _ hk
      rw [h2] at hk
      exact absurd hk (by decide)

/-- C21, at the line `"AB\n"` against the idealised device: the run loads the cells
0, 1, 2 of the input buffer, inspects the response up to the offset 23, and its store
to `writebuffer[32]` is inside the 38 cells of the write buffer. -/
theorem array_indices_in_bounds_witness :
    ((WriteAll.mainAccesses false Ideal.chan (Ideal.start (fun _ => 0)) [65, 66, 10]).filter
        (fun a => a.arr = WriteAll.Arr.inputbuffer)).map (fun a => a.index)
      = [0, 0, 1, 1, 2, 2]
    ∧ ((WriteAll.mainAccesses false Ideal.chan (Ideal.start (fun _ => 0)) [65, 66, 10]).filter
        (fun a => a.arr = WriteAll.Arr.BPbuffer ∧ a.kind = WriteAll.Use.load)).map
          (fun a => a.index)
      = [0, 1, 2, 3, 4, 0, 1, 2, 3, 4, 5, 6, 7, 8, 9, 10, 11, 12, 13, 14, 15, 16, 17, 18, 23]
    ∧ (⟨WriteAll.Arr.writebuffer, WriteAll.Use.store, 32⟩ : WriteAll.Access)
        ∈ WriteAll.mainAccesses false Ideal.chan (Ideal.start (fun _ => 0)) [65, 66, 10]
    ∧ 32 < WriteAll.Arr.size WriteAll.Arr.writebuffer :=
  ⟨by decide, by decide, by decide,
   ((array_indices_in_bounds false Ideal.chan (Ideal.start (fun _ => 0)) [65, 66, 10]).2.2.2
      ⟨WriteAll.Arr.writebuffer, WriteAll.Use.store, 32⟩ (by decide)).1⟩
